import Mathlib

/-!
# serper-go: the client dispatcher and its wire format

A shallow embedding of `serper/client.go` and `serper/types.go`.

* A Go string that passes through `encoding/json` (every string field of
  `types.go`, every map key, the message of an error) is a sequence of bytes,
  which need not be valid UTF-8.  The strings the client only stores and
  concatenates (API key, URL, header names) and the body of a response are
  text.
* Go `int` is a 64-bit signed integer; it is an `Int` with the range made
  explicit where a number is read from the wire.
* `encoding/json` is embedded at the level of characters: a value tree, the
  compact rendering `json.Marshal` produces (an invalid byte of a string is
  written as the escape of U+FFFD), and the reader behind
  `json.NewDecoder(r).Decode`, which consumes the first value of the stream,
  leaves whatever follows it unread, and refuses a value nested deeper than
  10000 levels.
-/

namespace Serper

/-! ## Go strings -/

/-- A byte. -/
abbrev Byte := Fin 256

/-- A Go `string`: a sequence of bytes. -/
abbrev GoString := List Byte

/-- The byte with a given value (taken modulo 256). -/
def byte (n : Nat) : Byte := ⟨n % 256, Nat.mod_lt n (by decide)⟩

/-- The UTF-8 encoding of a character (`utf8.AppendRune`). -/
def encodeRune (c : Char) : List Byte :=
  if c.toNat < 0x80 then [byte c.toNat]
  else if c.toNat < 0x800 then [byte (0xC0 + c.toNat / 64), byte (0x80 + c.toNat % 64)]
  else if c.toNat < 0x10000 then
    [byte (0xE0 + c.toNat / 4096), byte (0x80 + c.toNat / 64 % 64), byte (0x80 + c.toNat % 64)]
  else
    [byte (0xF0 + c.toNat / 262144), byte (0x80 + c.toNat / 4096 % 64),
      byte (0x80 + c.toNat / 64 % 64), byte (0x80 + c.toNat % 64)]

/-- The UTF-8 encoding of a sequence of characters. -/
def encodeRunes : List Char → GoString
  | [] => []
  | c :: cs => encodeRune c ++ encodeRunes cs

/-- The Go string that holds a text. -/
def bytes (s : String) : GoString := encodeRunes s.data

/-- A UTF-8 continuation byte. -/
def isCont (b : Byte) : Bool := 0x80 ≤ b.val ∧ b.val < 0xC0

/-- The code point encoded at the head of a byte sequence and the bytes after
it (`utf8.DecodeRune`); `none` when the sequence is empty or its first byte
does not start a well-formed encoding (overlong forms, surrogates and code
points above U+10FFFF are not well formed). -/
def decodeRune : List Byte → Option (Nat × List Byte)
  | [] => none
  | b0 :: rest =>
    if b0.val < 0x80 then some (b0.val, rest)
    else if b0.val < 0xC2 then none
    else if b0.val < 0xE0 then
      match rest with
      | b1 :: rest1 =>
        if isCont b1 then some ((b0.val - 0xC0) * 64 + (b1.val - 0x80), rest1) else none
      | _ => none
    else if b0.val < 0xF0 then
      match rest with
      | b1 :: b2 :: rest2 =>
        if (if b0.val = 0xE0 then 0xA0 else 0x80) ≤ b1.val
            ∧ b1.val ≤ (if b0.val = 0xED then 0x9F else 0xBF) ∧ isCont b2 then
          some ((b0.val - 0xE0) * 4096 + (b1.val - 0x80) * 64 + (b2.val - 0x80), rest2)
        else none
      | _ => none
    else if b0.val < 0xF5 then
      match rest with
      | b1 :: b2 :: b3 :: rest3 =>
        if (if b0.val = 0xF0 then 0x90 else 0x80) ≤ b1.val
            ∧ b1.val ≤ (if b0.val = 0xF4 then 0x8F else 0xBF) ∧ isCont b2 ∧ isCont b3 then
          some ((b0.val - 0xF0) * 262144 + (b1.val - 0x80) * 4096 + (b2.val - 0x80) * 64
            + (b3.val - 0x80), rest3)
        else none
      | _ => none
    else none

/-- Is the byte sequence valid UTF-8 (`utf8.Valid`)?  The first argument
bounds the number of characters. -/
def validUTF8 : Nat → GoString → Bool
  | _, [] => true
  | 0, _ :: _ => false
  | fuel + 1, b :: bs =>
    match decodeRune (b :: bs) with
    | some (_, rest) => validUTF8 fuel rest
    | none => false

/-- A Go string that holds valid UTF-8. -/
def GoString.valid (s : GoString) : Prop := validUTF8 s.length s = true

/-- The characters a `range` loop over a Go string yields: a byte that starts
no well-formed encoding counts as U+FFFD.  The first argument bounds the
number of characters. -/
def runes : Nat → GoString → List Char
  | _, [] => []
  | 0, _ :: _ => []
  | fuel + 1, b :: bs =>
    match decodeRune (b :: bs) with
    | some (n, rest) => Char.ofNat n :: runes fuel rest
    | none => Char.ofNat 0xFFFD :: runes fuel bs

/-! ## JSON values -/

/-- A JSON value as the reader sees it.  A number keeps its literal; a string
and a key are Go strings. -/
inductive JSON where
  | null
  | bool (b : Bool)
  | num (lit : String)
  | str (s : GoString)
  | arr (elems : List JSON)
  | obj (members : List (GoString × JSON))
  deriving Repr

/-- Errors of `encoding/json`: `io.EOF`, `io.ErrUnexpectedEOF`,
`*json.SyntaxError` and `*json.UnmarshalTypeError`. -/
inductive JSONError where
  | eof
  | unexpectedEOF
  | syntaxError
  | typeError
  deriving DecidableEq, Repr

/-! ## Rendering (`json.Marshal`) -/

/-- The lower-case hexadecimal digit of a value below sixteen. -/
def hexDigit (n : Nat) : Char :=
  if n < 10 then Char.ofNat (48 + n) else Char.ofNat (87 + n)

/-- The escape `\u00XY` of a code below 256. -/
def escapeU00 (n : Nat) : List Char :=
  ['\\', 'u', '0', '0', hexDigit (n / 16), hexDigit (n % 16)]

/-- How the encoder writes one character of a string (HTML escaping on, as
`json.Marshal` has it). -/
def escapeChar (c : Char) : List Char :=
  if c = '"' then ['\\', '"']
  else if c = '\\' then ['\\', '\\']
  else if c = '\x08' then ['\\', 'b']
  else if c = '\x0c' then ['\\', 'f']
  else if c = '\n' then ['\\', 'n']
  else if c = '\r' then ['\\', 'r']
  else if c = '\t' then ['\\', 't']
  else if c.toNat < 32 then escapeU00 c.toNat
  else if c = '<' ∨ c = '>' ∨ c = '&' then escapeU00 c.toNat
  else if c = '\u2028' then ['\\', 'u', '2', '0', '2', '8']
  else if c = '\u2029' then ['\\', 'u', '2', '0', '2', '9']
  else [c]

/-- The body of the literal of a Go string (`appendString`): each character
as the encoder writes it, and the escape of U+FFFD for a byte that starts no
well-formed encoding.  The first argument bounds the number of characters. -/
def escapeString : Nat → GoString → List Char
  | _, [] => []
  | 0, _ :: _ => []
  | fuel + 1, b :: bs =>
    match decodeRune (b :: bs) with
    | some (n, rest) => escapeChar (Char.ofNat n) ++ escapeString fuel rest
    | none => '\\' :: 'u' :: 'f' :: 'f' :: 'f' :: 'd' :: escapeString fuel bs

/-- A quoted string literal. -/
def renderString (s : GoString) : List Char :=
  '"' :: (escapeString s.length s ++ ['"'])

/-- Decimal digits of a natural number, most significant first; the first
argument bounds the number of digits. -/
def natDigits : Nat → Nat → List Char
  | 0, _ => []
  | fuel + 1, n =>
    if n < 10 then [Char.ofNat (48 + n)]
    else natDigits fuel (n / 10) ++ [Char.ofNat (48 + n % 10)]

/-- The decimal literal of an integer, as `strconv.AppendInt` writes it. -/
def intLit (i : Int) : List Char :=
  match i with
  | Int.ofNat n => natDigits (n + 1) n
  | Int.negSucc n => '-' :: natDigits (n + 2) (n + 1)

mutual
/-- Compact rendering of a value. -/
def render : JSON → List Char
  | .null => ['n', 'u', 'l', 'l']
  | .bool true => ['t', 'r', 'u', 'e']
  | .bool false => ['f', 'a', 'l', 's', 'e']
  | .num lit => lit.data
  | .str s => renderString s
  | .arr xs => '[' :: renderElems xs
  | .obj ms => '{' :: renderMembers ms
/-- The elements of an array and its closing bracket. -/
def renderElems : List JSON → List Char
  | [] => [']']
  | [x] => render x ++ [']']
  | x :: y :: xs => render x ++ ',' :: renderElems (y :: xs)
/-- The members of an object and its closing brace. -/
def renderMembers : List (GoString × JSON) → List Char
  | [] => ['}']
  | [(k, v)] => renderString k ++ ':' :: (render v ++ ['}'])
  | (k, v) :: m :: ms => renderString k ++ ':' :: (render v ++ ',' :: renderMembers (m :: ms))
end

/-! ## Reading (`json.NewDecoder(r).Decode`) -/

/-- White space between tokens. -/
def isSpace (c : Char) : Bool :=
  c = ' ' ∨ c = '\t' ∨ c = '\r' ∨ c = '\n'

/-- Drop leading white space. -/
def skipSpace : List Char → List Char
  | [] => []
  | c :: cs => if isSpace c then skipSpace cs else c :: cs

/-- Is the character a decimal digit? -/
def isDigit (c : Char) : Bool := 48 ≤ c.toNat ∧ c.toNat ≤ 57

/-- Split off the leading decimal digits. -/
def takeDigits : List Char → List Char × List Char
  | [] => ([], [])
  | c :: cs =>
    if isDigit c then ((takeDigits cs).1.cons c, (takeDigits cs).2) else ([], c :: cs)

/-- The value of a hexadecimal digit. -/
def hexVal (c : Char) : Option Nat :=
  if 48 ≤ c.toNat ∧ c.toNat ≤ 57 then some (c.toNat - 48)
  else if 97 ≤ c.toNat ∧ c.toNat ≤ 102 then some (c.toNat - 87)
  else if 65 ≤ c.toNat ∧ c.toNat ≤ 70 then some (c.toNat - 55)
  else none

/-- The four hexadecimal digits after `\u`. -/
def getu4 (a b c d : Char) : Option Nat :=
  match hexVal a, hexVal b, hexVal c, hexVal d with
  | some x, some y, some z, some w => some (((x * 16 + y) * 16 + z) * 16 + w)
  | _, _, _, _ => none

/-- A UTF-16 surrogate code unit. -/
def isSurrogate (n : Nat) : Bool := 0xD800 ≤ n ∧ n < 0xE000

/-- The escape `\uXXXX` at the head of the input, if there is one. -/
def peekU4 : List Char → Option Nat
  | '\\' :: 'u' :: a :: b :: c :: d :: _ => getu4 a b c d
  | _ => none

/-- Put a decoded character in front of what the rest of the literal gives. -/
def consChar (x : Char) (r : Except JSONError (List Char × List Char)) :
    Except JSONError (List Char × List Char) :=
  match r with
  | .ok p => .ok (x :: p.1, p.2)
  | .error e => .error e

/-- Read the rest of a string literal, after its opening quote: the decoded
characters and the input after the closing quote.  A surrogate escape
followed by a matching low surrogate escape is one character; a surrogate
escape on its own is U+FFFD. -/
def scanString : Nat → List Char → Except JSONError (List Char × List Char)
  | 0, _ => .error .unexpectedEOF
  | _ + 1, [] => .error .unexpectedEOF
  | fuel + 1, c :: rest =>
    if c = '"' then .ok ([], rest)
    else if c = '\\' then
      match rest with
      | [] => .error .unexpectedEOF
      | e :: rest1 =>
        if e = 'u' then
          match rest1 with
          | a :: b :: c :: d :: rest2 =>
            match getu4 a b c d with
            | none => .error .syntaxError
            | some rr =>
              if isSurrogate rr then
                match peekU4 rest2 with
                | some rr1 =>
                  if rr < 0xDC00 ∧ 0xDC00 ≤ rr1 ∧ rr1 < 0xE000 then
                    consChar (Char.ofNat (0x10000 + (rr - 0xD800) * 0x400 + (rr1 - 0xDC00)))
                      (scanString fuel (rest2.drop 6))
                  else consChar (Char.ofNat 0xFFFD) (scanString fuel rest2)
                | none => consChar (Char.ofNat 0xFFFD) (scanString fuel rest2)
              else consChar (Char.ofNat rr) (scanString fuel rest2)
          | _ => .error .unexpectedEOF
        else if e = '"' then consChar '"' (scanString fuel rest1)
        else if e = '\\' then consChar '\\' (scanString fuel rest1)
        else if e = '/' then consChar '/' (scanString fuel rest1)
        else if e = 'b' then consChar '\x08' (scanString fuel rest1)
        else if e = 'f' then consChar '\x0c' (scanString fuel rest1)
        else if e = 'n' then consChar '\n' (scanString fuel rest1)
        else if e = 'r' then consChar '\r' (scanString fuel rest1)
        else if e = 't' then consChar '\t' (scanString fuel rest1)
        else .error .syntaxError
    else if c.toNat < 32 then .error .syntaxError
    else consChar c (scanString fuel rest)

/-- The integer part of a number literal: `0`, or a digit other than zero
followed by digits. -/
def scanInt (cs : List Char) : Except JSONError (List Char × List Char) :=
  match cs with
  | [] => .error .unexpectedEOF
  | c :: r =>
    if c = '0' then .ok (['0'], r)
    else if isDigit c then .ok (c :: (takeDigits r).1, (takeDigits r).2)
    else .error .syntaxError

/-- The digits that must follow a decimal point, an exponent mark or an
exponent sign. -/
def scanDigits1 (pre : List Char) (cs : List Char) : Except JSONError (List Char × List Char) :=
  match cs with
  | [] => .error .unexpectedEOF
  | c :: r =>
    if isDigit c then .ok (pre ++ c :: (takeDigits r).1, (takeDigits r).2)
    else .error .syntaxError

/-- The optional fraction of a number literal. -/
def scanFrac (cs : List Char) : Except JSONError (List Char × List Char) :=
  match cs with
  | [] => .ok ([], [])
  | c :: r => if c = '.' then scanDigits1 ['.'] r else .ok ([], c :: r)

/-- The optional exponent of a number literal. -/
def scanExp (cs : List Char) : Except JSONError (List Char × List Char) :=
  match cs with
  | [] => .ok ([], [])
  | c :: r =>
    if c = 'e' ∨ c = 'E' then
      match r with
      | [] => .error .unexpectedEOF
      | s :: r1 => if s = '+' ∨ s = '-' then scanDigits1 [c, s] r1 else scanDigits1 [c] (s :: r1)
    else .ok ([], c :: r)

/-- The part of a number literal after its optional sign. -/
def scanUnsigned (cs : List Char) : Except JSONError (List Char × List Char) :=
  match scanInt cs with
  | .error e => .error e
  | .ok (ip, cs2) =>
    match scanFrac cs2 with
    | .error e => .error e
    | .ok (fp, cs3) =>
      match scanExp cs3 with
      | .error e => .error e
      | .ok (ep, cs4) => .ok (ip ++ fp ++ ep, cs4)

/-- Read a number literal: `-? (0 | [1-9][0-9]*) (. [0-9]+)? ([eE] [+-]? [0-9]+)?`.
The scanner is greedy: a literal that starts a fraction or an exponent and
does not finish it is an error. -/
def scanNumber (cs : List Char) : Except JSONError (List Char × List Char) :=
  match cs with
  | [] => .error .unexpectedEOF
  | c :: r => if c = '-' then consChar '-' (scanUnsigned r) else scanUnsigned (c :: r)

/-- Read the rest of a literal name. -/
def scanLiteral (name : List Char) (v : JSON) (cs : List Char) :
    Except JSONError (JSON × List Char) :=
  if name.isPrefixOf cs then .ok (v, cs.drop name.length)
  else if cs.isPrefixOf name then .error .unexpectedEOF
  else .error .syntaxError

/-- The nesting limit of the reader (`maxNestingDepth`). -/
def maxNestingDepth : Nat := 10000

/-- Build a value from the literal read: a string from the UTF-8 encoding of
its characters. -/
def mapString (r : Except JSONError (List Char × List Char)) :
    Except JSONError (JSON × List Char) :=
  match r with
  | .ok p => .ok (.str (encodeRunes p.1), p.2)
  | .error e => .error e

/-- Build a value from the literal read: a number from its literal. -/
def mapNumber (r : Except JSONError (List Char × List Char)) :
    Except JSONError (JSON × List Char) :=
  match r with
  | .ok p => .ok (.num (String.mk p.1), p.2)
  | .error e => .error e

mutual
/-- Read one value from the head of the input (leading white space skipped)
and return it with the input that follows it.  The second argument is the
number of arrays and objects that are open around the value; opening one more
than `maxNestingDepth` is an error. -/
def parseValue : Nat → Nat → List Char → Except JSONError (JSON × List Char)
  | 0, _, _ => .error .unexpectedEOF
  | fuel + 1, depth, cs =>
    match skipSpace cs with
    | [] => .error .unexpectedEOF
    | c :: rest =>
      if c = '{' then
        if maxNestingDepth ≤ depth then .error .syntaxError
        else
          match skipSpace rest with
          | [] => .error .unexpectedEOF
          | d :: rest1 =>
            if d = '}' then .ok (.obj [], rest1)
            else
              match parseMembers fuel (depth + 1) (d :: rest1) with
              | .ok p => .ok (.obj p.1, p.2)
              | .error e => .error e
      else if c = '[' then
        if maxNestingDepth ≤ depth then .error .syntaxError
        else
          match skipSpace rest with
          | [] => .error .unexpectedEOF
          | d :: rest1 =>
            if d = ']' then .ok (.arr [], rest1)
            else
              match parseElems fuel (depth + 1) (d :: rest1) with
              | .ok p => .ok (.arr p.1, p.2)
              | .error e => .error e
      else if c = '"' then mapString (scanString (rest.length + 1) rest)
      else if c = 't' then scanLiteral ['r', 'u', 'e'] (.bool true) rest
      else if c = 'f' then scanLiteral ['a', 'l', 's', 'e'] (.bool false) rest
      else if c = 'n' then scanLiteral ['u', 'l', 'l'] .null rest
      else if c = '-' ∨ isDigit c then mapNumber (scanNumber (c :: rest))
      else .error .syntaxError
/-- Read the elements of a non-empty array up to its closing bracket. -/
def parseElems : Nat → Nat → List Char → Except JSONError (List JSON × List Char)
  | 0, _, _ => .error .unexpectedEOF
  | fuel + 1, depth, cs =>
    match parseValue fuel depth cs with
    | .error e => .error e
    | .ok (v, rest) =>
      match skipSpace rest with
      | [] => .error .unexpectedEOF
      | d :: rest1 =>
        if d = ']' then .ok ([v], rest1)
        else if d = ',' then
          match parseElems fuel depth rest1 with
          | .ok p => .ok (v :: p.1, p.2)
          | .error e => .error e
        else .error .syntaxError
/-- Read the members of a non-empty object up to its closing brace. -/
def parseMembers : Nat → Nat → List Char →
    Except JSONError (List (GoString × JSON) × List Char)
  | 0, _, _ => .error .unexpectedEOF
  | fuel + 1, depth, cs =>
    match skipSpace cs with
    | [] => .error .unexpectedEOF
    | q :: rest =>
      if q = '"' then
        match scanString (rest.length + 1) rest with
        | .error e => .error e
        | .ok (k, rest1) =>
          match skipSpace rest1 with
          | [] => .error .unexpectedEOF
          | colon :: rest2 =>
            if colon = ':' then
              match parseValue fuel depth rest2 with
              | .error e => .error e
              | .ok (v, rest3) =>
                match skipSpace rest3 with
                | [] => .error .unexpectedEOF
                | d :: rest4 =>
                  if d = '}' then .ok ([(encodeRunes k, v)], rest4)
                  else if d = ',' then
                    match parseMembers fuel depth rest4 with
                    | .ok p => .ok ((encodeRunes k, v) :: p.1, p.2)
                    | .error e => .error e
                  else .error .syntaxError
            else .error .syntaxError
      else .error .syntaxError
end

/-- The first value of a stream, as `Decoder.Decode` reads it: an empty or
all-blank stream is `io.EOF`; what follows the value is not looked at. -/
def readValue (body : List Char) : Except JSONError JSON :=
  match skipSpace body with
  | [] => .error .eof
  | c :: cs =>
    match parseValue (cs.length + 2) 0 (c :: cs) with
    | .ok p => .ok p.1
    | .error e => .error e

/-- May the text stand as one JSON document (`json.Valid`): one value, then
nothing but white space. -/
def jsonValid (body : List Char) : Bool :=
  match parseValue (body.length + 1) 0 body with
  | .ok (_, rest) => (skipSpace rest).isEmpty
  | .error _ => false

/-! ## Storing a value into a Go variable (`json.Unmarshal`)

Each function takes the value read and the current contents of the variable.
The JSON `null` leaves a string, number, boolean or struct as it is and sets
a slice, map or pointer to nil.  A value of the wrong kind is an
`UnmarshalTypeError`; the variable is then not observed again, because every
caller in this package discards its target when the decoder reports an
error.  An array is stored into a slice that is nil or empty, as every slice
is the first time its key is met; a key that comes twice for a slice field is
read as if it came once, with its last value. -/

/-- Store into a `string`. -/
def decodeString (v : JSON) (cur : GoString) : Except JSONError GoString :=
  match v with
  | .str s => .ok s
  | .null => .ok cur
  | _ => .error .typeError

/-- Store into a `bool`. -/
def decodeBool (v : JSON) (cur : Bool) : Except JSONError Bool :=
  match v with
  | .bool b => .ok b
  | .null => .ok cur
  | _ => .error .typeError

/-- The value of a run of decimal digits (`none` when a character is not a
digit). -/
def digitsVal (cs : List Char) : Option Nat :=
  cs.foldl (fun acc c => acc.bind (fun a =>
    if isDigit c then some (a * 10 + (c.toNat - 48)) else none)) (some 0)

/-- The literal as a 64-bit signed integer (`strconv.ParseInt(lit, 10, 64)`):
digits with an optional minus sign, within range. -/
def parseInt (lit : List Char) : Option Int :=
  match lit with
  | [] => none
  | ['-'] => none
  | '-' :: ds =>
    (digitsVal ds).bind (fun n => if n ≤ 2 ^ 63 then some (-(n : Int)) else none)
  | ds => (digitsVal ds).bind (fun n => if n < 2 ^ 63 then some (n : Int) else none)

/-- Store into an `int`. -/
def decodeInt (v : JSON) (cur : Int) : Except JSONError Int :=
  match v with
  | .num lit =>
    match parseInt lit.data with
    | some n => .ok n
    | none => .error .typeError
  | .null => .ok cur
  | _ => .error .typeError

/-- A `float64` field is represented by the number literal it was read from;
the conversion to binary64 (rounding, and the range error of
`strconv.ParseFloat`) is outside the model. -/
abbrev Float64 := String

/-- Store into a `float64`. -/
def decodeFloat64 (v : JSON) (cur : Float64) : Except JSONError Float64 :=
  match v with
  | .num lit => .ok lit
  | .null => .ok cur
  | _ => .error .typeError

/-- Store into an `interface{}`: the value itself (a Go map, slice, string,
number, boolean or nil is represented by the JSON tree it stands for; a
number keeps its literal, as for `Float64`). -/
def decodeInterface (v : JSON) (_cur : JSON) : Except JSONError JSON := .ok v

/-- Upper-case one character of a key the way `foldName` does: ASCII letters
to upper case, and the two non-ASCII characters whose simple case folding
reaches an ASCII letter (U+017F and U+212A). -/
def foldRune (c : Char) : Char :=
  if 97 ≤ c.toNat ∧ c.toNat ≤ 122 then Char.ofNat (c.toNat - 32)
  else if c = '\u017f' then 'S'
  else if c = '\u212a' then 'K'
  else c

/-- The folded form of an object key; a key names a field when their folded
forms agree (every struct below has fields with distinct folded names, so the
exact match Go tries first never picks another field). -/
def foldName (s : GoString) : String := String.mk ((runes s.length s).map foldRune)

/-- Store the members of an object, in order, through a struct's field
table. -/
def decodeMembers {α : Type} (setField : String → JSON → α → Except JSONError α) :
    List (GoString × JSON) → α → Except JSONError α
  | [], cur => .ok cur
  | (k, v) :: ms, cur =>
    match setField (foldName k) v cur with
    | .error e => .error e
    | .ok cur' => decodeMembers setField ms cur'

/-- Store into a struct. -/
def decodeStruct {α : Type} (setField : String → JSON → α → Except JSONError α)
    (v : JSON) (cur : α) : Except JSONError α :=
  match v with
  | .obj ms => decodeMembers setField ms cur
  | .null => .ok cur
  | _ => .error .typeError

/-- Store the elements of an array, each into a fresh element. -/
def decodeElems {α : Type} (elem : JSON → α → Except JSONError α) (zero : α) :
    List JSON → Except JSONError (List α)
  | [] => .ok []
  | x :: xs =>
    match elem x zero with
    | .error e => .error e
    | .ok a =>
      match decodeElems elem zero xs with
      | .error e => .error e
      | .ok as => .ok (a :: as)

/-- Store into a slice whose nil and empty states are told apart (`none` is
the nil slice). -/
def decodeSlice {α : Type} (elem : JSON → α → Except JSONError α) (zero : α)
    (v : JSON) (_cur : Option (List α)) : Except JSONError (Option (List α)) :=
  match v with
  | .arr xs => (decodeElems elem zero xs).map some
  | .null => .ok none
  | _ => .error .typeError

/-- Store into a slice tagged `omitempty`, for which the nil and the empty
slice are one value (both are left out of the encoding). -/
def decodeList {α : Type} (elem : JSON → α → Except JSONError α) (zero : α)
    (v : JSON) (_cur : List α) : Except JSONError (List α) :=
  match v with
  | .arr xs => decodeElems elem zero xs
  | .null => .ok []
  | _ => .error .typeError

/-- Store into a pointer to a struct. -/
def decodePtr {α : Type} (elem : JSON → α → Except JSONError α) (zero : α)
    (v : JSON) (cur : Option α) : Except JSONError (Option α) :=
  match v with
  | .null => .ok none
  | _ => (elem v (cur.getD zero)).map some

/-- The order of map keys: byte by byte, a proper prefix first (the order in
which the encoder writes the keys of a map). -/
def keyLess : GoString → GoString → Bool
  | [], [] => false
  | [], _ :: _ => true
  | _ :: _, [] => false
  | a :: as, b :: bs => a.val < b.val || (a = b && keyLess as bs)

/-- Set a key of a map held as a list sorted by key. -/
def mapSet {β : Type} (k : GoString) (v : β) : List (GoString × β) → List (GoString × β)
  | [] => [(k, v)]
  | (k', v') :: m =>
    if k = k' then (k, v) :: m
    else if keyLess k k' then (k, v) :: (k', v') :: m
    else (k', v') :: mapSet k v m

/-- Store the members of an object into a map, in order. -/
def decodeEntries {β : Type} (elem : JSON → β → Except JSONError β) (zero : β) :
    List (GoString × JSON) → List (GoString × β) → Except JSONError (List (GoString × β))
  | [], cur => .ok cur
  | (k, v) :: ms, cur =>
    match elem v zero with
    | .error e => .error e
    | .ok b => decodeEntries elem zero ms (mapSet k b cur)

/-- Store into a `map[string]T`.  A map is a list of entries sorted by key
without repetition; the nil and the empty map are one value. -/
def decodeMap {β : Type} (elem : JSON → β → Except JSONError β) (zero : β)
    (v : JSON) (cur : List (GoString × β)) : Except JSONError (List (GoString × β)) :=
  match v with
  | .obj ms => decodeEntries elem zero ms cur
  | .null => .ok []
  | _ => .error .typeError

/-! ## Fields left out when empty (`omitempty`) -/

/-- A number member holding an `int`. -/
def jsonInt (n : Int) : JSON := .num (String.mk (intLit n))

/-- A member under the key a struct tag names. -/
def member (k : String) (v : JSON) : GoString × JSON := (bytes k, v)

/-- A string member tagged `omitempty`: left out when the string has length
zero. -/
def omitEmptyString (k : String) (s : GoString) : List (GoString × JSON) :=
  if s = [] then [] else [member k (.str s)]

/-- An `int` member tagged `omitempty`. -/
def omitEmptyInt (k : String) (n : Int) : List (GoString × JSON) :=
  if n = 0 then [] else [member k (jsonInt n)]

/-- A `bool` member tagged `omitempty`. -/
def omitEmptyBool (k : String) (b : Bool) : List (GoString × JSON) :=
  if b then [member k (.bool true)] else []

/-- A slice member tagged `omitempty`. -/
def omitEmptyList (k : String) (xs : List JSON) : List (GoString × JSON) :=
  if xs.isEmpty then [] else [member k (.arr xs)]

/-- A map member tagged `omitempty`. -/
def omitEmptyMap (k : String) (ms : List (GoString × JSON)) : List (GoString × JSON) :=
  if ms.isEmpty then [] else [member k (.obj ms)]

/-! ## `types.go` -/

/-- The parameters for any Serper search. -/
structure Request where
  Q : GoString
  Gl : GoString
  Hl : GoString
  Num : Int
  Autocorrect : Bool
  Page : Int
  Type_ : GoString
  Location : GoString
  Tbs : GoString
  Safe : GoString
  deriving DecidableEq, Repr

/-- The zero `Request`. -/
def Request.zero : Request := ⟨[], [], [], 0, false, 0, [], [], [], []⟩

/-- The encoding of a `Request` under its struct tags: `q` always, every
other field only when it is not the zero value. -/
def Request.toJSON (r : Request) : JSON :=
  .obj ([member "q" (.str r.Q)]
    ++ omitEmptyString "gl" r.Gl
    ++ omitEmptyString "hl" r.Hl
    ++ omitEmptyInt "num" r.Num
    ++ omitEmptyBool "autocorrect" r.Autocorrect
    ++ omitEmptyInt "page" r.Page
    ++ omitEmptyString "type" r.Type_
    ++ omitEmptyString "location" r.Location
    ++ omitEmptyString "tbs" r.Tbs
    ++ omitEmptyString "safe" r.Safe)

/-- The field table of `Request`. -/
def Request.setField (k : String) (v : JSON) (r : Request) : Except JSONError Request :=
  if k = "Q" then (decodeString v r.Q).map (fun x => { r with Q := x })
  else if k = "GL" then (decodeString v r.Gl).map (fun x => { r with Gl := x })
  else if k = "HL" then (decodeString v r.Hl).map (fun x => { r with Hl := x })
  else if k = "NUM" then (decodeInt v r.Num).map (fun x => { r with Num := x })
  else if k = "AUTOCORRECT" then
    (decodeBool v r.Autocorrect).map (fun x => { r with Autocorrect := x })
  else if k = "PAGE" then (decodeInt v r.Page).map (fun x => { r with Page := x })
  else if k = "TYPE" then (decodeString v r.Type_).map (fun x => { r with Type_ := x })
  else if k = "LOCATION" then (decodeString v r.Location).map (fun x => { r with Location := x })
  else if k = "TBS" then (decodeString v r.Tbs).map (fun x => { r with Tbs := x })
  else if k = "SAFE" then (decodeString v r.Safe).map (fun x => { r with Safe := x })
  else .ok r

/-- The search parameters echoed in responses. -/
structure Parameters where
  Q : GoString
  Gl : GoString
  Hl : GoString
  Num : Int
  Autocorrect : Bool
  Page : Int
  Type_ : GoString
  Location : GoString
  deriving DecidableEq, Repr

/-- The zero `Parameters`. -/
def Parameters.zero : Parameters := ⟨[], [], [], 0, false, 0, [], []⟩

/-- The encoding of `Parameters`. -/
def Parameters.toJSON (p : Parameters) : JSON :=
  .obj ([member "q" (.str p.Q)]
    ++ omitEmptyString "gl" p.Gl
    ++ omitEmptyString "hl" p.Hl
    ++ omitEmptyInt "num" p.Num
    ++ omitEmptyBool "autocorrect" p.Autocorrect
    ++ omitEmptyInt "page" p.Page
    ++ omitEmptyString "type" p.Type_
    ++ omitEmptyString "location" p.Location)

/-- The field table of `Parameters`. -/
def Parameters.setField (k : String) (v : JSON) (p : Parameters) :
    Except JSONError Parameters :=
  if k = "Q" then (decodeString v p.Q).map (fun x => { p with Q := x })
  else if k = "GL" then (decodeString v p.Gl).map (fun x => { p with Gl := x })
  else if k = "HL" then (decodeString v p.Hl).map (fun x => { p with Hl := x })
  else if k = "NUM" then (decodeInt v p.Num).map (fun x => { p with Num := x })
  else if k = "AUTOCORRECT" then
    (decodeBool v p.Autocorrect).map (fun x => { p with Autocorrect := x })
  else if k = "PAGE" then (decodeInt v p.Page).map (fun x => { p with Page := x })
  else if k = "TYPE" then (decodeString v p.Type_).map (fun x => { p with Type_ := x })
  else if k = "LOCATION" then (decodeString v p.Location).map (fun x => { p with Location := x })
  else .ok p

/-- The fields common to all search responses. -/
structure BaseResponse where
  SearchParameters : Parameters
  Credits : Int
  deriving DecidableEq, Repr

/-- A link below an organic result. -/
structure Sitelink where
  Title : GoString
  Link : GoString
  deriving DecidableEq, Repr

/-- The zero `Sitelink`. -/
def Sitelink.zero : Sitelink := ⟨[], []⟩

/-- The encoding of a `Sitelink`. -/
def Sitelink.toJSON (s : Sitelink) : JSON :=
  .obj [member "title" (.str s.Title), member "link" (.str s.Link)]

/-- The field table of `Sitelink`. -/
def Sitelink.setField (k : String) (v : JSON) (s : Sitelink) : Except JSONError Sitelink :=
  if k = "TITLE" then (decodeString v s.Title).map (fun x => { s with Title := x })
  else if k = "LINK" then (decodeString v s.Link).map (fun x => { s with Link := x })
  else .ok s

/-- One organic web result.  `Sitelinks` and `Attributes` are tagged
`omitempty`. -/
structure OrganicResult where
  Title : GoString
  Link : GoString
  Snippet : GoString
  Position : Int
  Date : GoString
  Sitelinks : List Sitelink
  Attributes : List (GoString × GoString)
  deriving DecidableEq, Repr

/-- The zero `OrganicResult`. -/
def OrganicResult.zero : OrganicResult := ⟨[], [], [], 0, [], [], []⟩

/-- The encoding of an `OrganicResult`. -/
def OrganicResult.toJSON (o : OrganicResult) : JSON :=
  .obj ([member "title" (.str o.Title), member "link" (.str o.Link),
      member "snippet" (.str o.Snippet), member "position" (jsonInt o.Position)]
    ++ omitEmptyString "date" o.Date
    ++ omitEmptyList "sitelinks" (o.Sitelinks.map Sitelink.toJSON)
    ++ omitEmptyMap "attributes" (o.Attributes.map (fun p => (p.1, JSON.str p.2))))

/-- The field table of `OrganicResult`. -/
def OrganicResult.setField (k : String) (v : JSON) (o : OrganicResult) :
    Except JSONError OrganicResult :=
  if k = "TITLE" then (decodeString v o.Title).map (fun x => { o with Title := x })
  else if k = "LINK" then (decodeString v o.Link).map (fun x => { o with Link := x })
  else if k = "SNIPPET" then (decodeString v o.Snippet).map (fun x => { o with Snippet := x })
  else if k = "POSITION" then (decodeInt v o.Position).map (fun x => { o with Position := x })
  else if k = "DATE" then (decodeString v o.Date).map (fun x => { o with Date := x })
  else if k = "SITELINKS" then
    (decodeList (decodeStruct Sitelink.setField) Sitelink.zero v o.Sitelinks).map
      (fun x => { o with Sitelinks := x })
  else if k = "ATTRIBUTES" then
    (decodeMap decodeString [] v o.Attributes).map (fun x => { o with Attributes := x })
  else .ok o

/-- A related search. -/
structure RelatedSearch where
  Query : GoString
  deriving DecidableEq, Repr

/-- The zero `RelatedSearch`. -/
def RelatedSearch.zero : RelatedSearch := ⟨[]⟩

/-- The encoding of a `RelatedSearch`. -/
def RelatedSearch.toJSON (s : RelatedSearch) : JSON := .obj [member "query" (.str s.Query)]

/-- The field table of `RelatedSearch`. -/
def RelatedSearch.setField (k : String) (v : JSON) (s : RelatedSearch) :
    Except JSONError RelatedSearch :=
  if k = "QUERY" then (decodeString v s.Query).map (fun x => { s with Query := x })
  else .ok s

/-- The knowledge-graph section.  `Attributes` is a `map[string]interface{}`. -/
structure KnowledgeGraph where
  Title : GoString
  Type_ : GoString
  Website : GoString
  ImageUrl : GoString
  Description : GoString
  DescriptionSource : GoString
  DescriptionLink : GoString
  Attributes : List (GoString × JSON)

/-- The zero `KnowledgeGraph`. -/
def KnowledgeGraph.zero : KnowledgeGraph := ⟨[], [], [], [], [], [], [], []⟩

/-- The encoding of a `KnowledgeGraph`. -/
def KnowledgeGraph.toJSON (g : KnowledgeGraph) : JSON :=
  .obj ([member "title" (.str g.Title), member "type" (.str g.Type_)]
    ++ omitEmptyString "website" g.Website
    ++ omitEmptyString "imageUrl" g.ImageUrl
    ++ omitEmptyString "description" g.Description
    ++ omitEmptyString "descriptionSource" g.DescriptionSource
    ++ omitEmptyString "descriptionLink" g.DescriptionLink
    ++ omitEmptyMap "attributes" g.Attributes)

/-- The field table of `KnowledgeGraph`. -/
def KnowledgeGraph.setField (k : String) (v : JSON) (g : KnowledgeGraph) :
    Except JSONError KnowledgeGraph :=
  if k = "TITLE" then (decodeString v g.Title).map (fun x => { g with Title := x })
  else if k = "TYPE" then (decodeString v g.Type_).map (fun x => { g with Type_ := x })
  else if k = "WEBSITE" then (decodeString v g.Website).map (fun x => { g with Website := x })
  else if k = "IMAGEURL" then (decodeString v g.ImageUrl).map (fun x => { g with ImageUrl := x })
  else if k = "DESCRIPTION" then
    (decodeString v g.Description).map (fun x => { g with Description := x })
  else if k = "DESCRIPTIONSOURCE" then
    (decodeString v g.DescriptionSource).map (fun x => { g with DescriptionSource := x })
  else if k = "DESCRIPTIONLINK" then
    (decodeString v g.DescriptionLink).map (fun x => { g with DescriptionLink := x })
  else if k = "ATTRIBUTES" then
    (decodeMap decodeInterface JSON.null v g.Attributes).map (fun x => { g with Attributes := x })
  else .ok g

/-- A "people also ask" entry. -/
structure PeopleAlsoAsk where
  Question : GoString
  Snippet : GoString
  Title : GoString
  Link : GoString
  deriving DecidableEq, Repr

/-- The zero `PeopleAlsoAsk`. -/
def PeopleAlsoAsk.zero : PeopleAlsoAsk := ⟨[], [], [], []⟩

/-- The encoding of a `PeopleAlsoAsk`. -/
def PeopleAlsoAsk.toJSON (p : PeopleAlsoAsk) : JSON :=
  .obj [member "question" (.str p.Question), member "snippet" (.str p.Snippet),
    member "title" (.str p.Title), member "link" (.str p.Link)]

/-- The field table of `PeopleAlsoAsk`. -/
def PeopleAlsoAsk.setField (k : String) (v : JSON) (p : PeopleAlsoAsk) :
    Except JSONError PeopleAlsoAsk :=
  if k = "QUESTION" then (decodeString v p.Question).map (fun x => { p with Question := x })
  else if k = "SNIPPET" then (decodeString v p.Snippet).map (fun x => { p with Snippet := x })
  else if k = "TITLE" then (decodeString v p.Title).map (fun x => { p with Title := x })
  else if k = "LINK" then (decodeString v p.Link).map (fun x => { p with Link := x })
  else .ok p

/-- The web search response: the embedded `BaseResponse` (whose two fields
are promoted) and the result sections.  `Organic` has no `omitempty`, so its nil
state (`none`) is kept apart from the empty slice. -/
structure SearchResponse extends BaseResponse where
  Organic : Option (List OrganicResult)
  KnowledgeGraph : Option KnowledgeGraph
  PeopleAlsoAsk : List PeopleAlsoAsk
  RelatedSearches : List RelatedSearch

/-- The zero `SearchResponse` (`var resp SearchResponse`). -/
def SearchResponse.zero : SearchResponse := ⟨⟨Parameters.zero, 0⟩, none, none, [], []⟩

/-- The encoding of a `SearchResponse`. -/
def SearchResponse.toJSON (r : SearchResponse) : JSON :=
  .obj ([member "searchParameters" r.SearchParameters.toJSON,
      member "credits" (jsonInt r.Credits),
      member "organic" (match r.Organic with
        | none => JSON.null
        | some os => JSON.arr (os.map OrganicResult.toJSON))]
    ++ (match r.KnowledgeGraph with
        | none => []
        | some g => [member "knowledgeGraph" g.toJSON])
    ++ omitEmptyList "peopleAlsoAsk" (r.PeopleAlsoAsk.map PeopleAlsoAsk.toJSON)
    ++ omitEmptyList "relatedSearches" (r.RelatedSearches.map RelatedSearch.toJSON))

/-- The field table of `SearchResponse`. -/
def SearchResponse.setField (k : String) (v : JSON) (r : SearchResponse) :
    Except JSONError SearchResponse :=
  if k = "SEARCHPARAMETERS" then
    (decodeStruct Parameters.setField v r.SearchParameters).map
      (fun x => { r with SearchParameters := x })
  else if k = "CREDITS" then (decodeInt v r.Credits).map (fun x => { r with Credits := x })
  else if k = "ORGANIC" then
    (decodeSlice (decodeStruct OrganicResult.setField) OrganicResult.zero v r.Organic).map
      (fun x => { r with Organic := x })
  else if k = "KNOWLEDGEGRAPH" then
    (decodePtr (decodeStruct KnowledgeGraph.setField) KnowledgeGraph.zero v r.KnowledgeGraph).map
      (fun x => { r with KnowledgeGraph := x })
  else if k = "PEOPLEALSOASK" then
    (decodeList (decodeStruct PeopleAlsoAsk.setField) PeopleAlsoAsk.zero v r.PeopleAlsoAsk).map
      (fun x => { r with PeopleAlsoAsk := x })
  else if k = "RELATEDSEARCHES" then
    (decodeList (decodeStruct RelatedSearch.setField) RelatedSearch.zero v r.RelatedSearches).map
      (fun x => { r with RelatedSearches := x })
  else .ok r

/-- One image result. -/
structure ImageResult where
  Title : GoString
  ImageUrl : GoString
  ImageWidth : Int
  ImageHeight : Int
  ThumbnailUrl : GoString
  ThumbnailWidth : Int
  ThumbnailHeight : Int
  Source : GoString
  Domain : GoString
  Link : GoString
  GoogleUrl : GoString
  Position : Int
  deriving DecidableEq, Repr

/-- The zero `ImageResult`. -/
def ImageResult.zero : ImageResult := ⟨[], [], 0, 0, [], 0, 0, [], [], [], [], 0⟩

/-- The field table of `ImageResult`. -/
def ImageResult.setField (k : String) (v : JSON) (i : ImageResult) :
    Except JSONError ImageResult :=
  if k = "TITLE" then (decodeString v i.Title).map (fun x => { i with Title := x })
  else if k = "IMAGEURL" then (decodeString v i.ImageUrl).map (fun x => { i with ImageUrl := x })
  else if k = "IMAGEWIDTH" then (decodeInt v i.ImageWidth).map (fun x => { i with ImageWidth := x })
  else if k = "IMAGEHEIGHT" then
    (decodeInt v i.ImageHeight).map (fun x => { i with ImageHeight := x })
  else if k = "THUMBNAILURL" then
    (decodeString v i.ThumbnailUrl).map (fun x => { i with ThumbnailUrl := x })
  else if k = "THUMBNAILWIDTH" then
    (decodeInt v i.ThumbnailWidth).map (fun x => { i with ThumbnailWidth := x })
  else if k = "THUMBNAILHEIGHT" then
    (decodeInt v i.ThumbnailHeight).map (fun x => { i with ThumbnailHeight := x })
  else if k = "SOURCE" then (decodeString v i.Source).map (fun x => { i with Source := x })
  else if k = "DOMAIN" then (decodeString v i.Domain).map (fun x => { i with Domain := x })
  else if k = "LINK" then (decodeString v i.Link).map (fun x => { i with Link := x })
  else if k = "GOOGLEURL" then (decodeString v i.GoogleUrl).map (fun x => { i with GoogleUrl := x })
  else if k = "POSITION" then (decodeInt v i.Position).map (fun x => { i with Position := x })
  else .ok i

/-- The image search response. -/
structure ImageResponse extends BaseResponse where
  Images : Option (List ImageResult)
  deriving DecidableEq, Repr

/-- The zero `ImageResponse`. -/
def ImageResponse.zero : ImageResponse := ⟨⟨Parameters.zero, 0⟩, none⟩

/-- The field table of `ImageResponse`. -/
def ImageResponse.setField (k : String) (v : JSON) (r : ImageResponse) :
    Except JSONError ImageResponse :=
  if k = "SEARCHPARAMETERS" then
    (decodeStruct Parameters.setField v r.SearchParameters).map
      (fun x => { r with SearchParameters := x })
  else if k = "CREDITS" then (decodeInt v r.Credits).map (fun x => { r with Credits := x })
  else if k = "IMAGES" then
    (decodeSlice (decodeStruct ImageResult.setField) ImageResult.zero v r.Images).map
      (fun x => { r with Images := x })
  else .ok r

/-- One news result. -/
structure NewsResult where
  Title : GoString
  Link : GoString
  Snippet : GoString
  Date : GoString
  Source : GoString
  ImageUrl : GoString
  Position : Int
  deriving DecidableEq, Repr

/-- The zero `NewsResult`. -/
def NewsResult.zero : NewsResult := ⟨[], [], [], [], [], [], 0⟩

/-- The field table of `NewsResult`. -/
def NewsResult.setField (k : String) (v : JSON) (n : NewsResult) :
    Except JSONError NewsResult :=
  if k = "TITLE" then (decodeString v n.Title).map (fun x => { n with Title := x })
  else if k = "LINK" then (decodeString v n.Link).map (fun x => { n with Link := x })
  else if k = "SNIPPET" then (decodeString v n.Snippet).map (fun x => { n with Snippet := x })
  else if k = "DATE" then (decodeString v n.Date).map (fun x => { n with Date := x })
  else if k = "SOURCE" then (decodeString v n.Source).map (fun x => { n with Source := x })
  else if k = "IMAGEURL" then (decodeString v n.ImageUrl).map (fun x => { n with ImageUrl := x })
  else if k = "POSITION" then (decodeInt v n.Position).map (fun x => { n with Position := x })
  else .ok n

/-- The news search response. -/
structure NewsResponse extends BaseResponse where
  News : Option (List NewsResult)
  deriving DecidableEq, Repr

/-- The zero `NewsResponse`. -/
def NewsResponse.zero : NewsResponse := ⟨⟨Parameters.zero, 0⟩, none⟩

/-- The field table of `NewsResponse`. -/
def NewsResponse.setField (k : String) (v : JSON) (r : NewsResponse) :
    Except JSONError NewsResponse :=
  if k = "SEARCHPARAMETERS" then
    (decodeStruct Parameters.setField v r.SearchParameters).map
      (fun x => { r with SearchParameters := x })
  else if k = "CREDITS" then (decodeInt v r.Credits).map (fun x => { r with Credits := x })
  else if k = "NEWS" then
    (decodeSlice (decodeStruct NewsResult.setField) NewsResult.zero v r.News).map
      (fun x => { r with News := x })
  else .ok r

/-- One video result. -/
structure VideoResult where
  Title : GoString
  Link : GoString
  Snippet : GoString
  ImageUrl : GoString
  Duration : GoString
  Source : GoString
  Channel : GoString
  Date : GoString
  Position : Int
  deriving DecidableEq, Repr

/-- The zero `VideoResult`. -/
def VideoResult.zero : VideoResult := ⟨[], [], [], [], [], [], [], [], 0⟩

/-- The field table of `VideoResult`. -/
def VideoResult.setField (k : String) (v : JSON) (n : VideoResult) :
    Except JSONError VideoResult :=
  if k = "TITLE" then (decodeString v n.Title).map (fun x => { n with Title := x })
  else if k = "LINK" then (decodeString v n.Link).map (fun x => { n with Link := x })
  else if k = "SNIPPET" then (decodeString v n.Snippet).map (fun x => { n with Snippet := x })
  else if k = "IMAGEURL" then (decodeString v n.ImageUrl).map (fun x => { n with ImageUrl := x })
  else if k = "DURATION" then (decodeString v n.Duration).map (fun x => { n with Duration := x })
  else if k = "SOURCE" then (decodeString v n.Source).map (fun x => { n with Source := x })
  else if k = "CHANNEL" then (decodeString v n.Channel).map (fun x => { n with Channel := x })
  else if k = "DATE" then (decodeString v n.Date).map (fun x => { n with Date := x })
  else if k = "POSITION" then (decodeInt v n.Position).map (fun x => { n with Position := x })
  else .ok n

/-- The video search response. -/
structure VideoResponse extends BaseResponse where
  Videos : Option (List VideoResult)
  deriving DecidableEq, Repr

/-- The zero `VideoResponse`. -/
def VideoResponse.zero : VideoResponse := ⟨⟨Parameters.zero, 0⟩, none⟩

/-- The field table of `VideoResponse`. -/
def VideoResponse.setField (k : String) (v : JSON) (r : VideoResponse) :
    Except JSONError VideoResponse :=
  if k = "SEARCHPARAMETERS" then
    (decodeStruct Parameters.setField v r.SearchParameters).map
      (fun x => { r with SearchParameters := x })
  else if k = "CREDITS" then (decodeInt v r.Credits).map (fun x => { r with Credits := x })
  else if k = "VIDEOS" then
    (decodeSlice (decodeStruct VideoResult.setField) VideoResult.zero v r.Videos).map
      (fun x => { r with Videos := x })
  else .ok r

/-- One place result. -/
structure PlaceResult where
  Position : Int
  Title : GoString
  Address : GoString
  Latitude : Float64
  Longitude : Float64
  Rating : Float64
  RatingCount : Int
  Category : GoString
  PhoneNumber : GoString
  Website : GoString
  Cid : GoString
  ThumbnailUrl : GoString
  deriving DecidableEq, Repr

/-- The zero `PlaceResult`. -/
def PlaceResult.zero : PlaceResult := ⟨0, [], [], "0", "0", "0", 0, [], [], [], [], []⟩

/-- The field table of `PlaceResult`. -/
def PlaceResult.setField (k : String) (v : JSON) (p : PlaceResult) :
    Except JSONError PlaceResult :=
  if k = "POSITION" then (decodeInt v p.Position).map (fun x => { p with Position := x })
  else if k = "TITLE" then (decodeString v p.Title).map (fun x => { p with Title := x })
  else if k = "ADDRESS" then (decodeString v p.Address).map (fun x => { p with Address := x })
  else if k = "LATITUDE" then (decodeFloat64 v p.Latitude).map (fun x => { p with Latitude := x })
  else if k = "LONGITUDE" then
    (decodeFloat64 v p.Longitude).map (fun x => { p with Longitude := x })
  else if k = "RATING" then (decodeFloat64 v p.Rating).map (fun x => { p with Rating := x })
  else if k = "RATINGCOUNT" then
    (decodeInt v p.RatingCount).map (fun x => { p with RatingCount := x })
  else if k = "CATEGORY" then (decodeString v p.Category).map (fun x => { p with Category := x })
  else if k = "PHONENUMBER" then
    (decodeString v p.PhoneNumber).map (fun x => { p with PhoneNumber := x })
  else if k = "WEBSITE" then (decodeString v p.Website).map (fun x => { p with Website := x })
  else if k = "CID" then (decodeString v p.Cid).map (fun x => { p with Cid := x })
  else if k = "THUMBNAILURL" then
    (decodeString v p.ThumbnailUrl).map (fun x => { p with ThumbnailUrl := x })
  else .ok p

/-- The places search response. -/
structure PlacesResponse extends BaseResponse where
  Places : Option (List PlaceResult)
  deriving DecidableEq, Repr

/-- The zero `PlacesResponse`. -/
def PlacesResponse.zero : PlacesResponse := ⟨⟨Parameters.zero, 0⟩, none⟩

/-- The field table of `PlacesResponse`. -/
def PlacesResponse.setField (k : String) (v : JSON) (r : PlacesResponse) :
    Except JSONError PlacesResponse :=
  if k = "SEARCHPARAMETERS" then
    (decodeStruct Parameters.setField v r.SearchParameters).map
      (fun x => { r with SearchParameters := x })
  else if k = "CREDITS" then (decodeInt v r.Credits).map (fun x => { r with Credits := x })
  else if k = "PLACES" then
    (decodeSlice (decodeStruct PlaceResult.setField) PlaceResult.zero v r.Places).map
      (fun x => { r with Places := x })
  else .ok r

/-! ## `client.go` -/

/-- The production endpoint. -/
def DefaultBaseURL : String := "https://google.serper.dev"

/-- An error returned by the Serper API. -/
structure APIError where
  StatusCode : Int
  Message : GoString
  deriving DecidableEq, Repr

/-- A `time.Duration`, in nanoseconds. -/
abbrev Duration := Int

/-- The duration `time.Second`. -/
def Second : Duration := 1000000000

/-- An `http.Client` object.  This package reads and writes its `Timeout`;
`Transport` stands for the rest of the object (`none` is the default round
tripper). -/
structure HTTPClient where
  Timeout : Duration
  Transport : Option Nat
  deriving DecidableEq, Repr

/-- The store of `http.Client` objects.  A non-nil `*http.Client` is an index
into it. -/
abbrev Heap := List HTTPClient

/-- The assignment `p.Timeout = t` through a pointer. -/
def Heap.setTimeout : Heap → Nat → Duration → Heap
  | [], _, _ => []
  | x :: xs, 0, t => { x with Timeout := t } :: xs
  | x :: xs, p + 1, t => x :: Heap.setTimeout xs p t

/-- The concrete client.  `httpClient` is a pointer that is never nil in a
client made by `NewClient`; the zero `Client` is not represented. -/
structure Client where
  apiKey : String
  httpClient : Nat
  baseURL : String
  deriving DecidableEq, Repr

/-- A functional option (`type Option func(*Client)`): a function on the
client and the store its pointer leads into. -/
abbrev ClientOption := Client × Heap → Client × Heap

/-- The option `WithHTTPClient`: install a custom `http.Client`, unless the
pointer is nil. -/
def WithHTTPClient (httpClient : Option Nat) : ClientOption := fun s =>
  match httpClient with
  | some p => ({ s.1 with httpClient := p }, s.2)
  | none => s

/-- The option `WithBaseURL`: install a custom base URL, unless it is empty. -/
def WithBaseURL (url : String) : ClientOption := fun s =>
  if url ≠ "" then ({ s.1 with baseURL := url }, s.2) else s

/-- The option `WithTimeout`: set the timeout of the `http.Client` the client
holds at that moment. -/
def WithTimeout (timeout : Duration) : ClientOption := fun s =>
  (s.1, Heap.setTimeout s.2 s.1.httpClient timeout)

/-- The constructor `NewClient`: a fresh `http.Client` with a 30 second
timeout, the default base URL, then the options in the order given. -/
def NewClient (apiKey : String) (opts : List ClientOption) (heap : Heap) : Client × Heap :=
  let c : Client := { apiKey := apiKey, httpClient := heap.length, baseURL := DefaultBaseURL }
  opts.foldl (fun s opt => opt s) (c, heap ++ [{ Timeout := 30 * Second, Transport := none }])

/-- An option as written at a call site: one of the three constructors with
its argument. -/
inductive OptionExpr where
  | withHTTPClient (httpClient : Option Nat)
  | withBaseURL (url : String)
  | withTimeout (timeout : Duration)
  deriving DecidableEq, Repr

/-- The option an expression denotes. -/
def OptionExpr.eval : OptionExpr → ClientOption
  | .withHTTPClient p => WithHTTPClient p
  | .withBaseURL u => WithBaseURL u
  | .withTimeout d => WithTimeout d

/-- A header map whose keys are in canonical form; only `Set` is used, so a
key has one value. -/
abbrev Header := List (String × String)

/-- Canonical form of a header name made of letters, digits and hyphens: the
first letter and every letter after a hyphen in upper case, the others in
lower case. -/
def canonicalChars : Bool → List Char → List Char
  | _, [] => []
  | upper, c :: cs =>
    let c' :=
      if upper ∧ 97 ≤ c.toNat ∧ c.toNat ≤ 122 then Char.ofNat (c.toNat - 32)
      else if ¬ upper ∧ 65 ≤ c.toNat ∧ c.toNat ≤ 90 then Char.ofNat (c.toNat + 32)
      else c
    c' :: canonicalChars (c = '-') cs

/-- The function `textproto.CanonicalMIMEHeaderKey` on such names. -/
def canonicalMIMEHeaderKey (s : String) : String := String.mk (canonicalChars true s.data)

/-- The method `Header.Set`. -/
def Header.Set (h : Header) (key value : String) : Header :=
  (h.filter (fun p => p.1 ≠ canonicalMIMEHeaderKey key)) ++ [(canonicalMIMEHeaderKey key, value)]

/-- The method `Header.Get`: the value of the key, or the empty string. -/
def Header.Get (h : Header) (key : String) : String :=
  match h.find? (fun p => p.1 = canonicalMIMEHeaderKey key) with
  | some p => p.2
  | none => ""

/-- A `context.Context`; `none` is the nil interface. -/
abbrev Context := Option Nat

/-- An outbound `http.Request`: its context, method, URL string, headers and
body (`none`: no body). -/
structure HTTPRequest where
  ctx : Nat
  Method : String
  URL : String
  Header : Header
  Body : Option (List Char)
  deriving DecidableEq, Repr

/-- What `httpClient.Do` gives back: an error, or a response with its status
code and the characters of its body. -/
inductive TransportResult where
  | failure (cause : String)
  | response (StatusCode : Int) (Body : List Char)
  deriving DecidableEq, Repr

/-- The surroundings of a call: which URL strings `url.Parse` accepts, and
what `Do` of the `http.Client` at a given address returns for a request. -/
structure World where
  urlParse : String → Bool
  Do : Nat → HTTPRequest → TransportResult

/-- The function `http.NewRequestWithContext` for a valid method: it fails on
a nil context and on a URL that does not parse. -/
def NewRequestWithContext (w : World) (ctx : Context) (method url : String)
    (body : Option (List Char)) : Except String HTTPRequest :=
  match ctx with
  | none => .error "net/http: nil Context"
  | some id =>
    if w.urlParse url then .ok { ctx := id, Method := method, URL := url, Header := [], Body := body }
    else .error "parse"

/-- The errors a call returns: the four wrapped ones (`fmt.Errorf` with `%w`)
and `*APIError`. -/
inductive Error where
  | marshalRequest (cause : JSONError)
  | createRequest (cause : String)
  | doRequest (cause : String)
  | decodeResponse (cause : JSONError)
  | api (e : APIError)
  deriving DecidableEq, Repr

/-- The type assertion `err.(*APIError)`. -/
def Error.isAPIError : Error → Bool
  | .api _ => true
  | _ => false

/-- The `payload interface{}` of `do`: the nil interface, or an interface
holding a `*Request` (which may itself be a nil pointer). -/
inductive Payload where
  | nil
  | request (req : Option Request)
  deriving DecidableEq, Repr

/-- The function `json.Marshal` on a payload: a nil pointer is `null`. -/
def jsonMarshal : Payload → Except JSONError (List Char)
  | .nil => .ok (render .null)
  | .request none => .ok (render .null)
  | .request (some r) => .ok (render r.toJSON)

/-- The call `json.NewDecoder(body).Decode(&x)` for a struct `x` that holds
`zero`. -/
def jsonDecode {α : Type} (setField : String → JSON → α → Except JSONError α) (zero : α)
    (body : List Char) : Except JSONError α :=
  match readValue body with
  | .error e => .error e
  | .ok v => decodeStruct setField v zero

/-- The error envelope `struct { Message string }` with tag `message`. -/
structure Envelope where
  Message : GoString
  deriving DecidableEq, Repr

/-- The field table of the envelope. -/
def Envelope.setField (k : String) (v : JSON) (e : Envelope) : Except JSONError Envelope :=
  if k = "MESSAGE" then (decodeString v e.Message).map (fun x => { e with Message := x })
  else .ok e

/-- What `do` leaves behind: the requests handed to the transport, the error
returned, and the value stored through `result` (`none` when nothing was
stored, or when the decoder failed and the caller drops its target). -/
structure DoResult (α : Type) where
  sent : List HTTPRequest
  err : Option Error
  result : Option α

/-- The method `Client.do`.  The `result interface{}` is `none` for the nil
interface and otherwise the decoder of the value it points to. -/
def Client.do {α : Type} (w : World) (c : Client) (ctx : Context) (path : String)
    (payload : Payload) (result : Option (List Char → Except JSONError α)) : DoResult α :=
  let url := c.baseURL ++ path
  let body : Except JSONError (Option (List Char)) :=
    match payload with
    | .nil => .ok none
    | p => (jsonMarshal p).map some
  match body with
  | .error e => ⟨[], some (.marshalRequest e), none⟩
  | .ok body =>
    match NewRequestWithContext w ctx "POST" url body with
    | .error e => ⟨[], some (.createRequest e), none⟩
    | .ok req0 =>
      let req : HTTPRequest :=
        { req0 with
          Header := (req0.Header.Set "X-API-KEY" c.apiKey).Set "Content-Type" "application/json" }
      match w.Do c.httpClient req with
      | .failure e => ⟨[req], some (.doRequest e), none⟩
      | .response status respBody =>
        if status ≥ 400 then
          match jsonDecode Envelope.setField ⟨[]⟩ respBody with
          | .ok e =>
            if e.Message ≠ [] then ⟨[req], some (.api ⟨status, e.Message⟩), none⟩
            else ⟨[req], some (.api ⟨status, bytes "unknown error"⟩), none⟩
          | .error _ => ⟨[req], some (.api ⟨status, bytes "unknown error"⟩), none⟩
        else
          match result with
          | none => ⟨[req], none, none⟩
          | some decode =>
            match decode respBody with
            | .error e => ⟨[req], some (.decodeResponse e), none⟩
            | .ok v => ⟨[req], none, some v⟩

/-- What a vertical operation returns, `(resp, err)`, together with the
requests it handed to the transport. -/
structure Outcome (α : Type) where
  sent : List HTTPRequest
  resp : Option α
  err : Option Error

/-- The method `Client.Search`. -/
def Client.Search (w : World) (c : Client) (ctx : Context) (req : Option Request) :
    Outcome SearchResponse :=
  let r := c.do w ctx "/search" (.request req)
    (some (jsonDecode SearchResponse.setField SearchResponse.zero))
  match r.err with
  | some err => ⟨r.sent, none, some err⟩
  | none => ⟨r.sent, some (r.result.getD SearchResponse.zero), none⟩

/-- The method `Client.Images`. -/
def Client.Images (w : World) (c : Client) (ctx : Context) (req : Option Request) :
    Outcome ImageResponse :=
  let r := c.do w ctx "/images" (.request req)
    (some (jsonDecode ImageResponse.setField ImageResponse.zero))
  match r.err with
  | some err => ⟨r.sent, none, some err⟩
  | none => ⟨r.sent, some (r.result.getD ImageResponse.zero), none⟩

/-- The method `Client.News`. -/
def Client.News (w : World) (c : Client) (ctx : Context) (req : Option Request) :
    Outcome NewsResponse :=
  let r := c.do w ctx "/news" (.request req)
    (some (jsonDecode NewsResponse.setField NewsResponse.zero))
  match r.err with
  | some err => ⟨r.sent, none, some err⟩
  | none => ⟨r.sent, some (r.result.getD NewsResponse.zero), none⟩

/-- The method `Client.Videos`. -/
def Client.Videos (w : World) (c : Client) (ctx : Context) (req : Option Request) :
    Outcome VideoResponse :=
  let r := c.do w ctx "/videos" (.request req)
    (some (jsonDecode VideoResponse.setField VideoResponse.zero))
  match r.err with
  | some err => ⟨r.sent, none, some err⟩
  | none => ⟨r.sent, some (r.result.getD VideoResponse.zero), none⟩

/-- The method `Client.Places`. -/
def Client.Places (w : World) (c : Client) (ctx : Context) (req : Option Request) :
    Outcome PlacesResponse :=
  let r := c.do w ctx "/places" (.request req)
    (some (jsonDecode PlacesResponse.setField PlacesResponse.zero))
  match r.err with
  | some err => ⟨r.sent, none, some err⟩
  | none => ⟨r.sent, some (r.result.getD PlacesResponse.zero), none⟩

/-- The five operations of `ClientInterface`. -/
inductive Vertical where
  | search
  | images
  | news
  | videos
  | places
  deriving DecidableEq, Repr

/-- The response type of an operation. -/
def Vertical.Response : Vertical → Type
  | .search => SearchResponse
  | .images => ImageResponse
  | .news => NewsResponse
  | .videos => VideoResponse
  | .places => PlacesResponse

/-- The path an operation passes to `do`. -/
def Vertical.path : Vertical → String
  | .search => "/search"
  | .images => "/images"
  | .news => "/news"
  | .videos => "/videos"
  | .places => "/places"

/-- Calling an operation of `ClientInterface` by name. -/
def Client.call (w : World) (c : Client) (ctx : Context) :
    (v : Vertical) → Option Request → Outcome v.Response
  | .search, req => c.Search w ctx req
  | .images, req => c.Images w ctx req
  | .news, req => c.News w ctx req
  | .videos, req => c.Videos w ctx req
  | .places, req => c.Places w ctx req

/-! ## The dispatcher: how a call unfolds -/

/-- The decoder an operation hands to `do` as its `result`. -/
def Vertical.decode : (v : Vertical) → List Char → Except JSONError v.Response
  | .search => jsonDecode SearchResponse.setField SearchResponse.zero
  | .images => jsonDecode ImageResponse.setField ImageResponse.zero
  | .news => jsonDecode NewsResponse.setField NewsResponse.zero
  | .videos => jsonDecode VideoResponse.setField VideoResponse.zero
  | .places => jsonDecode PlacesResponse.setField PlacesResponse.zero

/-- The zero value of an operation's response variable. -/
def Vertical.zero : (v : Vertical) → v.Response
  | .search => SearchResponse.zero
  | .images => ImageResponse.zero
  | .news => NewsResponse.zero
  | .videos => VideoResponse.zero
  | .places => PlacesResponse.zero

/-- The request `do` hands to the transport for a live context, a path and a
body. -/
def Client.outbound (c : Client) (id : Nat) (path : String) (body : Option (List Char)) :
    HTTPRequest :=
  { ctx := id, Method := "POST", URL := c.baseURL ++ path,
    Header := [("X-Api-Key", c.apiKey), ("Content-Type", "application/json")], Body := body }

/-- The body `do` gives the request of a vertical operation. -/
def requestBody (req : Option Request) : List Char :=
  match req with
  | none => render .null
  | some r => render r.toJSON

/-- How `do` classifies a response. -/
def classify {α : Type} (rq : HTTPRequest) (decode : List Char → Except JSONError α)
    (status : Int) (body : List Char) : DoResult α :=
  if status ≥ 400 then
    match jsonDecode Envelope.setField ⟨[]⟩ body with
    | .ok e =>
      if e.Message ≠ [] then ⟨[rq], some (.api ⟨status, e.Message⟩), none⟩
      else ⟨[rq], some (.api ⟨status, bytes "unknown error"⟩), none⟩
    | .error _ => ⟨[rq], some (.api ⟨status, bytes "unknown error"⟩), none⟩
  else
    match decode body with
    | .error e => ⟨[rq], some (.decodeResponse e), none⟩
    | .ok v => ⟨[rq], none, some v⟩

/-- The bodies of an error response that carry no usable message: the stream
does not start with a well-formed value; or that value is not an object; or it
is an object with a member named `message` (under key folding) whose value is
neither a string nor `null`; or every such member is the empty string or
`null` (in particular when there is none). -/
def lacksMessage (body : List Char) : Prop :=
  match readValue body with
  | .error _ => True
  | .ok (.obj ms) =>
    (∃ p ∈ ms, foldName p.1 = "MESSAGE" ∧ (∀ s, p.2 ≠ .str s) ∧ p.2 ≠ .null) ∨
    (∀ p ∈ ms, foldName p.1 = "MESSAGE" → p.2 = .str [] ∨ p.2 = .null)
  | .ok _ => True

/-- A transport that accepts every URL and answers every request with one
fixed response. -/
def fixedWorld (status : Int) (body : String) : World :=
  ⟨fun _ => true, fun _ _ => .response status body.data⟩

/-- The client of the package's tests: `NewClient(key, WithBaseURL(url))`. -/
def testClient (key url : String) : Client := (NewClient key [WithBaseURL url] []).1

/-- The request of the package's tests: `&Request{Q: "test"}`. -/
def testRequest : Request := { Request.zero with Q := bytes "test" }

/-- The non-empty arguments of the `WithBaseURL` options of a list, in
order. -/
def baseURLOverrides : List OptionExpr → List String
  | [] => []
  | .withBaseURL u :: es => if u ≠ "" then u :: baseURLOverrides es else baseURLOverrides es
  | _ :: es => baseURLOverrides es

/-- The base URL the options ask for: the argument of the last `WithBaseURL`
with a non-empty URL, or `DefaultBaseURL` when there is none. -/
def lastBaseURL (es : List OptionExpr) : String :=
  (baseURLOverrides es).getLast?.getD DefaultBaseURL

/-- The arguments of the `WithTimeout` options of a list, in order. -/
def timeoutOverrides : List OptionExpr → List Duration
  | [] => []
  | .withTimeout d :: es => d :: timeoutOverrides es
  | _ :: es => timeoutOverrides es

/-- The timeout the options ask for: the argument of the last `WithTimeout`,
or 30 seconds when there is none. -/
def lastTimeout (es : List OptionExpr) : Duration :=
  (timeoutOverrides es).getLast?.getD (30 * Second)

/-- Running a list of options from a state, first to last. -/
def applyOptions (es : List OptionExpr) (s : Client × Heap) : Client × Heap :=
  es.foldl (fun s e => e.eval s) s

/-- The input does not go on with a character that could extend a number
literal. -/
def Delim (rest : List Char) : Prop :=
  ∀ c ∈ rest.head?, isDigit c = false ∧ c ≠ '.' ∧ c ≠ 'e' ∧ c ≠ 'E'

/-- A number literal the scanner reads back whole. -/
def NumLit (lit : List Char) : Prop := scanNumber lit = .ok (lit, [])

mutual
/-- A value the reader gives back from its rendering when it stands inside
`depth` open arrays and objects: its number literals are well formed, its
strings and keys are valid UTF-8, and it opens no array or object beyond the
nesting limit. -/
def wfValue : Nat → JSON → Prop
  | _, .null => True
  | _, .bool _ => True
  | _, .num lit => NumLit lit.data
  | _, .str s => s.valid
  | depth, .arr xs => depth < maxNestingDepth ∧ wfElems (depth + 1) xs
  | depth, .obj ms => depth < maxNestingDepth ∧ wfMembers (depth + 1) ms
/-- Elements that are well formed at a depth. -/
def wfElems : Nat → List JSON → Prop
  | _, [] => True
  | depth, x :: xs => wfValue depth x ∧ wfElems depth xs
/-- Members that are well formed at a depth. -/
def wfMembers : Nat → List (GoString × JSON) → Prop
  | _, [] => True
  | depth, (k, v) :: ms => k.valid ∧ wfValue depth v ∧ wfMembers depth ms
end

/-- The range of a Go `int` (64 bits, signed). -/
def isInt64 (n : Int) : Prop := -(2 ^ 63 : Int) ≤ n ∧ n < 2 ^ 63

/-- The `int` fields of a `Request` are in the range of the Go type. -/
def Request.inRange (r : Request) : Prop := isInt64 r.Num ∧ isInt64 r.Page

/-- Every string field of a `Request` holds valid UTF-8. -/
def Request.validUTF8 (r : Request) : Prop :=
  r.Q.valid ∧ r.Gl.valid ∧ r.Hl.valid ∧ r.Type_.valid ∧ r.Location.valid ∧ r.Tbs.valid
    ∧ r.Safe.valid

/-- The keys a request's payload is to contain: `q`, then the key of every
optional field that is not the zero value, in field order. -/
def Request.presentKeys (r : Request) : List GoString :=
  [bytes "q"]
    ++ (if r.Gl ≠ [] then [bytes "gl"] else [])
    ++ (if r.Hl ≠ [] then [bytes "hl"] else [])
    ++ (if r.Num ≠ 0 then [bytes "num"] else [])
    ++ (if r.Autocorrect ≠ false then [bytes "autocorrect"] else [])
    ++ (if r.Page ≠ 0 then [bytes "page"] else [])
    ++ (if r.Type_ ≠ [] then [bytes "type"] else [])
    ++ (if r.Location ≠ [] then [bytes "location"] else [])
    ++ (if r.Tbs ≠ [] then [bytes "tbs"] else [])
    ++ (if r.Safe ≠ [] then [bytes "safe"] else [])

/-- A request whose query is the single byte `0xff`, which is not valid
UTF-8: `Request{Q: "\xff"}`. -/
def invalidRequest : Request := { Request.zero with Q := [0xff] }

/-- The entries of a map are held in increasing order of their keys. -/
def sortedKeys {β : Type} (m : List (GoString × β)) : Prop :=
  m.Pairwise (fun a b => keyLess a.1 b.1 = true)

/-- The `int` fields of `Parameters` are in the range of the Go type. -/
def Parameters.inRange (p : Parameters) : Prop := isInt64 p.Num ∧ isInt64 p.Page

/-- Every string field of `Parameters` holds valid UTF-8. -/
def Parameters.validUTF8 (p : Parameters) : Prop :=
  p.Q.valid ∧ p.Gl.valid ∧ p.Hl.valid ∧ p.Type_.valid ∧ p.Location.valid

/-- Both strings of a `Sitelink` hold valid UTF-8. -/
def Sitelink.validUTF8 (s : Sitelink) : Prop := s.Title.valid ∧ s.Link.valid

/-- The `int` field of an `OrganicResult` is in the range of the Go type and
its map, held here as a list of entries, is sorted by key. -/
def OrganicResult.inRange (o : OrganicResult) : Prop :=
  isInt64 o.Position ∧ sortedKeys o.Attributes

/-- Every string of an `OrganicResult` holds valid UTF-8: its own fields, its
site links, and the keys and values of its attributes. -/
def OrganicResult.validUTF8 (o : OrganicResult) : Prop :=
  o.Title.valid ∧ o.Link.valid ∧ o.Snippet.valid ∧ o.Date.valid
    ∧ (∀ s ∈ o.Sitelinks, Sitelink.validUTF8 s)
    ∧ (∀ p ∈ o.Attributes, p.1.valid ∧ p.2.valid)

/-- Every string of a `PeopleAlsoAsk` holds valid UTF-8. -/
def PeopleAlsoAsk.validUTF8 (p : PeopleAlsoAsk) : Prop :=
  p.Question.valid ∧ p.Snippet.valid ∧ p.Title.valid ∧ p.Link.valid

/-- The string of a `RelatedSearch` holds valid UTF-8. -/
def RelatedSearch.validUTF8 (s : RelatedSearch) : Prop := s.Query.valid

/-- The attribute map of a `KnowledgeGraph` is sorted by key. -/
def KnowledgeGraph.inRange (g : KnowledgeGraph) : Prop := sortedKeys g.Attributes

/-- A `KnowledgeGraph` whose encoding the reader accepts: its strings hold
valid UTF-8, and its attributes, which the encoding places inside three open
objects, have valid UTF-8 keys and strings, well-formed numbers and no
nesting beyond the limit. -/
def KnowledgeGraph.readable (g : KnowledgeGraph) : Prop :=
  g.Title.valid ∧ g.Type_.valid ∧ g.Website.valid ∧ g.ImageUrl.valid ∧ g.Description.valid
    ∧ g.DescriptionSource.valid ∧ g.DescriptionLink.valid ∧ wfMembers 3 g.Attributes

/-- Every `int` field of a `SearchResponse` is in the range of the Go type and
every map in it, held here as a list of entries, is sorted by key. -/
def SearchResponse.inRange (r : SearchResponse) : Prop :=
  r.SearchParameters.inRange ∧ isInt64 r.Credits
    ∧ (∀ os, r.Organic = some os → ∀ o ∈ os, OrganicResult.inRange o)
    ∧ (∀ g, r.KnowledgeGraph = some g → g.inRange)

/-- A `SearchResponse` whose encoding the reader accepts and gives back:
every string in it holds valid UTF-8 and the attributes of its knowledge
graph stay within the nesting limit. -/
def SearchResponse.readable (r : SearchResponse) : Prop :=
  r.SearchParameters.validUTF8
    ∧ (∀ os, r.Organic = some os → ∀ o ∈ os, OrganicResult.validUTF8 o)
    ∧ (∀ g, r.KnowledgeGraph = some g → g.readable)
    ∧ (∀ p ∈ r.PeopleAlsoAsk, PeopleAlsoAsk.validUTF8 p)
    ∧ (∀ s ∈ r.RelatedSearches, RelatedSearch.validUTF8 s)

/-- The response of the package's test: one credit and one organic result. -/
def testResponse : SearchResponse :=
  { SearchResponse.zero with
    Credits := 1
    Organic := some [{ OrganicResult.zero with
      Title := bytes "Test Result", Link := bytes "https://example.com" }] }

/-- A response whose one organic result has the title `"\xff"`, a single byte
that is not valid UTF-8. -/
def invalidResponse : SearchResponse :=
  { SearchResponse.zero with
    Credits := 1
    Organic := some [{ OrganicResult.zero with Title := [0xff] }] }

theorem call_eq_do (w : World) (c : Client) (ctx : Context) (v : Vertical)
    (req : Option Request) :
    c.call w ctx v req =
      match (c.do w ctx v.path (.request req) (some v.decode)).err with
      | some err => ⟨(c.do w ctx v.path (.request req) (some v.decode)).sent, none, some err⟩
      | none => ⟨(c.do w ctx v.path (.request req) (some v.decode)).sent,
          some ((c.do w ctx v.path (.request req) (some v.decode)).result.getD v.zero), none⟩ := by
  cases v <;> rfl

theorem header_set_set (k : String) :
    (Header.Set (Header.Set [] "X-API-KEY" k) "Content-Type" "application/json")
      = [("X-Api-Key", k), ("Content-Type", "application/json")] := by
  have h1 : canonicalMIMEHeaderKey "X-API-KEY" = "X-Api-Key" := by decide
  have h2 : canonicalMIMEHeaderKey "Content-Type" = "Content-Type" := by decide
  simp [Header.Set, h1, h2]

theorem do_nil_ctx {α : Type} (w : World) (c : Client) (path : String) (req : Option Request)
    (dec : List Char → Except JSONError α) :
    c.do w none path (.request req) (some dec)
      = ⟨[], some (.createRequest "net/http: nil Context"), none⟩ := by
  simp [Client.do, NewRequestWithContext, jsonMarshal]
  cases req <;> rfl

theorem do_bad_url {α : Type} (w : World) (c : Client) (id : Nat) (path : String)
    (req : Option Request) (dec : List Char → Except JSONError α)
    (h : w.urlParse (c.baseURL ++ path) = false) :
    c.do w (some id) path (.request req) (some dec) = ⟨[], some (.createRequest "parse"), none⟩ := by
  cases req <;> simp [Client.do, NewRequestWithContext, jsonMarshal, h, Except.map]

theorem do_sent {α : Type} (w : World) (c : Client) (id : Nat) (path : String)
    (req : Option Request) (dec : List Char → Except JSONError α)
    (h : w.urlParse (c.baseURL ++ path) = true) :
    c.do w (some id) path (.request req) (some dec) =
      match w.Do c.httpClient (c.outbound id path (some (requestBody req))) with
      | .failure e => ⟨[c.outbound id path (some (requestBody req))], some (.doRequest e), none⟩
      | .response status body =>
        classify (c.outbound id path (some (requestBody req))) dec status body := by
  cases req <;>
    simp [Client.do, NewRequestWithContext, jsonMarshal, h, Except.map, header_set_set,
      Client.outbound, requestBody, classify]

theorem call_unsent (w : World) (c : Client) (ctx : Context) (v : Vertical)
    (req : Option Request)
    (h : ctx = none ∨ w.urlParse (c.baseURL ++ v.path) = false) :
    ∃ cause, c.call w ctx v req = ⟨[], none, some (.createRequest cause)⟩ := by
  rw [call_eq_do]
  cases ctx with
  | none => exact ⟨_, by rw [do_nil_ctx]⟩
  | some id =>
    rcases h with h | h
    · cases h
    · exact ⟨_, by rw [do_bad_url _ _ _ _ _ _ h]⟩

theorem call_failure (w : World) (c : Client) (id : Nat) (v : Vertical) (req : Option Request)
    (cause : String) (h : w.urlParse (c.baseURL ++ v.path) = true)
    (hd : w.Do c.httpClient (c.outbound id v.path (some (requestBody req))) = .failure cause) :
    c.call w (some id) v req
      = ⟨[c.outbound id v.path (some (requestBody req))], none, some (.doRequest cause)⟩ := by
  rw [call_eq_do, do_sent _ _ _ _ _ _ h, hd]

theorem call_response (w : World) (c : Client) (id : Nat) (v : Vertical) (req : Option Request)
    (s : Int) (body : List Char) (h : w.urlParse (c.baseURL ++ v.path) = true)
    (hd : w.Do c.httpClient (c.outbound id v.path (some (requestBody req))) = .response s body) :
    c.call w (some id) v req =
      match (classify (c.outbound id v.path (some (requestBody req))) v.decode s body).err with
      | some err => ⟨[c.outbound id v.path (some (requestBody req))], none, some err⟩
      | none => ⟨[c.outbound id v.path (some (requestBody req))],
          some ((classify (c.outbound id v.path (some (requestBody req))) v.decode s
            body).result.getD v.zero), none⟩ := by
  have hs : ∀ (rq : HTTPRequest) (dec : List Char → Except JSONError v.Response),
      (classify rq dec s body).sent = [rq] := by
    intro rq dec
    unfold classify
    split
    · split
      · split <;> rfl
      · rfl
    · split <;> rfl
  rw [call_eq_do, do_sent _ _ _ _ _ _ h, hd]
  simp only [hs]

theorem call_sent_inv (w : World) (c : Client) (ctx : Context) (v : Vertical)
    (req : Option Request) (rq : HTTPRequest) (h : (c.call w ctx v req).sent = [rq]) :
    ∃ id, ctx = some id ∧ w.urlParse (c.baseURL ++ v.path) = true
      ∧ rq = c.outbound id v.path (some (requestBody req)) := by
  cases ctx with
  | none =>
    obtain ⟨cause, hc⟩ := call_unsent w c none v req (Or.inl rfl)
    rw [hc] at h
    cases h
  | some id =>
    cases hu : w.urlParse (c.baseURL ++ v.path) with
    | false =>
      obtain ⟨cause, hc⟩ := call_unsent w c (some id) v req (Or.inr hu)
      rw [hc] at h
      cases h
    | true =>
      refine ⟨id, rfl, rfl, ?_⟩
      cases hd : w.Do c.httpClient (c.outbound id v.path (some (requestBody req))) with
      | failure cause =>
        rw [call_failure w c id v req cause hu hd] at h
        simpa using h.symm
      | response s body =>
        rw [call_response w c id v req s body hu hd] at h
        split at h <;> simpa using h.symm

/-- With a live context and a URL that parses, the call hands the transport
its one request. -/
theorem call_sent_eq (w : World) (c : Client) (id : Nat) (v : Vertical) (req : Option Request)
    (hu : w.urlParse (c.baseURL ++ v.path) = true) :
    (c.call w (some id) v req).sent = [c.outbound id v.path (some (requestBody req))] := by
  cases hd : w.Do c.httpClient (c.outbound id v.path (some (requestBody req))) with
  | failure cause => rw [call_failure w c id v req cause hu hd]
  | response s body =>
    rw [call_response w c id v req s body hu hd]
    split <;> rfl

/-- The outcome of a call whose request `rq` reached the transport and got
the response `(s, body)`. -/
theorem call_of_response (w : World) (c : Client) (ctx : Context) (v : Vertical)
    (req : Option Request) (rq : HTTPRequest) (s : Int) (body : List Char)
    (hsent : (c.call w ctx v req).sent = [rq])
    (hresp : w.Do c.httpClient rq = .response s body) :
    c.call w ctx v req =
      match (classify rq v.decode s body).err with
      | some err => ⟨[rq], none, some err⟩
      | none => ⟨[rq], some ((classify rq v.decode s body).result.getD v.zero), none⟩ := by
  obtain ⟨id, rfl, hu, rfl⟩ := call_sent_inv w c ctx v req rq hsent
  exact call_response w c id v req s body hu hresp

/-- The outcome of a call whose request `rq` reached the transport and got
no response. -/
theorem call_of_failure (w : World) (c : Client) (ctx : Context) (v : Vertical)
    (req : Option Request) (rq : HTTPRequest) (cause : String)
    (hsent : (c.call w ctx v req).sent = [rq])
    (hresp : w.Do c.httpClient rq = .failure cause) :
    c.call w ctx v req = ⟨[rq], none, some (.doRequest cause)⟩ := by
  obtain ⟨id, rfl, hu, rfl⟩ := call_sent_inv w c ctx v req rq hsent
  exact call_failure w c id v req cause hu hresp

theorem classify_api {α : Type} (rq : HTTPRequest) (dec : List Char → Except JSONError α)
    (s : Int) (body : List Char) (hs : 400 ≤ s) :
    classify rq dec s body =
      ⟨[rq], some (.api ⟨s,
        match jsonDecode Envelope.setField ⟨[]⟩ body with
        | .ok e => if e.Message ≠ [] then e.Message else bytes "unknown error"
        | .error _ => bytes "unknown error"⟩), none⟩ := by
  unfold classify
  rw [if_pos hs]
  split
  · split <;> rfl
  · rfl

theorem classify_ok {α : Type} (rq : HTTPRequest) (dec : List Char → Except JSONError α)
    (s : Int) (body : List Char) (hs : s < 400) :
    classify rq dec s body =
      match dec body with
      | .error e => ⟨[rq], some (.decodeResponse e), none⟩
      | .ok v => ⟨[rq], none, some v⟩ := by
  unfold classify
  rw [if_neg (by omega)]


/-! ## Error classification -/

theorem envelope_members_error (ms : List (GoString × JSON)) (cur : Envelope)
    (h : ∃ p ∈ ms, foldName p.1 = "MESSAGE" ∧ (∀ s, p.2 ≠ .str s) ∧ p.2 ≠ .null) :
    ∃ e, decodeMembers Envelope.setField ms cur = .error e := by
  induction ms generalizing cur with
  | nil => obtain ⟨p, hp, _⟩ := h; cases hp
  | cons q ms ih =>
    obtain ⟨k, v⟩ := q
    unfold decodeMembers
    cases hq : Envelope.setField (foldName k) v cur with
    | error e => exact ⟨e, rfl⟩
    | ok cur' =>
      obtain ⟨p, hp, hk, hs, hn⟩ := h
      rcases List.mem_cons.mp hp with rfl | hp
      · exfalso
        simp only [Envelope.setField, hk, if_true] at hq
        cases v with
        | str s => exact hs s rfl
        | null => exact hn rfl
        | bool b => simp [decodeString, Except.map] at hq
        | num l => simp [decodeString, Except.map] at hq
        | arr xs => simp [decodeString, Except.map] at hq
        | obj ms => simp [decodeString, Except.map] at hq
      · exact ih cur' ⟨p, hp, hk, hs, hn⟩

theorem envelope_members_empty (ms : List (GoString × JSON))
    (h : ∀ p ∈ ms, foldName p.1 = "MESSAGE" → p.2 = .str [] ∨ p.2 = .null) :
    decodeMembers Envelope.setField ms ⟨[]⟩ = .ok ⟨[]⟩ := by
  induction ms with
  | nil => rfl
  | cons q ms ih =>
    obtain ⟨k, v⟩ := q
    have hstep : Envelope.setField (foldName k) v ⟨[]⟩ = .ok ⟨[]⟩ := by
      unfold Envelope.setField
      by_cases hk : foldName k = "MESSAGE"
      · rw [if_pos hk]
        rcases h (k, v) (List.mem_cons_self _ _) hk with hv | hv <;>
          simp only [] at hv <;> subst hv <;> rfl
      · rw [if_neg hk]
    unfold decodeMembers
    rw [hstep]
    exact ih (fun p hp => h p (List.mem_cons_of_mem _ hp))

theorem envelope_lacks (body : List Char) (h : lacksMessage body) :
    match jsonDecode Envelope.setField ⟨[]⟩ body with
    | .ok e => e.Message = []
    | .error _ => True := by
  unfold lacksMessage at h
  unfold jsonDecode
  cases hr : readValue body with
  | error e => trivial
  | ok j =>
    rw [hr] at h
    cases j with
    | obj ms =>
      simp only [decodeStruct]
      rcases h with h | h
      · obtain ⟨e, he⟩ := envelope_members_error ms ⟨[]⟩ h
        rw [he]
        trivial
      · rw [envelope_members_empty ms h]
    | null => simp [decodeStruct]
    | bool b => simp [decodeStruct]
    | num l => simp [decodeStruct]
    | str s => simp [decodeStruct]
    | arr xs => simp [decodeStruct]

/-- C1: when the request of any vertical operation reaches the transport and
the response has status `s ≥ 400` and a body that decodes as the error
envelope with a non-empty message `m`, the operation returns no response and
the `*APIError` with `StatusCode = s` and `Message = m`. -/
theorem api_error_carries_message (w : World) (c : Client) (ctx : Context) (v : Vertical)
    (req : Option Request) (rq : HTTPRequest) (s : Int) (body : List Char) (m : GoString)
    (hsent : (c.call w ctx v req).sent = [rq])
    (hresp : w.Do c.httpClient rq = .response s body)
    (hs : 400 ≤ s)
    (hm : jsonDecode Envelope.setField ⟨[]⟩ body = .ok ⟨m⟩)
    (hne : m ≠ []) :
    (c.call w ctx v req).resp = none ∧ (c.call w ctx v req).err = some (.api ⟨s, m⟩) := by
  rw [call_of_response w c ctx v req rq s body hsent hresp, classify_api rq v.decode s body hs, hm]
  simp [hne]

/-- C1, the case of the package's test: status 401 with the body
`{"message": "invalid api key"}`. -/
theorem api_error_carries_message_witness :
    ((testClient "invalid-key" "http://127.0.0.1:8080").call
        (fixedWorld 401 "\x7b\"message\": \"invalid api key\"\x7d") (some 0) .search
        (some testRequest)).resp = none
    ∧ ((testClient "invalid-key" "http://127.0.0.1:8080").call
        (fixedWorld 401 "\x7b\"message\": \"invalid api key\"\x7d") (some 0) .search
        (some testRequest)).err = some (.api ⟨401, bytes "invalid api key"⟩) :=
  api_error_carries_message (fixedWorld 401 "\x7b\"message\": \"invalid api key\"\x7d")
    (testClient "invalid-key" "http://127.0.0.1:8080") (some 0) .search (some testRequest)
    ((testClient "invalid-key" "http://127.0.0.1:8080").outbound 0 "/search"
      (some (requestBody (some testRequest))))
    401 "\x7b\"message\": \"invalid api key\"\x7d".data (bytes "invalid api key")
    (by rfl) (by rfl) (by decide) (by rfl) (by decide)

/-- C2 as stated fails: the body `{"message":"boom"}xyz` is not valid JSON,
yet an error response carrying it yields the message `boom`, because the
decoder reads the first value of the stream and leaves the rest unread. -/
theorem trailing_bytes_keep_message :
    jsonValid "\x7b\"message\":\"boom\"\x7dxyz".data = false
    ∧ ((testClient "key" "http://127.0.0.1:8080").call
        (fixedWorld 500 "\x7b\"message\":\"boom\"\x7dxyz") (some 0) .search
        (some testRequest)).err = some (.api ⟨500, bytes "boom"⟩)
    ∧ (Error.api ⟨500, bytes "boom"⟩) ≠ Error.api ⟨500, bytes "unknown error"⟩ := by
  refine ⟨by rfl, by rfl, by decide⟩

/-- C2, amended: when the request of any vertical operation reaches the
transport and the response has status `s ≥ 400` and a body that lacks a
message (its leading value is malformed or missing, is not an object, has a
`message` member that is neither a string nor `null`, or has only empty or
`null` message members), the operation returns no response and the
`*APIError` with `StatusCode = s` and `Message = "unknown error"`. -/
theorem api_error_unknown (w : World) (c : Client) (ctx : Context) (v : Vertical)
    (req : Option Request) (rq : HTTPRequest) (s : Int) (body : List Char)
    (hsent : (c.call w ctx v req).sent = [rq])
    (hresp : w.Do c.httpClient rq = .response s body)
    (hs : 400 ≤ s)
    (hlack : lacksMessage body) :
    (c.call w ctx v req).resp = none
      ∧ (c.call w ctx v req).err = some (.api ⟨s, bytes "unknown error"⟩) := by
  rw [call_of_response w c ctx v req rq s body hsent hresp, classify_api rq v.decode s body hs]
  have h := envelope_lacks body hlack
  cases hd : jsonDecode Envelope.setField ⟨[]⟩ body with
  | error e => simp
  | ok e =>
    rw [hd] at h
    simp only [] at h
    simp [h]

/-- C2, amended, at a body that is not JSON at all. -/
theorem api_error_unknown_witness :
    lacksMessage "Bad Gateway".data
    ∧ ((testClient "key" "http://127.0.0.1:8080").call
        (fixedWorld 502 "Bad Gateway") (some 0) .news (some testRequest)).resp = none
    ∧ ((testClient "key" "http://127.0.0.1:8080").call
        (fixedWorld 502 "Bad Gateway") (some 0) .news (some testRequest)).err
        = some (.api ⟨502, bytes "unknown error"⟩) :=
  ⟨True.intro,
    api_error_unknown (fixedWorld 502 "Bad Gateway") (testClient "key" "http://127.0.0.1:8080")
      (some 0) .news (some testRequest)
      ((testClient "key" "http://127.0.0.1:8080").outbound 0 "/news"
        (some (requestBody (some testRequest))))
      502 "Bad Gateway".data (by rfl) (by rfl) (by decide) True.intro⟩

/-! ## The shape of what an operation returns -/

/-- C3: the error of a vertical operation is an `*APIError` exactly when the
transport returned a response with status at least 400.  A call that never
reached the transport, a transport failure and a body that fails to decode
under a status below 400 all give an error that is not an `*APIError`, and no
response with status below 400 gives one. -/
theorem api_error_iff_status (w : World) (c : Client) (ctx : Context) (v : Vertical)
    (req : Option Request) :
    ((∃ e, (c.call w ctx v req).err = some e ∧ e.isAPIError = true) ↔
      ∃ rq s body, (c.call w ctx v req).sent = [rq]
        ∧ w.Do c.httpClient rq = .response s body ∧ 400 ≤ s)
    ∧ ((c.call w ctx v req).sent = [] →
        ∃ e, (c.call w ctx v req).err = some e ∧ e.isAPIError = false)
    ∧ (∀ rq cause, (c.call w ctx v req).sent = [rq] → w.Do c.httpClient rq = .failure cause →
        (c.call w ctx v req).err = some (.doRequest cause))
    ∧ (∀ rq s body e, (c.call w ctx v req).sent = [rq] →
        w.Do c.httpClient rq = .response s body → s < 400 → v.decode body = .error e →
        (c.call w ctx v req).err = some (.decodeResponse e))
    ∧ (∀ rq s body e, (c.call w ctx v req).sent = [rq] →
        w.Do c.httpClient rq = .response s body → s < 400 →
        (c.call w ctx v req).err = some e → e.isAPIError = false) := by
  have hlow : ∀ rq s body e, (c.call w ctx v req).sent = [rq] →
      w.Do c.httpClient rq = .response s body → s < 400 →
      (c.call w ctx v req).err = some e → e.isAPIError = false := by
    intro rq s body e hsent hresp hs he
    rw [call_of_response w c ctx v req rq s body hsent hresp, classify_ok rq v.decode s body hs]
      at he
    cases hd : v.decode body with
    | error e' =>
      rw [hd] at he
      simp only [Option.some.injEq] at he
      subst he
      rfl
    | ok r =>
      rw [hd] at he
      cases he
  refine ⟨⟨?_, ?_⟩, ?_, ?_, ?_, hlow⟩
  · rintro ⟨e, he, hapi⟩
    cases ctx with
    | none =>
      obtain ⟨cause, hc⟩ := call_unsent w c none v req (Or.inl rfl)
      rw [hc] at he
      simp only [Option.some.injEq] at he
      subst he
      cases hapi
    | some id =>
      cases hu : w.urlParse (c.baseURL ++ v.path) with
      | false =>
        obtain ⟨cause, hc⟩ := call_unsent w c (some id) v req (Or.inr hu)
        rw [hc] at he
        simp only [Option.some.injEq] at he
        subst he
        cases hapi
      | true =>
        cases hd : w.Do c.httpClient (c.outbound id v.path (some (requestBody req))) with
        | failure cause =>
          rw [call_failure w c id v req cause hu hd] at he
          simp only [Option.some.injEq] at he
          subst he
          cases hapi
        | response s body =>
          have hsent : (c.call w (some id) v req).sent
              = [c.outbound id v.path (some (requestBody req))] := by
            rw [call_response w c id v req s body hu hd]
            split <;> rfl
          refine ⟨_, s, body, hsent, hd, ?_⟩
          by_contra hlt
          have := hlow _ s body e hsent hd (by omega) he
          rw [this] at hapi
          cases hapi
  · rintro ⟨rq, s, body, hsent, hresp, hs⟩
    rw [call_of_response w c ctx v req rq s body hsent hresp, classify_api rq v.decode s body hs]
    exact ⟨_, rfl, rfl⟩
  · intro hsent
    cases ctx with
    | none =>
      obtain ⟨cause, hc⟩ := call_unsent w c none v req (Or.inl rfl)
      rw [hc]
      exact ⟨_, rfl, rfl⟩
    | some id =>
      cases hu : w.urlParse (c.baseURL ++ v.path) with
      | false =>
        obtain ⟨cause, hc⟩ := call_unsent w c (some id) v req (Or.inr hu)
        rw [hc]
        exact ⟨_, rfl, rfl⟩
      | true =>
        exfalso
        cases hd : w.Do c.httpClient (c.outbound id v.path (some (requestBody req))) with
        | failure cause =>
          rw [call_failure w c id v req cause hu hd] at hsent
          cases hsent
        | response s body =>
          rw [call_response w c id v req s body hu hd] at hsent
          split at hsent <;> cases hsent
  · intro rq cause hsent hresp
    rw [call_of_failure w c ctx v req rq cause hsent hresp]
  · intro rq s body e hsent hresp hs hd
    rw [call_of_response w c ctx v req rq s body hsent hresp, classify_ok rq v.decode s body hs,
      hd]

/-- C5: a vertical operation returns either a response and no error, or no
response and an error; a response that is returned is the complete decoding
of the body of a response with status below 400. -/
theorem response_xor_error (w : World) (c : Client) (ctx : Context) (v : Vertical)
    (req : Option Request) :
    (((c.call w ctx v req).resp.isSome = true ∧ (c.call w ctx v req).err = none)
      ∨ ((c.call w ctx v req).resp = none ∧ (c.call w ctx v req).err.isSome = true))
    ∧ (∀ r, (c.call w ctx v req).resp = some r →
        ∃ rq s body, (c.call w ctx v req).sent = [rq]
          ∧ w.Do c.httpClient rq = .response s body ∧ s < 400 ∧ v.decode body = .ok r) := by
  cases ctx with
  | none =>
    obtain ⟨cause, hc⟩ := call_unsent w c none v req (Or.inl rfl)
    rw [hc]
    exact ⟨Or.inr ⟨rfl, rfl⟩, fun r hr => by cases hr⟩
  | some id =>
    cases hu : w.urlParse (c.baseURL ++ v.path) with
    | false =>
      obtain ⟨cause, hc⟩ := call_unsent w c (some id) v req (Or.inr hu)
      rw [hc]
      exact ⟨Or.inr ⟨rfl, rfl⟩, fun r hr => by cases hr⟩
    | true =>
      cases hd : w.Do c.httpClient (c.outbound id v.path (some (requestBody req))) with
      | failure cause =>
        rw [call_failure w c id v req cause hu hd]
        exact ⟨Or.inr ⟨rfl, rfl⟩, fun r hr => by cases hr⟩
      | response s body =>
        rw [call_response w c id v req s body hu hd]
        by_cases hs : 400 ≤ s
        · rw [classify_api _ v.decode s body hs]
          exact ⟨Or.inr ⟨rfl, rfl⟩, fun r hr => by cases hr⟩
        · rw [classify_ok _ v.decode s body (by omega)]
          cases hdec : v.decode body with
          | error e => exact ⟨Or.inr ⟨rfl, rfl⟩, fun r hr => by cases hr⟩
          | ok r0 =>
            refine ⟨Or.inl ⟨rfl, rfl⟩, fun r hr => ?_⟩
            simp only [Option.getD_some, Option.some.injEq] at hr
            subst hr
            exact ⟨_, s, body, rfl, hd, by omega, hdec⟩

/-! ## The outbound request -/

/-- C6: a call of a vertical operation hands the transport at most one
request, and exactly one when the context is not nil and the URL parses; that
request has method POST, URL `baseURL` followed by the operation's path,
header `X-API-KEY` equal to the API key, header `Content-Type` equal to
`application/json`, and no other header. -/
theorem one_post_per_call (w : World) (c : Client) (ctx : Context) (v : Vertical)
    (req : Option Request) :
    (c.call w ctx v req).sent.length ≤ 1
    ∧ ((c.call w ctx v req).sent.length = 1 ↔
        ctx ≠ none ∧ w.urlParse (c.baseURL ++ v.path) = true)
    ∧ (∀ rq ∈ (c.call w ctx v req).sent,
        rq.Method = "POST" ∧ rq.URL = c.baseURL ++ v.path
        ∧ rq.Header.Get "X-API-KEY" = c.apiKey
        ∧ rq.Header.Get "Content-Type" = "application/json"
        ∧ rq.Header.length = 2) := by
  have hget1 : ∀ k : String,
      Header.Get [("X-Api-Key", k), ("Content-Type", "application/json")] "X-API-KEY" = k := by
    intro k
    have h1 : canonicalMIMEHeaderKey "X-API-KEY" = "X-Api-Key" := by decide
    simp [Header.Get, h1]
  have hget2 : ∀ k : String,
      Header.Get [("X-Api-Key", k), ("Content-Type", "application/json")] "Content-Type"
        = "application/json" := by
    intro k
    have h2 : canonicalMIMEHeaderKey "Content-Type" = "Content-Type" := by decide
    simp [Header.Get, h2]
  have hout : ∀ id, (c.call w (some id) v req).sent
        = [c.outbound id v.path (some (requestBody req))] →
      (c.call w (some id) v req).sent.length ≤ 1
      ∧ ((c.call w (some id) v req).sent.length = 1 ↔
          (some id : Context) ≠ none ∧ true = true)
      ∧ (∀ rq ∈ (c.call w (some id) v req).sent,
          rq.Method = "POST" ∧ rq.URL = c.baseURL ++ v.path
          ∧ rq.Header.Get "X-API-KEY" = c.apiKey
          ∧ rq.Header.Get "Content-Type" = "application/json"
          ∧ rq.Header.length = 2) := by
    intro id hsent
    rw [hsent]
    refine ⟨by simp, by simp, ?_⟩
    intro rq hrq
    simp only [List.mem_singleton] at hrq
    subst hrq
    exact ⟨rfl, rfl, hget1 _, hget2 _, rfl⟩
  cases ctx with
  | none =>
    obtain ⟨cause, hc⟩ := call_unsent w c none v req (Or.inl rfl)
    rw [hc]
    simp
  | some id =>
    cases hu : w.urlParse (c.baseURL ++ v.path) with
    | false =>
      obtain ⟨cause, hc⟩ := call_unsent w c (some id) v req (Or.inr hu)
      rw [hc]
      simp
    | true =>
      apply hout
      cases hd : w.Do c.httpClient (c.outbound id v.path (some (requestBody req))) with
      | failure cause => rw [call_failure w c id v req cause hu hd]
      | response s body =>
        rw [call_response w c id v req s body hu hd]
        split <;> rfl

/-- C10, what the code does: for a nil request the request handed to the
transport has the four-character body `null`, and for a request `r` the body
is the encoding of `r`; in neither case is the body absent. -/
theorem nil_request_sends_null (w : World) (c : Client) (id : Nat) (v : Vertical)
    (hu : w.urlParse (c.baseURL ++ v.path) = true) :
    (c.call w (some id) v none).sent.map (fun rq => rq.Body) = [some ['n', 'u', 'l', 'l']]
    ∧ ∀ r : Request,
        (c.call w (some id) v (some r)).sent.map (fun rq => rq.Body) = [some (render r.toJSON)] := by
  have hsent : ∀ req, (c.call w (some id) v req).sent
      = [c.outbound id v.path (some (requestBody req))] := by
    intro req
    cases hd : w.Do c.httpClient (c.outbound id v.path (some (requestBody req))) with
    | failure cause => rw [call_failure w c id v req cause hu hd]
    | response s body =>
      rw [call_response w c id v req s body hu hd]
      split <;> rfl
  refine ⟨?_, fun r => ?_⟩
  · rw [hsent]
    rfl
  · rw [hsent]
    rfl

/-- C10 at the client of the package's tests: `Search(ctx, nil)` posts the
body `null`. -/
theorem nil_request_sends_null_witness :
    ((testClient "key" "http://127.0.0.1:8080").call (fixedWorld 200 "\x7b\x7d") (some 0) .search
      none).sent.map (fun rq => rq.Body) = [some ['n', 'u', 'l', 'l']] :=
  (nil_request_sends_null (fixedWorld 200 "\x7b\x7d") (testClient "key" "http://127.0.0.1:8080") 0
    .search (by rfl)).1

/-! ## Construction -/

theorem newClient_eq (k : String) (es : List OptionExpr) (heap : Heap) :
    NewClient k (es.map OptionExpr.eval) heap =
      applyOptions es
        ({ apiKey := k, httpClient := heap.length, baseURL := DefaultBaseURL },
          heap ++ [{ Timeout := 30 * Second, Transport := none }]) := by
  simp [NewClient, applyOptions, List.foldl_map]

theorem getLast?_cons_getD {α : Type} (a d : α) (l : List α) :
    (a :: l).getLast?.getD d = l.getLast?.getD a := by
  cases l with
  | nil => rfl
  | cons b l => simp [List.getLast?_cons_cons, List.getLast?_eq_getLast, List.getLast?]

theorem applyOptions_apiKey (es : List OptionExpr) (s : Client × Heap) :
    (applyOptions es s).1.apiKey = s.1.apiKey := by
  induction es generalizing s with
  | nil => rfl
  | cons e es ih =>
    have hstep : (e.eval s).1.apiKey = s.1.apiKey := by
      cases e with
      | withHTTPClient p => cases p <;> rfl
      | withBaseURL u =>
        simp only [OptionExpr.eval, WithBaseURL]
        split <;> rfl
      | withTimeout d => rfl
    show (applyOptions es (e.eval s)).1.apiKey = s.1.apiKey
    rw [ih, hstep]

theorem applyOptions_baseURL (es : List OptionExpr) (s : Client × Heap) :
    (applyOptions es s).1.baseURL = (baseURLOverrides es).getLast?.getD s.1.baseURL := by
  induction es generalizing s with
  | nil => rfl
  | cons e es ih =>
    show (applyOptions es (e.eval s)).1.baseURL = _
    rw [ih]
    cases e with
    | withHTTPClient p => cases p <;> rfl
    | withTimeout d => rfl
    | withBaseURL u =>
      by_cases hu : u = ""
      · simp [OptionExpr.eval, WithBaseURL, baseURLOverrides, hu]
      · simp only [OptionExpr.eval, WithBaseURL, baseURLOverrides, ne_eq, hu, not_false_eq_true,
          if_true]
        rw [getLast?_cons_getD]

/-- C8: `NewClient(k, opts...)` runs the options in the order supplied and
returns a client with API key `k` whose base URL is the argument of the last
`WithBaseURL` option with a non-empty URL, or `DefaultBaseURL` when there is
none; an empty base-URL override changes nothing, and `WithHTTPClient` and
`WithTimeout` leave the base URL alone.  In the case of the package's test,
`WithHTTPClient(h), WithBaseURL("https://api.example.com")` gives that base
URL and the transport `h`. -/
theorem new_client_base_url (k : String) (es : List OptionExpr) (heap : Heap) :
    (NewClient k (es.map OptionExpr.eval) heap).1.apiKey = k
    ∧ (NewClient k (es.map OptionExpr.eval) heap).1.baseURL = lastBaseURL es
    ∧ (∀ e : OptionExpr, NewClient k ((es ++ [e]).map OptionExpr.eval) heap
        = e.eval (NewClient k (es.map OptionExpr.eval) heap))
    ∧ DefaultBaseURL = "https://google.serper.dev"
    ∧ (∀ s : Client × Heap, WithBaseURL "" s = s)
    ∧ (∀ (u : String) (s : Client × Heap), u ≠ "" → (WithBaseURL u s).1.baseURL = u)
    ∧ (∀ (p : Option Nat) (s : Client × Heap), (WithHTTPClient p s).1.baseURL = s.1.baseURL)
    ∧ (∀ (d : Duration) (s : Client × Heap), (WithTimeout d s).1.baseURL = s.1.baseURL)
    ∧ (∀ h : Nat,
        (NewClient "key" [WithHTTPClient (some h), WithBaseURL "https://api.example.com"]
          heap).1.baseURL = "https://api.example.com"
        ∧ (NewClient "key" [WithHTTPClient (some h), WithBaseURL "https://api.example.com"]
          heap).1.httpClient = h) := by
  refine ⟨?_, ?_, ?_, rfl, ?_, ?_, ?_, ?_, ?_⟩
  · rw [newClient_eq, applyOptions_apiKey]
  · rw [newClient_eq, applyOptions_baseURL]
    rfl
  · intro e
    simp [NewClient, List.foldl_map, List.foldl_append]
  · intro s
    simp [WithBaseURL]
  · intro u s hu
    simp [WithBaseURL, hu]
  · intro p s
    cases p <;> rfl
  · intro d s
    rfl
  · intro h
    exact ⟨by simp [NewClient, WithHTTPClient, WithBaseURL], by
      simp [NewClient, WithHTTPClient, WithBaseURL]⟩

theorem setTimeout_length (hp : Heap) (p : Nat) (t : Duration) :
    (Heap.setTimeout hp p t).length = hp.length := by
  induction hp generalizing p with
  | nil => rfl
  | cons x xs ih =>
    cases p with
    | zero => rfl
    | succ p => simp [Heap.setTimeout, ih]

theorem setTimeout_get_self (hp : Heap) (p : Nat) (t : Duration) :
    (Heap.setTimeout hp p t)[p]? = hp[p]?.map (fun x => { x with Timeout := t }) := by
  induction hp generalizing p with
  | nil => rfl
  | cons x xs ih =>
    cases p with
    | zero => simp [Heap.setTimeout]
    | succ p => simp [Heap.setTimeout, ih]

theorem setTimeout_get_ne (hp : Heap) (p q : Nat) (t : Duration) (h : q ≠ p) :
    (Heap.setTimeout hp p t)[q]? = hp[q]? := by
  induction hp generalizing p q with
  | nil => rfl
  | cons x xs ih =>
    cases p with
    | zero =>
      cases q with
      | zero => exact absurd rfl h
      | succ q => simp [Heap.setTimeout]
    | succ p =>
      cases q with
      | zero => simp [Heap.setTimeout]
      | succ q =>
        simp only [Heap.setTimeout, List.getElem?_cons_succ]
        exact ih p q (by omega)

theorem applyOptions_default (es : List OptionExpr) (s : Client × Heap) (x : HTTPClient)
    (hno : ∀ p, OptionExpr.withHTTPClient (some p) ∉ es)
    (hx : s.2[s.1.httpClient]? = some x) :
    (applyOptions es s).1.httpClient = s.1.httpClient
    ∧ (applyOptions es s).2[s.1.httpClient]?
        = some { x with Timeout := (timeoutOverrides es).getLast?.getD x.Timeout }
    ∧ ∀ q, q ≠ s.1.httpClient → (applyOptions es s).2[q]? = s.2[q]? := by
  induction es generalizing s x with
  | nil => exact ⟨rfl, hx, fun _ _ => rfl⟩
  | cons e es ih =>
    have hno' : ∀ p, OptionExpr.withHTTPClient (some p) ∉ es :=
      fun p hp => hno p (List.mem_cons_of_mem _ hp)
    show (applyOptions es (e.eval s)).1.httpClient = _ ∧ (applyOptions es (e.eval s)).2[_]? = _
      ∧ ∀ q, q ≠ _ → (applyOptions es (e.eval s)).2[q]? = _
    cases e with
    | withHTTPClient p =>
      cases p with
      | none => exact ih s x hno' hx
      | some p => exact absurd (List.mem_cons_self _ _) (hno p)
    | withBaseURL u =>
      have hs : (OptionExpr.eval (.withBaseURL u) s).1.httpClient = s.1.httpClient
          ∧ (OptionExpr.eval (.withBaseURL u) s).2 = s.2 := by
        simp only [OptionExpr.eval, WithBaseURL]
        split <;> exact ⟨rfl, rfl⟩
      have := ih (OptionExpr.eval (.withBaseURL u) s) x hno' (by rw [hs.1, hs.2]; exact hx)
      rw [hs.1, hs.2] at this
      exact this
    | withTimeout d =>
      have hx' : (OptionExpr.eval (.withTimeout d) s).2[(OptionExpr.eval (.withTimeout d)
          s).1.httpClient]? = some { x with Timeout := d } := by
        show (Heap.setTimeout s.2 s.1.httpClient d)[s.1.httpClient]? = _
        rw [setTimeout_get_self, hx]
        rfl
      obtain ⟨h1, h2, h3⟩ := ih (OptionExpr.eval (.withTimeout d) s) _ hno' hx'
      refine ⟨h1, ?_, ?_⟩
      · rw [show s.1.httpClient = (OptionExpr.eval (.withTimeout d) s).1.httpClient from rfl, h2]
        simp only [timeoutOverrides]
        rw [getLast?_cons_getD]
      · intro q hq
        rw [h3 q hq]
        exact setTimeout_get_ne s.2 s.1.httpClient q d hq

/-- C9: with a timeout override `d` and a custom transport `h`, the one
applied last wins.  After `WithTimeout(d), WithHTTPClient(h)` the client
holds `h` and `h` is as the caller made it; after `WithHTTPClient(h),
WithTimeout(d)` the client holds `h` and `h` has timeout `d`, the rest of it
unchanged.  Without a transport override the client holds the fresh default
transport, whose timeout is the argument of the last `WithTimeout` or 30
seconds, and no object of the caller is touched. -/
theorem timeout_transport_last_wins (k : String) (d : Duration) (h : Nat) (heap : Heap)
    (hh : h < heap.length) :
    (NewClient k [WithTimeout d, WithHTTPClient (some h)] heap).1.httpClient = h
    ∧ (NewClient k [WithTimeout d, WithHTTPClient (some h)] heap).2[h]? = heap[h]?
    ∧ (NewClient k [WithHTTPClient (some h), WithTimeout d] heap).1.httpClient = h
    ∧ (NewClient k [WithHTTPClient (some h), WithTimeout d] heap).2[h]?
        = heap[h]?.map (fun x => { x with Timeout := d })
    ∧ ∀ es : List OptionExpr, (∀ p, OptionExpr.withHTTPClient (some p) ∉ es) →
        (NewClient k (es.map OptionExpr.eval) heap).1.httpClient = heap.length
        ∧ (NewClient k (es.map OptionExpr.eval) heap).2[heap.length]?
            = some { Timeout := lastTimeout es, Transport := none }
        ∧ ∀ q, q < heap.length →
            (NewClient k (es.map OptionExpr.eval) heap).2[q]? = heap[q]? := by
  refine ⟨rfl, ?_, rfl, ?_, ?_⟩
  · show (Heap.setTimeout (heap ++ [_]) heap.length d)[h]? = _
    rw [setTimeout_get_ne _ _ _ _ (by omega), List.getElem?_append_left hh]
  · show (Heap.setTimeout (heap ++ [_]) h d)[h]? = _
    rw [setTimeout_get_self, List.getElem?_append_left hh]
  · intro es hno
    rw [newClient_eq]
    have hx : (heap ++ [({ Timeout := 30 * Second, Transport := none } : HTTPClient)])[heap.length]?
        = some { Timeout := 30 * Second, Transport := none } := by
      simp
    obtain ⟨h1, h2, h3⟩ := applyOptions_default es
      ({ apiKey := k, httpClient := heap.length, baseURL := DefaultBaseURL },
        heap ++ [{ Timeout := 30 * Second, Transport := none }]) _ hno hx
    refine ⟨h1, h2, ?_⟩
    intro q hq
    rw [h3 q (by simp only []; omega), List.getElem?_append_left hq]

/-- C9 with a caller's transport of timeout 5 seconds and an override of 10
seconds. -/
theorem timeout_transport_last_wins_witness :
    (0 : Nat) < [({ Timeout := 5 * Second, Transport := some 1 } : HTTPClient)].length
    ∧ (NewClient "key" [WithTimeout (10 * Second), WithHTTPClient (some 0)]
        [{ Timeout := 5 * Second, Transport := some 1 }]).2[0]?
        = some { Timeout := 5 * Second, Transport := some 1 }
    ∧ (NewClient "key" [WithHTTPClient (some 0), WithTimeout (10 * Second)]
        [{ Timeout := 5 * Second, Transport := some 1 }]).2[0]?
        = some { Timeout := 10 * Second, Transport := some 1 } :=
  ⟨by decide,
    (timeout_transport_last_wins "key" (10 * Second) 0
      [{ Timeout := 5 * Second, Transport := some 1 }] (by decide)).2.1,
    (timeout_transport_last_wins "key" (10 * Second) 0
      [{ Timeout := 5 * Second, Transport := some 1 }] (by decide)).2.2.2.1⟩

/-! ## Number literals -/

theorem digit_char (d : Nat) (h : d < 10) :
    isDigit (Char.ofNat (48 + d)) = true ∧ (Char.ofNat (48 + d)).toNat - 48 = d
      ∧ (Char.ofNat (48 + d) = '0' → d = 0) := by
  interval_cases d <;> decide

theorem takeDigits_append (l rest : List Char) (h : ∀ c ∈ rest.head?, isDigit c = false) :
    takeDigits (l ++ rest) = ((takeDigits l).1, (takeDigits l).2 ++ rest) := by
  induction l with
  | nil =>
    cases rest with
    | nil => rfl
    | cons c t =>
      have hc := h c (by simp)
      simp [takeDigits, hc]
  | cons c l ih =>
    by_cases hc : isDigit c = true
    · simp [takeDigits, hc, ih]
    · simp [takeDigits, hc]

theorem takeDigits_all (ds : List Char) (h : ∀ c ∈ ds, isDigit c = true) :
    takeDigits ds = (ds, []) := by
  induction ds with
  | nil => rfl
  | cons c ds ih =>
    have hc := h c (List.mem_cons_self _ _)
    simp [takeDigits, hc, ih (fun x hx => h x (List.mem_cons_of_mem _ hx))]

theorem natDigits_spec (fuel n : Nat) (h : n < fuel) :
    ∃ c ds, natDigits fuel n = c :: ds ∧ isDigit c = true ∧ (∀ x ∈ ds, isDigit x = true)
      ∧ (c = '0' → n = 0) ∧ digitsVal (c :: ds) = some n := by
  induction fuel generalizing n with
  | zero => omega
  | succ fuel ih =>
    by_cases hn : n < 10
    · have hd := digit_char n hn
      refine ⟨Char.ofNat (48 + n), [], by simp [natDigits, hn], hd.1, by simp, hd.2.2, ?_⟩
      simp [digitsVal, hd.1, hd.2.1]
    · obtain ⟨c, ds, hnd, hc, hds, h0, hval⟩ := ih (n / 10) (by omega)
      have hd := digit_char (n % 10) (Nat.mod_lt _ (by omega))
      refine ⟨c, ds ++ [Char.ofNat (48 + n % 10)], by simp [natDigits, hn, hnd], hc, ?_, ?_, ?_⟩
      · intro x hx
        rcases List.mem_append.mp hx with hx | hx
        · exact hds x hx
        · simp only [List.mem_singleton] at hx
          rw [hx]
          exact hd.1
      · intro hc0
        have := h0 hc0
        omega
      · have hval' : digitsVal (c :: ds ++ [Char.ofNat (48 + n % 10)]) = some n := by
          unfold digitsVal at hval ⊢
          rw [List.foldl_append, hval]
          simp only [List.foldl_cons, List.foldl_nil, Option.some_bind, hd.1, if_true]
          rw [hd.2.1]
          congr 1
          omega
        simpa using hval'

theorem scanInt_append (l x r rest : List Char) (h : scanInt l = .ok (x, r))
    (hrest : ∀ c ∈ rest.head?, isDigit c = false) :
    scanInt (l ++ rest) = .ok (x, r ++ rest) := by
  cases l with
  | nil => simp [scanInt] at h
  | cons c l =>
    simp only [scanInt, List.cons_append] at h ⊢
    by_cases h0 : c = '0'
    · simp only [h0, if_true, Except.ok.injEq, Prod.mk.injEq] at h ⊢
      exact ⟨h.1, by rw [← h.2]⟩
    · simp only [h0, if_false] at h ⊢
      by_cases hc : isDigit c = true
      · simp only [hc, if_true, Except.ok.injEq, Prod.mk.injEq] at h ⊢
        rw [takeDigits_append l rest hrest]
        exact ⟨h.1, by rw [← h.2]⟩
      · simp [hc] at h

theorem scanDigits1_append (pre l x r rest : List Char) (h : scanDigits1 pre l = .ok (x, r))
    (hrest : ∀ c ∈ rest.head?, isDigit c = false) :
    scanDigits1 pre (l ++ rest) = .ok (x, r ++ rest) := by
  cases l with
  | nil => simp [scanDigits1] at h
  | cons c l =>
    simp only [scanDigits1, List.cons_append] at h ⊢
    by_cases hc : isDigit c = true
    · simp only [hc, if_true, Except.ok.injEq, Prod.mk.injEq] at h ⊢
      rw [takeDigits_append l rest hrest]
      exact ⟨h.1, by rw [← h.2]⟩
    · simp [hc] at h

theorem scanFrac_append (l x r rest : List Char) (h : scanFrac l = .ok (x, r))
    (hrest : Delim rest) :
    scanFrac (l ++ rest) = .ok (x, r ++ rest) := by
  cases l with
  | nil =>
    simp only [scanFrac, Except.ok.injEq, Prod.mk.injEq] at h
    obtain ⟨rfl, rfl⟩ := h
    cases rest with
    | nil => rfl
    | cons c t =>
      have hc := hrest c (by simp)
      simp [scanFrac, hc.2.1]
  | cons c l =>
    simp only [scanFrac, List.cons_append] at h ⊢
    by_cases hc : c = '.'
    · simp only [hc, if_true] at h ⊢
      exact scanDigits1_append _ _ _ _ _ h (fun c hc => (hrest c hc).1)
    · simp only [hc, if_false, Except.ok.injEq, Prod.mk.injEq] at h ⊢
      exact ⟨h.1, by rw [← h.2]; rfl⟩

theorem scanExp_append (l x r rest : List Char) (h : scanExp l = .ok (x, r))
    (hrest : Delim rest) :
    scanExp (l ++ rest) = .ok (x, r ++ rest) := by
  cases l with
  | nil =>
    simp only [scanExp, Except.ok.injEq, Prod.mk.injEq] at h
    obtain ⟨rfl, rfl⟩ := h
    cases rest with
    | nil => rfl
    | cons c t =>
      have hc := hrest c (by simp)
      simp [scanExp, hc.2.2.1, hc.2.2.2]
  | cons c l =>
    simp only [scanExp, List.cons_append] at h ⊢
    by_cases hc : c = 'e' ∨ c = 'E'
    · simp only [hc, if_true] at h ⊢
      cases l with
      | nil => simp at h
      | cons s l1 =>
        simp only [List.cons_append] at h ⊢
        by_cases hs : s = '+' ∨ s = '-'
        · simp only [hs, if_true] at h ⊢
          exact scanDigits1_append _ _ _ _ _ h (fun c hc => (hrest c hc).1)
        · simp only [hs, if_false] at h ⊢
          exact scanDigits1_append _ (s :: l1) _ _ _ h (fun c hc => (hrest c hc).1)
    · simp only [hc, if_false, Except.ok.injEq, Prod.mk.injEq] at h ⊢
      exact ⟨h.1, by rw [← h.2]; rfl⟩

theorem scanUnsigned_append (l x r rest : List Char) (h : scanUnsigned l = .ok (x, r))
    (hrest : Delim rest) :
    scanUnsigned (l ++ rest) = .ok (x, r ++ rest) := by
  unfold scanUnsigned at h ⊢
  cases h1 : scanInt l with
  | error e => simp [h1] at h
  | ok p1 =>
    obtain ⟨ip, cs2⟩ := p1
    rw [scanInt_append l ip cs2 rest h1 (fun c hc => (hrest c hc).1)]
    simp only [h1] at h ⊢
    cases h2 : scanFrac cs2 with
    | error e => simp [h2] at h
    | ok p2 =>
      obtain ⟨fp, cs3⟩ := p2
      rw [scanFrac_append cs2 fp cs3 rest h2 hrest]
      simp only [h2] at h ⊢
      cases h3 : scanExp cs3 with
      | error e => simp [h3] at h
      | ok p3 =>
        obtain ⟨ep, cs4⟩ := p3
        rw [scanExp_append cs3 ep cs4 rest h3 hrest]
        simp only [h3, Except.ok.injEq, Prod.mk.injEq] at h ⊢
        exact ⟨h.1, by rw [← h.2]⟩

theorem scanNumber_append (l x r rest : List Char) (h : scanNumber l = .ok (x, r))
    (hrest : Delim rest) :
    scanNumber (l ++ rest) = .ok (x, r ++ rest) := by
  cases l with
  | nil => simp [scanNumber] at h
  | cons c l =>
    simp only [scanNumber, List.cons_append] at h ⊢
    by_cases hc : c = '-'
    · simp only [hc, if_true] at h ⊢
      cases hu : scanUnsigned l with
      | error e => simp [hu, consChar] at h
      | ok p =>
        obtain ⟨x', r'⟩ := p
        rw [scanUnsigned_append l x' r' rest hu hrest]
        simp only [hu, consChar, Except.ok.injEq, Prod.mk.injEq] at h ⊢
        exact ⟨h.1, by rw [← h.2]⟩
    · simp only [hc, if_false] at h ⊢
      exact scanUnsigned_append (c :: l) x r rest h hrest

theorem scanUnsigned_natDigits (fuel n : Nat) (h : n < fuel) :
    scanUnsigned (natDigits fuel n) = .ok (natDigits fuel n, []) := by
  obtain ⟨c, ds, hnd, hc, hds, h0, _⟩ := natDigits_spec fuel n h
  have hint : scanInt (c :: ds) = .ok (c :: ds, []) := by
    by_cases hz : c = '0'
    · have hn := h0 hz
      subst hn
      cases fuel with
      | zero => omega
      | succ fuel =>
        simp only [natDigits] at hnd
        simp only [Nat.lt_irrefl, Nat.zero_lt_succ, Nat.ofNat_pos, if_true] at hnd
        have : ds = [] := by
          have := congrArg List.tail hnd
          simpa using this.symm
        subst this
        simp [scanInt, hz]
    · simp [scanInt, hz, hc, takeDigits_all ds hds]
  rw [hnd]
  simp [scanUnsigned, hint, scanFrac, scanExp]

theorem numLit_intLit (i : Int) : NumLit (intLit i) := by
  unfold NumLit
  cases i with
  | ofNat n =>
    obtain ⟨c, ds, hnd, hc, _, _, _⟩ := natDigits_spec (n + 1) n (by omega)
    have hne : c ≠ '-' := by
      intro hm
      rw [hm] at hc
      exact absurd hc (by decide)
    have := scanUnsigned_natDigits (n + 1) n (by omega)
    simp only [intLit]
    rw [hnd] at this ⊢
    simp [scanNumber, hne, this]
  | negSucc n =>
    have := scanUnsigned_natDigits (n + 2) (n + 1) (by omega)
    simp [intLit, scanNumber, this, consChar]

theorem parseInt_intLit (i : Int) (hlo : -(2 ^ 63 : Int) ≤ i) (hhi : i < 2 ^ 63) :
    parseInt (intLit i) = some i := by
  cases i with
  | ofNat n =>
    obtain ⟨c, ds, hnd, hc, _, _, hval⟩ := natDigits_spec (n + 1) n (by omega)
    have hne : c ≠ '-' := by
      intro hm
      rw [hm] at hc
      exact absurd hc (by decide)
    have hn : n < 9223372036854775808 := by
      have : ((n : Nat) : Int) < 2 ^ 63 := hhi
      omega
    simp only [intLit]
    rw [hnd]
    unfold parseInt
    split
    · rename_i heq; cases heq
    · rename_i heq
      simp only [List.cons.injEq] at heq
      exact absurd heq.1 hne
    · rename_i heq
      simp only [List.cons.injEq] at heq
      exact absurd heq.1 hne
    · simp [hval, hn]
  | negSucc n =>
    obtain ⟨c, ds, hnd, hc, _, _, hval⟩ := natDigits_spec (n + 2) (n + 1) (by omega)
    have hn : n + 1 ≤ 9223372036854775808 := by
      have : -(2 ^ 63 : Int) ≤ Int.negSucc n := hlo
      rw [Int.negSucc_eq] at this
      omega
    simp only [intLit]
    rw [hnd]
    unfold parseInt
    have hn' : n + 1 ≤ 2 ^ 63 := by omega
    simp only [hval, Option.some_bind, hn', if_true]
    rw [Int.negSucc_eq]
    simp

/-! ## String literals -/

theorem getu4_low : ∀ n, n < 64 →
    getu4 '0' '0' (hexDigit (n / 16)) (hexDigit (n % 16)) = some n
      ∧ isSurrogate n = false := by
  decide

theorem scanString_escapeChar (fuel : Nat) (c : Char) (tail : List Char) :
    scanString (fuel + 1) (escapeChar c ++ tail) = consChar c (scanString fuel tail) := by
  by_cases h1 : c = '"'
  · subst h1; rfl
  by_cases h2 : c = '\\'
  · subst h2; rfl
  by_cases h3 : c = '\x08'
  · subst h3; rfl
  by_cases h4 : c = '\x0c'
  · subst h4; rfl
  by_cases h5 : c = '\n'
  · subst h5; rfl
  by_cases h6 : c = '\r'
  · subst h6; rfl
  by_cases h7 : c = '\t'
  · subst h7; rfl
  have hu : ∀ n, n < 64 → c.toNat = n →
      scanString (fuel + 1) (escapeU00 c.toNat ++ tail) = consChar c (scanString fuel tail) := by
    intro n hn hc
    have hg := getu4_low c.toNat (by omega)
    have hb : ('\\' : Char) ≠ '"' := by decide
    show scanString (fuel + 1) ('\\' :: 'u' :: '0' :: '0' :: hexDigit (c.toNat / 16)
      :: hexDigit (c.toNat % 16) :: tail) = _
    simp only [scanString, hb, if_false, if_true, hg.1, hg.2, Char.ofNat_toNat,
      Bool.false_eq_true]
  by_cases h8 : c.toNat < 32
  · have e : escapeChar c = escapeU00 c.toNat := by
      simp only [escapeChar, h1, h2, h3, h4, h5, h6, h7, h8, if_false, if_true]
    rw [e]
    exact hu c.toNat (by omega) rfl
  by_cases h9 : c = '<' ∨ c = '>' ∨ c = '&'
  · have e : escapeChar c = escapeU00 c.toNat := by
      simp only [escapeChar, h1, h2, h3, h4, h5, h6, h7, h8, h9, if_false, if_true]
    rw [e]
    have hlt : c.toNat < 64 := by
      rcases h9 with h | h | h <;> subst h <;> decide
    exact hu c.toNat hlt rfl
  by_cases h10 : c = '\u2028'
  · subst h10; rfl
  by_cases h11 : c = '\u2029'
  · subst h11; rfl
  have e : escapeChar c = [c] := by
    simp only [escapeChar, h1, h2, h3, h4, h5, h6, h7, h8, h9, h10, h11, if_false]
  rw [e]
  show scanString (fuel + 1) (c :: tail) = _
  simp only [scanString, h1, h2, h8, if_false]

theorem escapeChar_length (c : Char) : 1 ≤ (escapeChar c).length := by
  by_cases h1 : c = '"'
  · subst h1; decide
  by_cases h2 : c = '\\'
  · subst h2; decide
  by_cases h3 : c = '\x08'
  · subst h3; decide
  by_cases h4 : c = '\x0c'
  · subst h4; decide
  by_cases h5 : c = '\n'
  · subst h5; decide
  by_cases h6 : c = '\r'
  · subst h6; decide
  by_cases h7 : c = '\t'
  · subst h7; decide
  by_cases h8 : c.toNat < 32
  · simp only [escapeChar, h1, h2, h3, h4, h5, h6, h7, h8, if_false, if_true, escapeU00,
      List.length_cons]
    omega
  by_cases h9 : c = '<' ∨ c = '>' ∨ c = '&'
  · simp only [escapeChar, h1, h2, h3, h4, h5, h6, h7, h8, h9, if_false, if_true, escapeU00,
      List.length_cons]
    omega
  by_cases h10 : c = '\u2028'
  · subst h10; decide
  by_cases h11 : c = '\u2029'
  · subst h11; decide
  simp only [escapeChar, h1, h2, h3, h4, h5, h6, h7, h8, h9, h10, h11, if_false,
    List.length_cons, List.length_nil]
  omega

theorem toNat_ofNat (n : Nat) (h : n < 0xD800 ∨ (0xDFFF < n ∧ n < 0x110000)) :
    (Char.ofNat n).toNat = n := by
  have hv : n.isValidChar := h
  simp [Char.ofNat, hv, Char.ofNatAux, Char.toNat]
  rfl

set_option maxRecDepth 8000 in
theorem decodeRune_encode (bs : List Byte) (n : Nat) (rest : List Byte)
    (h : decodeRune bs = some (n, rest)) :
    (n < 0xD800 ∨ (0xDFFF < n ∧ n < 0x110000)) ∧ bs = encodeRune (Char.ofNat n) ++ rest := by
  cases bs with
  | nil => simp [decodeRune] at h
  | cons b0 r0 =>
    have hb0 := b0.isLt
    unfold decodeRune at h
    by_cases h1 : b0.val < 0x80
    · simp only [h1, if_true, Option.some.injEq, Prod.mk.injEq] at h
      obtain ⟨hn, hr⟩ := h
      have hv : n < 0xD800 ∨ (0xDFFF < n ∧ n < 0x110000) := by omega
      refine ⟨hv, ?_⟩
      have ht := toNat_ofNat n hv
      have hlt : n < 0x80 := by omega
      simp only [encodeRune, ht, hlt, if_true, List.cons_append, List.nil_append, hr]
      congr 1
      apply Fin.ext
      simp only [byte]
      omega
    simp only [h1, if_false] at h
    by_cases h2 : b0.val < 0xC2
    · simp [h2] at h
    simp only [h2, if_false] at h
    by_cases h3 : b0.val < 0xE0
    · simp only [h3, if_true] at h
      cases r0 with
      | nil => simp at h
      | cons b1 r1 =>
        have hb1 := b1.isLt
        by_cases hc : isCont b1 = true
        · simp only [hc, if_true, Option.some.injEq, Prod.mk.injEq] at h
          obtain ⟨hn, hr⟩ := h
          simp only [isCont, decide_eq_true_eq] at hc
          have hv : n < 0xD800 ∨ (0xDFFF < n ∧ n < 0x110000) := by omega
          refine ⟨hv, ?_⟩
          have ht := toNat_ofNat n hv
          have hge : ¬ n < 0x80 := by omega
          have hlt : n < 0x800 := by omega
          simp only [encodeRune, ht, hge, hlt, if_true, if_false, List.cons_append,
            List.nil_append, hr]
          congr 1
          · apply Fin.ext
            simp only [byte]
            omega
          · congr 1
            apply Fin.ext
            simp only [byte]
            omega
        · simp [hc] at h
    simp only [h3, if_false] at h
    by_cases h4 : b0.val < 0xF0
    · simp only [h4, if_true] at h
      cases r0 with
      | nil => simp at h
      | cons b1 r1 =>
        cases r1 with
        | nil => simp at h
        | cons b2 r2 =>
          have hb1 := b1.isLt
          have hb2 := b2.isLt
          by_cases hc : (if b0.val = 0xE0 then 0xA0 else 0x80) ≤ b1.val
              ∧ b1.val ≤ (if b0.val = 0xED then 0x9F else 0xBF) ∧ isCont b2 = true
          · simp only [hc, and_self, if_true, Option.some.injEq, Prod.mk.injEq] at h
            obtain ⟨hn, hr⟩ := h
            obtain ⟨hlo, hhi, hc2⟩ := hc
            simp only [isCont, decide_eq_true_eq] at hc2
            have hb : (b0.val = 0xE0 → 0xA0 ≤ b1.val) ∧ (b0.val = 0xED → b1.val ≤ 0x9F)
                ∧ 0x80 ≤ b1.val ∧ b1.val ≤ 0xBF := by
              split at hlo <;> split at hhi <;> omega
            have hge : ¬ n < 0x800 := by omega
            have hlt : n < 0x10000 := by omega
            have hv : n < 0xD800 ∨ (0xDFFF < n ∧ n < 0x110000) := by omega
            refine ⟨hv, ?_⟩
            have ht := toNat_ofNat n hv
            have hge1 : ¬ n < 0x80 := by omega
            simp only [encodeRune, ht, hge1, hge, hlt, if_true, if_false, List.cons_append,
              List.nil_append, hr]
            congr 1
            · apply Fin.ext
              simp only [byte]
              omega
            · congr 1
              · apply Fin.ext
                simp only [byte]
                omega
              · congr 1
                apply Fin.ext
                simp only [byte]
                omega
          · simp only [hc, if_false] at h
            cases h
    simp only [h4, if_false] at h
    by_cases h5 : b0.val < 0xF5
    · simp only [h5, if_true] at h
      cases r0 with
      | nil => simp at h
      | cons b1 r1 =>
        cases r1 with
        | nil => simp at h
        | cons b2 r2 =>
          cases r2 with
          | nil => simp at h
          | cons b3 r3 =>
            have hb1 := b1.isLt
            have hb2 := b2.isLt
            have hb3 := b3.isLt
            by_cases hc : (if b0.val = 0xF0 then 0x90 else 0x80) ≤ b1.val
                ∧ b1.val ≤ (if b0.val = 0xF4 then 0x8F else 0xBF) ∧ isCont b2 = true
                ∧ isCont b3 = true
            · simp only [hc, and_self, if_true, Option.some.injEq, Prod.mk.injEq] at h
              obtain ⟨hn, hr⟩ := h
              obtain ⟨hlo, hhi, hc2, hc3⟩ := hc
              simp only [isCont, decide_eq_true_eq] at hc2 hc3
              have hb : (b0.val = 0xF0 → 0x90 ≤ b1.val) ∧ (b0.val = 0xF4 → b1.val ≤ 0x8F)
                  ∧ 0x80 ≤ b1.val ∧ b1.val ≤ 0xBF := by
                split at hlo <;> split at hhi <;> omega
              have hge : ¬ n < 0x10000 := by omega
              have hlt : n < 0x110000 := by omega
              have hv : n < 0xD800 ∨ (0xDFFF < n ∧ n < 0x110000) := by omega
              refine ⟨hv, ?_⟩
              have ht := toNat_ofNat n hv
              have hge1 : ¬ n < 0x80 := by omega
              have hge2 : ¬ n < 0x800 := by omega
              simp only [encodeRune, ht, hge1, hge2, hge, if_false, List.cons_append,
                List.nil_append, hr]
              congr 1
              · apply Fin.ext
                simp only [byte]
                omega
              · congr 1
                · apply Fin.ext
                  simp only [byte]
                  omega
                · congr 1
                  · apply Fin.ext
                    simp only [byte]
                    omega
                  · congr 1
                    apply Fin.ext
                    simp only [byte]
                    omega
            · simp only [hc, if_false] at h
              cases h
    · simp [h5] at h

theorem scanString_escapeString (f : Nat) (s : GoString) (rest : List Char)
    (hv : validUTF8 f s = true) :
    ∀ fuel, (escapeString f s).length < fuel →
      ∃ cs, scanString fuel (escapeString f s ++ '"' :: rest) = .ok (cs, rest)
        ∧ encodeRunes cs = s := by
  have hnil : ∀ (g fuel : Nat), (escapeString g []).length < fuel →
      ∃ cs, scanString fuel (escapeString g [] ++ '"' :: rest) = .ok (cs, rest)
        ∧ encodeRunes cs = [] := by
    intro g fuel hf
    cases fuel with
    | zero => simp at hf
    | succ fuel =>
      refine ⟨[], ?_, rfl⟩
      cases g <;> simp [escapeString, scanString]
  induction f generalizing s with
  | zero =>
    cases s with
    | nil => exact hnil 0
    | cons b bs => simp [validUTF8] at hv
  | succ f ih =>
    cases s with
    | nil => exact hnil (f + 1)
    | cons b bs =>
      intro fuel hf
      cases hd : decodeRune (b :: bs) with
      | none => simp [validUTF8, hd] at hv
      | some p =>
        obtain ⟨n, rest1⟩ := p
        simp only [validUTF8, hd] at hv
        obtain ⟨_, henc⟩ := decodeRune_encode (b :: bs) n rest1 hd
        have hesc : escapeString (f + 1) (b :: bs)
            = escapeChar (Char.ofNat n) ++ escapeString f rest1 := by
          simp only [escapeString, hd]
        rw [hesc] at hf ⊢
        have hlen := escapeChar_length (Char.ofNat n)
        cases fuel with
        | zero => simp at hf
        | succ fuel =>
          obtain ⟨cs, hscan, hcs⟩ := ih rest1 hv fuel (by
            simp only [List.length_append] at hf
            omega)
          refine ⟨Char.ofNat n :: cs, ?_, ?_⟩
          · rw [List.append_assoc, scanString_escapeChar, hscan]
            rfl
          · simp only [encodeRunes, hcs]
            exact henc.symm

/-- The scanner reads a rendered string literal back, whatever follows it,
when the string holds valid UTF-8. -/
theorem scanString_render (s : GoString) (hv : s.valid) (rest : List Char) (fuel : Nat)
    (h : (escapeString s.length s ++ '"' :: rest).length < fuel) :
    ∃ cs, scanString fuel (escapeString s.length s ++ '"' :: rest) = .ok (cs, rest)
      ∧ encodeRunes cs = s := by
  apply scanString_escapeString s.length s rest hv
  simp only [List.length_append, List.length_cons] at h
  omega

/-! ## Reading back what was rendered -/

theorem skipSpace_cons (c : Char) (l : List Char) (h : isSpace c = false) :
    skipSpace (c :: l) = c :: l := by
  simp [skipSpace, h]

theorem numLit_head (lit : List Char) (h : NumLit lit) :
    ∃ c t, lit = c :: t ∧ (c = '-' ∨ isDigit c = true) := by
  unfold NumLit at h
  cases lit with
  | nil => simp [scanNumber] at h
  | cons c t =>
    refine ⟨c, t, rfl, ?_⟩
    by_cases hc : c = '-'
    · exact Or.inl hc
    · right
      simp only [scanNumber, hc, if_false, scanUnsigned] at h
      by_cases h0 : c = '0'
      · subst h0; decide
      · by_cases hd : isDigit c = true
        · exact hd
        · simp [scanInt, h0, hd] at h

theorem numStart_facts (c : Char) (h : c = '-' ∨ isDigit c = true) :
    isSpace c = false ∧ c ≠ '{' ∧ c ≠ '[' ∧ c ≠ '"' ∧ c ≠ 't' ∧ c ≠ 'f' ∧ c ≠ 'n' ∧ c ≠ ']'
      ∧ c ≠ '}' := by
  rcases h with h | h
  · subst h; decide
  · refine ⟨?_, ?_, ?_, ?_, ?_, ?_, ?_, ?_, ?_⟩
    · cases hs : isSpace c with
      | false => rfl
      | true =>
        exfalso
        simp only [isSpace, decide_eq_true_eq] at hs
        rcases hs with hs | hs | hs | hs <;> subst hs <;> exact absurd h (by decide)
    all_goals (intro hc; subst hc; exact absurd h (by decide))

/-- The first character of a rendering starts a value: it is not white space
and closes nothing. -/
theorem render_head (j : JSON) (d : Nat) (hj : wfValue d j) :
    ∃ c t, render j = c :: t ∧ isSpace c = false ∧ c ≠ ']' ∧ c ≠ '}' := by
  cases j with
  | null => exact ⟨'n', _, rfl, by decide, by decide, by decide⟩
  | bool b =>
    cases b
    · exact ⟨'f', _, rfl, by decide, by decide, by decide⟩
    · exact ⟨'t', _, rfl, by decide, by decide, by decide⟩
  | num lit =>
    obtain ⟨c, t, hl, hc⟩ := numLit_head lit.data (by simpa [wfValue] using hj)
    have hf := numStart_facts c hc
    exact ⟨c, t, by simp [render, hl], hf.1, hf.2.2.2.2.2.2.2.1, hf.2.2.2.2.2.2.2.2⟩
  | str s => exact ⟨'"', _, rfl, by decide, by decide, by decide⟩
  | arr xs => exact ⟨'[', _, rfl, by decide, by decide, by decide⟩
  | obj ms => exact ⟨'{', _, rfl, by decide, by decide, by decide⟩

mutual
/-- Reading a rendered value gives the value back and stops right after it. -/
theorem parseValue_render : ∀ (j : JSON) (d : Nat), wfValue d j →
    ∀ (fuel : Nat) (rest : List Char),
    ((∃ lit, j = .num lit) → Delim rest) → (render j).length < fuel →
    parseValue fuel d (render j ++ rest) = .ok (j, rest)
  | .null, d, _, fuel, rest, _, hf => by
    cases fuel with
    | zero => simp at hf
    | succ fuel => simp [render, parseValue, skipSpace, isSpace, scanLiteral]
  | .bool true, d, _, fuel, rest, _, hf => by
    cases fuel with
    | zero => simp at hf
    | succ fuel => simp [render, parseValue, skipSpace, isSpace, scanLiteral]
  | .bool false, d, _, fuel, rest, _, hf => by
    cases fuel with
    | zero => simp at hf
    | succ fuel => simp [render, parseValue, skipSpace, isSpace, scanLiteral]
  | .str s, d, hj, fuel, rest, _, hf => by
    cases fuel with
    | zero => simp at hf
    | succ fuel =>
      have hs : s.valid := by simpa [wfValue] using hj
      have hq : isSpace '"' = false := by decide
      show parseValue (fuel + 1) d ('"' :: (escapeString s.length s ++ ['"'] ++ rest)) = _
      simp only [parseValue, skipSpace_cons _ _ hq]
      have h1 : ('"' : Char) ≠ '{' := by decide
      have h2 : ('"' : Char) ≠ '[' := by decide
      simp only [h1, h2, if_false, if_true, List.append_assoc, List.singleton_append]
      obtain ⟨cs, hscan, hcs⟩ := scanString_render s hs rest
        ((escapeString s.length s ++ '"' :: rest).length + 1) (by omega)
      rw [hscan]
      simp only [mapString, hcs]
  | .num lit, d, hj, fuel, rest, hd, hf => by
    cases fuel with
    | zero => simp at hf
    | succ fuel =>
      have hn : NumLit lit.data := by simpa [wfValue] using hj
      obtain ⟨c, t, hl, hc⟩ := numLit_head lit.data hn
      have hfacts := numStart_facts c hc
      have hscan := scanNumber_append lit.data lit.data [] rest hn (hd ⟨lit, rfl⟩)
      simp only [render]
      rw [hl] at hscan ⊢
      simp only [List.cons_append] at hscan ⊢
      simp only [parseValue, skipSpace_cons _ _ hfacts.1]
      simp only [hfacts.2.1, hfacts.2.2.1, hfacts.2.2.2.1, hfacts.2.2.2.2.1,
        hfacts.2.2.2.2.2.1, hfacts.2.2.2.2.2.2.1, if_false]
      have hc' : (c = '-' ∨ isDigit c = true) := hc
      simp only [hc', if_true, hscan, mapNumber, List.nil_append]
      rw [← hl]
  | .arr [], d, hj, fuel, rest, _, hf => by
    cases fuel with
    | zero => simp at hf
    | succ fuel =>
      have hd : ¬ maxNestingDepth ≤ d := by
        have : d < maxNestingDepth := by simpa [wfValue, wfElems] using hj
        omega
      simp [render, renderElems, parseValue, skipSpace, isSpace, hd]
  | .arr (x :: xs), d, hj, fuel, rest, _, hf => by
    cases fuel with
    | zero => simp at hf
    | succ fuel =>
      have hj' : d < maxNestingDepth ∧ wfElems (d + 1) (x :: xs) := by
        simpa [wfValue] using hj
      have hwf := hj'.2
      have hd : ¬ maxNestingDepth ≤ d := by omega
      have hlen : (renderElems (x :: xs)).length < fuel := by
        simp only [render, List.length_cons] at hf
        omega
      have hrec := parseElems_render (x :: xs) (d + 1) (by simp) hwf fuel rest hlen
      obtain ⟨c, t, hr, hsp, hb, _⟩ := render_head x (d + 1) hwf.1
      have hhead : ∃ t', renderElems (x :: xs) ++ rest = c :: t' := by
        cases xs with
        | nil => exact ⟨t ++ ']' :: rest, by simp [renderElems, hr]⟩
        | cons y ys =>
          exact ⟨t ++ ',' :: (renderElems (y :: ys) ++ rest), by simp [renderElems, hr]⟩
      obtain ⟨t', ht'⟩ := hhead
      have hq : isSpace '[' = false := by decide
      have h1 : ('[' : Char) ≠ '{' := by decide
      show parseValue (fuel + 1) d ('[' :: (renderElems (x :: xs) ++ rest)) = _
      rw [ht'] at hrec ⊢
      simp only [parseValue, skipSpace_cons _ _ hq, skipSpace_cons _ _ hsp, h1, hb, hd, if_false,
        if_true, hrec]
  | .obj [], d, hj, fuel, rest, _, hf => by
    cases fuel with
    | zero => simp at hf
    | succ fuel =>
      have hd : ¬ maxNestingDepth ≤ d := by
        have : d < maxNestingDepth := by simpa [wfValue, wfMembers] using hj
        omega
      simp [render, renderMembers, parseValue, skipSpace, isSpace, hd]
  | .obj (m :: ms), d, hj, fuel, rest, _, hf => by
    cases fuel with
    | zero => simp at hf
    | succ fuel =>
      have hj' : d < maxNestingDepth ∧ wfMembers (d + 1) (m :: ms) := by
        simpa [wfValue] using hj
      have hwf := hj'.2
      have hd : ¬ maxNestingDepth ≤ d := by omega
      have hlen : (renderMembers (m :: ms)).length < fuel := by
        simp only [render, List.length_cons] at hf
        omega
      have hrec := parseMembers_render (m :: ms) (d + 1) (by simp) hwf fuel rest hlen
      have hhead : ∃ t', renderMembers (m :: ms) ++ rest = '"' :: t' := by
        obtain ⟨k, v⟩ := m
        cases ms with
        | nil =>
          exact ⟨escapeString k.length k ++ '"' :: ':' :: (render v ++ '}' :: rest), by
            simp [renderMembers, renderString]⟩
        | cons y ys =>
          exact ⟨escapeString k.length k ++ '"' :: ':' :: (render v ++ ',' ::
            (renderMembers (y :: ys) ++ rest)), by simp [renderMembers, renderString]⟩
      obtain ⟨t', ht'⟩ := hhead
      have hq : isSpace '{' = false := by decide
      have hsp : isSpace '"' = false := by decide
      have hb : ('"' : Char) ≠ '}' := by decide
      show parseValue (fuel + 1) d ('{' :: (renderMembers (m :: ms) ++ rest)) = _
      rw [ht'] at hrec ⊢
      simp only [parseValue, skipSpace_cons _ _ hq, skipSpace_cons _ _ hsp, hb, hd, if_false,
        if_true, hrec]
/-- Reading the rendered elements of an array gives them back. -/
theorem parseElems_render : ∀ (l : List JSON) (d : Nat), l ≠ [] → wfElems d l →
    ∀ (fuel : Nat) (rest : List Char), (renderElems l).length < fuel →
    parseElems fuel d (renderElems l ++ rest) = .ok (l, rest)
  | [], _, hne, _, _, _, _ => absurd rfl hne
  | [x], d, _, hwf, fuel, rest, hf => by
    cases fuel with
    | zero => simp at hf
    | succ fuel =>
      have hx : (render x).length < fuel := by
        simp only [renderElems, List.length_append, List.length_singleton] at hf
        omega
      have hd : Delim (']' :: rest) := by
        intro c hc
        simp only [List.head?_cons, Option.mem_def, Option.some.injEq] at hc
        subst hc
        decide
      have hv := parseValue_render x d hwf.1 fuel (']' :: rest) (fun _ => hd) hx
      have hsp : isSpace ']' = false := by decide
      simp only [renderElems, List.append_assoc, List.singleton_append]
      simp only [parseElems, hv, skipSpace_cons _ _ hsp, if_true]
  | x :: y :: ys, d, _, hwf, fuel, rest, hf => by
    cases fuel with
    | zero => simp at hf
    | succ fuel =>
      have hx : (render x).length < fuel := by
        simp only [renderElems, List.length_append, List.length_cons] at hf
        omega
      have hl : (renderElems (y :: ys)).length < fuel := by
        simp only [renderElems, List.length_append, List.length_cons] at hf
        omega
      have hd : Delim (',' :: (renderElems (y :: ys) ++ rest)) := by
        intro c hc
        simp only [List.head?_cons, Option.mem_def, Option.some.injEq] at hc
        subst hc
        decide
      have hv := parseValue_render x d hwf.1 fuel _ (fun _ => hd) hx
      have hrec := parseElems_render (y :: ys) d (by simp) hwf.2 fuel rest hl
      have hsp : isSpace ',' = false := by decide
      have hb : (',' : Char) ≠ ']' := by decide
      simp only [renderElems, List.append_assoc, List.cons_append]
      simp only [parseElems, hv, skipSpace_cons _ _ hsp, hb, if_false, if_true, hrec]
/-- Reading the rendered members of an object gives them back. -/
theorem parseMembers_render : ∀ (l : List (GoString × JSON)) (d : Nat), l ≠ [] →
    wfMembers d l →
    ∀ (fuel : Nat) (rest : List Char), (renderMembers l).length < fuel →
    parseMembers fuel d (renderMembers l ++ rest) = .ok (l, rest)
  | [], _, hne, _, _, _, _ => absurd rfl hne
  | [(k, v)], d, _, hwf, fuel, rest, hf => by
    cases fuel with
    | zero => simp at hf
    | succ fuel =>
      have hx : (render v).length < fuel := by
        simp only [renderMembers, List.length_append, List.length_cons] at hf
        omega
      have hd : Delim ('}' :: rest) := by
        intro c hc
        simp only [List.head?_cons, Option.mem_def, Option.some.injEq] at hc
        subst hc
        decide
      have hv := parseValue_render v d hwf.2.1 fuel ('}' :: rest) (fun _ => hd) hx
      have hq : isSpace '"' = false := by decide
      have hcol : isSpace ':' = false := by decide
      have hsp : isSpace '}' = false := by decide
      show parseMembers (fuel + 1) d
        ('"' :: (escapeString k.length k ++ ['"'] ++ ':' :: (render v ++ ['}']) ++ rest)) = _
      simp only [List.append_assoc, List.singleton_append, List.cons_append]
      simp only [parseMembers, skipSpace_cons _ _ hq, if_true]
      obtain ⟨cs, hscan, hcs⟩ := scanString_render k hwf.1
        ([] ++ ':' :: (render v ++ '}' :: ([] ++ rest)))
        ((escapeString k.length k ++ '"' :: ([] ++ ':' :: (render v ++ '}' :: ([] ++ rest)))).length
          + 1) (by omega)
      rw [hscan]
      simp only [List.nil_append, skipSpace_cons _ _ hcol, if_true, hv, skipSpace_cons _ _ hsp,
        hcs]
  | (k, v) :: m :: ms, d, _, hwf, fuel, rest, hf => by
    cases fuel with
    | zero => simp at hf
    | succ fuel =>
      have hx : (render v).length < fuel := by
        simp only [renderMembers, List.length_append, List.length_cons] at hf
        omega
      have hl : (renderMembers (m :: ms)).length < fuel := by
        simp only [renderMembers, List.length_append, List.length_cons] at hf
        omega
      have hd : Delim (',' :: (renderMembers (m :: ms) ++ rest)) := by
        intro c hc
        simp only [List.head?_cons, Option.mem_def, Option.some.injEq] at hc
        subst hc
        decide
      have hv := parseValue_render v d hwf.2.1 fuel _ (fun _ => hd) hx
      have hrec := parseMembers_render (m :: ms) d (by simp) hwf.2.2 fuel rest hl
      have hq : isSpace '"' = false := by decide
      have hcol : isSpace ':' = false := by decide
      have hsp : isSpace ',' = false := by decide
      have hb : (',' : Char) ≠ '}' := by decide
      show parseMembers (fuel + 1) d
        ('"' :: (escapeString k.length k ++ ['"'] ++ ':' :: (render v ++ ',' ::
          renderMembers (m :: ms)) ++ rest)) = _
      simp only [List.append_assoc, List.singleton_append, List.cons_append]
      simp only [parseMembers, skipSpace_cons _ _ hq, if_true]
      obtain ⟨cs, hscan, hcs⟩ := scanString_render k hwf.1
        ([] ++ ':' :: (render v ++ ',' :: (renderMembers (m :: ms) ++ rest)))
        ((escapeString k.length k ++ '"' :: ([] ++ ':' :: (render v ++ ',' ::
          (renderMembers (m :: ms) ++ rest)))).length + 1) (by omega)
      rw [hscan]
      simp only [List.nil_append, skipSpace_cons _ _ hcol, if_true, hv, skipSpace_cons _ _ hsp,
        hb, if_false, hrec, hcs]
end

/-- Reading a rendered value from the head of a stream gives the value back,
whatever follows it (after a number, anything that does not extend it). -/
theorem readValue_render (j : JSON) (hj : wfValue 0 j) (tail : List Char)
    (hd : (∃ lit, j = .num lit) → Delim tail) :
    readValue (render j ++ tail) = .ok j := by
  obtain ⟨c, t, hr, hsp, _, _⟩ := render_head j 0 hj
  have hp := parseValue_render j 0 hj ((t ++ tail).length + 2) tail hd (by
    rw [hr]
    simp only [List.length_cons, List.length_append]
    omega)
  unfold readValue
  rw [hr] at hp ⊢
  simp only [List.cons_append] at hp ⊢
  rw [skipSpace_cons _ _ hsp]
  simp only [hp]

/-! ## Storing what was encoded -/

theorem decodeMembers_append_ok {α : Type} (f : String → JSON → α → Except JSONError α)
    (a b : List (GoString × JSON)) (c0 c1 : α) (r : Except JSONError α)
    (h1 : decodeMembers f a c0 = .ok c1) (h2 : decodeMembers f b c1 = r) :
    decodeMembers f (a ++ b) c0 = r := by
  induction a generalizing c0 with
  | nil =>
    simp only [decodeMembers, Except.ok.injEq] at h1
    subst h1
    exact h2
  | cons p a ih =>
    obtain ⟨k, v⟩ := p
    simp only [List.cons_append, decodeMembers] at h1 ⊢
    cases hs : f (foldName k) v c0 with
    | error e => simp [hs] at h1
    | ok c =>
      simp only [hs] at h1 ⊢
      exact ih c h1

theorem decodeMembers_cons_ok {α : Type} (f : String → JSON → α → Except JSONError α)
    (k : GoString) (v : JSON) (ms : List (GoString × JSON)) (c0 c1 : α) (r : Except JSONError α)
    (h1 : f (foldName k) v c0 = .ok c1) (h2 : decodeMembers f ms c1 = r) :
    decodeMembers f ((k, v) :: ms) c0 = r := by
  simp only [decodeMembers, h1]
  exact h2

theorem decodeMembers_one {α : Type} (f : String → JSON → α → Except JSONError α)
    (k : GoString) (v : JSON) (cur next : α) (hf : f (foldName k) v cur = .ok next) :
    decodeMembers f [(k, v)] cur = .ok next := by
  simp [decodeMembers, hf]

theorem decodeMembers_omitString {α : Type} (f : String → JSON → α → Except JSONError α)
    (k : String) (s : GoString) (cur next : α) (hz : s = [] → next = cur)
    (hf : f (foldName (bytes k)) (.str s) cur = .ok next) :
    decodeMembers f (omitEmptyString k s) cur = .ok next := by
  unfold omitEmptyString
  by_cases hs : s = []
  · rw [if_pos hs, hz hs]
    rfl
  · rw [if_neg hs]
    exact decodeMembers_one f (bytes k) _ cur next hf

theorem decodeMembers_omitInt {α : Type} (f : String → JSON → α → Except JSONError α)
    (k : String) (n : Int) (cur next : α) (hz : n = 0 → next = cur)
    (hf : f (foldName (bytes k)) (jsonInt n) cur = .ok next) :
    decodeMembers f (omitEmptyInt k n) cur = .ok next := by
  unfold omitEmptyInt
  by_cases hs : n = 0
  · rw [if_pos hs, hz hs]
    rfl
  · rw [if_neg hs]
    exact decodeMembers_one f (bytes k) _ cur next hf

theorem decodeMembers_omitBool {α : Type} (f : String → JSON → α → Except JSONError α)
    (k : String) (b : Bool) (cur next : α) (hz : b = false → next = cur)
    (hf : b = true → f (foldName (bytes k)) (.bool true) cur = .ok next) :
    decodeMembers f (omitEmptyBool k b) cur = .ok next := by
  unfold omitEmptyBool
  cases b with
  | false => rw [hz rfl]; rfl
  | true => exact decodeMembers_one f (bytes k) _ cur next (hf rfl)

theorem decodeInt_jsonInt (n cur : Int) (h : isInt64 n) : decodeInt (jsonInt n) cur = .ok n := by
  simp [decodeInt, jsonInt, parseInt_intLit n h.1 h.2]

theorem wfValue_jsonInt (d : Nat) (n : Int) : wfValue d (jsonInt n) := by
  simp only [jsonInt, wfValue]
  exact numLit_intLit n

theorem request_decode_encode (r : Request) (hv : r.inRange) :
    decodeStruct Request.setField r.toJSON Request.zero = .ok r := by
  obtain ⟨q, gl, hl, num, ac, page, ty, loc, tbs, safe⟩ := r
  obtain ⟨hnum, hpage⟩ := hv
  simp only [] at hnum hpage
  simp only [Request.toJSON, decodeStruct, Request.zero]
  refine decodeMembers_append_ok _ _ _ _ ⟨q, gl, hl, num, ac, page, ty, loc, tbs, []⟩ _
    (decodeMembers_append_ok _ _ _ _ ⟨q, gl, hl, num, ac, page, ty, loc, [], []⟩ _
    (decodeMembers_append_ok _ _ _ _ ⟨q, gl, hl, num, ac, page, ty, [], [], []⟩ _
    (decodeMembers_append_ok _ _ _ _ ⟨q, gl, hl, num, ac, page, [], [], [], []⟩ _
    (decodeMembers_append_ok _ _ _ _ ⟨q, gl, hl, num, ac, 0, [], [], [], []⟩ _
    (decodeMembers_append_ok _ _ _ _ ⟨q, gl, hl, num, false, 0, [], [], [], []⟩ _
    (decodeMembers_append_ok _ _ _ _ ⟨q, gl, hl, 0, false, 0, [], [], [], []⟩ _
    (decodeMembers_append_ok _ _ _ _ ⟨q, gl, [], 0, false, 0, [], [], [], []⟩ _
    (decodeMembers_append_ok _ _ _ _ ⟨q, [], [], 0, false, 0, [], [], [], []⟩ _
      ?_ ?_) ?_) ?_) ?_) ?_) ?_) ?_) ?_) ?_
  · exact decodeMembers_one _ _ _ _ _ rfl
  · exact decodeMembers_omitString _ _ _ _ _ (fun h => by rw [h]) rfl
  · exact decodeMembers_omitString _ _ _ _ _ (fun h => by rw [h]) rfl
  · refine decodeMembers_omitInt _ _ _ _ _ (fun h => by rw [h]) ?_
    show (decodeInt (jsonInt num) 0).map _ = _
    rw [decodeInt_jsonInt num 0 hnum]
    rfl
  · exact decodeMembers_omitBool _ _ _ _ _ (fun h => by rw [h]) (fun h => by rw [h]; rfl)
  · refine decodeMembers_omitInt _ _ _ _ _ (fun h => by rw [h]) ?_
    show (decodeInt (jsonInt page) 0).map _ = _
    rw [decodeInt_jsonInt page 0 hpage]
    rfl
  · exact decodeMembers_omitString _ _ _ _ _ (fun h => by rw [h]) rfl
  · exact decodeMembers_omitString _ _ _ _ _ (fun h => by rw [h]) rfl
  · exact decodeMembers_omitString _ _ _ _ _ (fun h => by rw [h]) rfl
  · exact decodeMembers_omitString _ _ _ _ _ (fun h => by rw [h]) rfl
/-! ## What the encoder writes is readable -/

theorem wfMembers_append (d : Nat) (a b : List (GoString × JSON)) (ha : wfMembers d a)
    (hb : wfMembers d b) : wfMembers d (a ++ b) := by
  induction a with
  | nil => exact hb
  | cons p a ih =>
    obtain ⟨k, v⟩ := p
    exact ⟨ha.1, ha.2.1, ih ha.2.2⟩

theorem wfMembers_one (d : Nat) (k : String) (v : JSON)
    (hk : validUTF8 (bytes k).length (bytes k) = true) (hv : wfValue d v) :
    wfMembers d [member k v] :=
  ⟨hk, hv, trivial⟩

theorem wfMembers_omitString (d : Nat) (k : String) (s : GoString)
    (hk : validUTF8 (bytes k).length (bytes k) = true) (hs : s.valid) :
    wfMembers d (omitEmptyString k s) := by
  unfold omitEmptyString
  split
  · trivial
  · exact ⟨hk, hs, trivial⟩

theorem wfMembers_omitInt (d : Nat) (k : String) (n : Int)
    (hk : validUTF8 (bytes k).length (bytes k) = true) :
    wfMembers d (omitEmptyInt k n) := by
  unfold omitEmptyInt
  split
  · trivial
  · exact ⟨hk, wfValue_jsonInt d n, trivial⟩

theorem wfMembers_omitBool (d : Nat) (k : String) (b : Bool)
    (hk : validUTF8 (bytes k).length (bytes k) = true) :
    wfMembers d (omitEmptyBool k b) := by
  unfold omitEmptyBool
  split
  · exact ⟨hk, trivial, trivial⟩
  · trivial

theorem wfValue_request (r : Request) (hu : r.validUTF8) : wfValue 0 r.toJSON := by
  obtain ⟨hq, hgl, hhl, hty, hloc, htbs, hsafe⟩ := hu
  simp only [Request.toJSON, wfValue]
  refine ⟨by decide, ?_⟩
  repeat' apply wfMembers_append
  · exact wfMembers_one _ _ _ (by decide) hq
  · exact wfMembers_omitString _ _ _ (by decide) hgl
  · exact wfMembers_omitString _ _ _ (by decide) hhl
  · exact wfMembers_omitInt _ _ _ (by decide)
  · exact wfMembers_omitBool _ _ _ (by decide)
  · exact wfMembers_omitInt _ _ _ (by decide)
  · exact wfMembers_omitString _ _ _ (by decide) hty
  · exact wfMembers_omitString _ _ _ (by decide) hloc
  · exact wfMembers_omitString _ _ _ (by decide) htbs
  · exact wfMembers_omitString _ _ _ (by decide) hsafe

theorem keys_omitString (k : String) (s : GoString) :
    (omitEmptyString k s).map (fun p => p.1) = if s ≠ [] then [bytes k] else [] := by
  unfold omitEmptyString
  by_cases h : s = [] <;> simp [h, member]

theorem keys_omitInt (k : String) (n : Int) :
    (omitEmptyInt k n).map (fun p => p.1) = if n ≠ 0 then [bytes k] else [] := by
  unfold omitEmptyInt
  by_cases h : n = 0 <;> simp [h, member]

theorem keys_omitBool (k : String) (b : Bool) :
    (omitEmptyBool k b).map (fun p => p.1) = if b ≠ false then [bytes k] else [] := by
  cases b <;> simp [omitEmptyBool, member]

/-- C7 as stated fails at `Request{Q: "\xff"}`, whose `int` fields are zero:
the encoder writes the byte `0xff`, which is not valid UTF-8, as the escape of
U+FFFD, so the payload is `{"q":"\ufffd"}` and decoding it gives a request
whose `Q` is the three bytes `ef bf bd`, not the request that was encoded. -/
theorem invalid_utf8_request_not_reproduced :
    invalidRequest.inRange
    ∧ jsonMarshal (.request (some invalidRequest)) = .ok "\x7b\"q\":\"\\ufffd\"\x7d".data
    ∧ jsonDecode Request.setField Request.zero "\x7b\"q\":\"\\ufffd\"\x7d".data
        = .ok { Request.zero with Q := [0xef, 0xbf, 0xbd] }
    ∧ jsonDecode Request.setField Request.zero (render invalidRequest.toJSON)
        ≠ .ok invalidRequest := by
  refine ⟨?_, rfl, rfl, ?_⟩
  · simp [Request.inRange, isInt64, invalidRequest, Request.zero]
  · have h : jsonDecode Request.setField Request.zero (render invalidRequest.toJSON)
        = .ok { Request.zero with Q := [0xef, 0xbf, 0xbd] } := rfl
    rw [h]
    intro he
    have hq : ([0xef, 0xbf, 0xbd] : GoString) = [0xff] :=
      congrArg Request.Q (Except.ok.inj he)
    exact absurd hq (by decide)

/-- C7 (amended): for every `Request` whose `int` fields are in the range of
the Go type and whose string fields hold valid UTF-8, the payload is the
rendering of its encoding, decoding that payload gives every field back, and
the payload is an object whose keys are `q` and the keys of exactly those
optional fields that are not the zero value. -/
theorem request_round_trip (r : Request) (hr : r.inRange) (hu : r.validUTF8) :
    jsonMarshal (.request (some r)) = .ok (render r.toJSON)
    ∧ jsonDecode Request.setField Request.zero (render r.toJSON) = .ok r
    ∧ (∃ ms, readValue (render r.toJSON) = .ok (.obj ms)
        ∧ ms.map (fun p => p.1) = r.presentKeys) := by
  have hread : readValue (render r.toJSON) = .ok r.toJSON := by
    have := readValue_render r.toJSON (wfValue_request r hu) [] (by
      rintro ⟨lit, hl⟩
      simp [Request.toJSON] at hl)
    simpa using this
  refine ⟨rfl, ?_, ?_⟩
  · simp only [jsonDecode, hread]
    exact request_decode_encode r hr
  · rw [hread]
    refine ⟨_, rfl, ?_⟩
    simp only [List.map_append, keys_omitString, keys_omitInt, keys_omitBool,
      Request.presentKeys, List.map_cons, List.map_nil, member]

/-- C7 (amended) at a request with some optional fields set and some left at
zero. -/
theorem request_round_trip_witness :
    Request.inRange
      { Request.zero with
        Q := bytes "a<b", Num := 10, Autocorrect := true, Tbs := bytes "qdr:d" }
    ∧ Request.validUTF8
      { Request.zero with
        Q := bytes "a<b", Num := 10, Autocorrect := true, Tbs := bytes "qdr:d" }
    ∧ jsonDecode Request.setField Request.zero
        (render (Request.toJSON
          { Request.zero with
            Q := bytes "a<b", Num := 10, Autocorrect := true, Tbs := bytes "qdr:d" }))
        = .ok { Request.zero with
            Q := bytes "a<b", Num := 10, Autocorrect := true, Tbs := bytes "qdr:d" } :=
  ⟨by simp [Request.inRange, isInt64, Request.zero],
    ⟨rfl, rfl, rfl, rfl, rfl, rfl, rfl⟩,
    (request_round_trip
      { Request.zero with
        Q := bytes "a<b", Num := 10, Autocorrect := true, Tbs := bytes "qdr:d" }
      (by simp [Request.inRange, isInt64, Request.zero])
      ⟨rfl, rfl, rfl, rfl, rfl, rfl, rfl⟩).2.1⟩

/-! ## Responses -/

theorem decodeElems_map {α : Type} (elem : JSON → α → Except JSONError α) (zero : α)
    (enc : α → JSON) (xs : List α) (h : ∀ x ∈ xs, elem (enc x) zero = .ok x) :
    decodeElems elem zero (xs.map enc) = .ok xs := by
  induction xs with
  | nil => rfl
  | cons x xs ih =>
    simp only [List.map_cons, decodeElems, h x (List.mem_cons_self _ _),
      ih (fun y hy => h y (List.mem_cons_of_mem _ hy))]

theorem decodeMembers_omitList {α : Type} (f : String → JSON → α → Except JSONError α)
    (k : String) (xs : List JSON) (cur next : α) (hz : xs = [] → next = cur)
    (hf : f (foldName (bytes k)) (.arr xs) cur = .ok next) :
    decodeMembers f (omitEmptyList k xs) cur = .ok next := by
  unfold omitEmptyList
  cases xs with
  | nil => rw [hz rfl]; rfl
  | cons x xs => exact decodeMembers_one f (bytes k) _ cur next hf

theorem decodeMembers_omitMap {α : Type} (f : String → JSON → α → Except JSONError α)
    (k : String) (ms : List (GoString × JSON)) (cur next : α) (hz : ms = [] → next = cur)
    (hf : f (foldName (bytes k)) (.obj ms) cur = .ok next) :
    decodeMembers f (omitEmptyMap k ms) cur = .ok next := by
  unfold omitEmptyMap
  cases ms with
  | nil => rw [hz rfl]; rfl
  | cons x xs => exact decodeMembers_one f (bytes k) _ cur next hf

theorem keyLess_irrefl (a : GoString) : keyLess a a = false := by
  induction a with
  | nil => rfl
  | cons x xs ih => simp [keyLess, ih]

theorem keyLess_asymm (a b : GoString) (h : keyLess a b = true) : keyLess b a = false := by
  induction a generalizing b with
  | nil =>
    cases b with
    | nil => rfl
    | cons y ys => rfl
  | cons x xs ih =>
    cases b with
    | nil => simp [keyLess] at h
    | cons y ys =>
      simp only [keyLess, Bool.or_eq_true, decide_eq_true_eq, Bool.and_eq_true] at h
      simp only [keyLess, Bool.or_eq_false_iff, decide_eq_false_iff_not, Bool.and_eq_false_imp,
        decide_eq_true_eq]
      rcases h with h | ⟨he, hl⟩
      · refine ⟨by omega, fun he => ?_⟩
        rw [he] at h
        omega
      · subst he
        exact ⟨by omega, fun _ => ih ys hl⟩

theorem mapSet_last {β : Type} (k : GoString) (v : β) (m : List (GoString × β))
    (h : ∀ p ∈ m, keyLess p.1 k = true) : mapSet k v m = m ++ [(k, v)] := by
  induction m with
  | nil => rfl
  | cons p m ih =>
    obtain ⟨k', v'⟩ := p
    have hlt : keyLess k' k = true := h (k', v') (List.mem_cons_self _ _)
    have hne : ¬ k = k' := fun he => by
      rw [he, keyLess_irrefl] at hlt
      exact Bool.noConfusion hlt
    have hnlt : keyLess k k' = false := keyLess_asymm k' k hlt
    simp only [mapSet, hne, hnlt, if_false, Bool.false_eq_true, List.cons_append,
      ih (fun q hq => h q (List.mem_cons_of_mem _ hq))]

theorem decodeEntries_sorted {β : Type} (elem : JSON → β → Except JSONError β) (zero : β)
    (enc : β → JSON) (m acc : List (GoString × β))
    (henc : ∀ p ∈ m, elem (enc p.2) zero = .ok p.2) (hs : sortedKeys (acc ++ m)) :
    decodeEntries elem zero (m.map (fun p => (p.1, enc p.2))) acc = .ok (acc ++ m) := by
  induction m generalizing acc with
  | nil => simp [decodeEntries]
  | cons p m ih =>
    obtain ⟨k, v⟩ := p
    have hv := henc (k, v) (List.mem_cons_self _ _)
    simp only [] at hv
    have hlast : mapSet k v acc = acc ++ [(k, v)] := by
      apply mapSet_last
      intro q hq
      unfold sortedKeys at hs
      rw [List.pairwise_append] at hs
      exact hs.2.2 q hq (k, v) (List.mem_cons_self _ _)
    simp only [List.map_cons, decodeEntries, hv, hlast]
    rw [ih (acc ++ [(k, v)]) (fun q hq => henc q (List.mem_cons_of_mem _ hq))
      (by simpa using hs)]
    simp

theorem parameters_decode_encode (p : Parameters) (hv : p.inRange) :
    decodeStruct Parameters.setField p.toJSON Parameters.zero = .ok p := by
  obtain ⟨q, gl, hl, num, ac, page, ty, loc⟩ := p
  obtain ⟨hnum, hpage⟩ := hv
  simp only [] at hnum hpage
  simp only [Parameters.toJSON, decodeStruct, Parameters.zero]
  refine decodeMembers_append_ok _ _ _ _ ⟨q, gl, hl, num, ac, page, ty, []⟩ _
    (decodeMembers_append_ok _ _ _ _ ⟨q, gl, hl, num, ac, page, [], []⟩ _
    (decodeMembers_append_ok _ _ _ _ ⟨q, gl, hl, num, ac, 0, [], []⟩ _
    (decodeMembers_append_ok _ _ _ _ ⟨q, gl, hl, num, false, 0, [], []⟩ _
    (decodeMembers_append_ok _ _ _ _ ⟨q, gl, hl, 0, false, 0, [], []⟩ _
    (decodeMembers_append_ok _ _ _ _ ⟨q, gl, [], 0, false, 0, [], []⟩ _
    (decodeMembers_append_ok _ _ _ _ ⟨q, [], [], 0, false, 0, [], []⟩ _
      ?_ ?_) ?_) ?_) ?_) ?_) ?_) ?_
  · exact decodeMembers_one _ _ _ _ _ rfl
  · exact decodeMembers_omitString _ _ _ _ _ (fun h => by rw [h]) rfl
  · exact decodeMembers_omitString _ _ _ _ _ (fun h => by rw [h]) rfl
  · refine decodeMembers_omitInt _ _ _ _ _ (fun h => by rw [h]) ?_
    show (decodeInt (jsonInt num) 0).map _ = _
    rw [decodeInt_jsonInt num 0 hnum]
    rfl
  · exact decodeMembers_omitBool _ _ _ _ _ (fun h => by rw [h]) (fun h => by rw [h]; rfl)
  · refine decodeMembers_omitInt _ _ _ _ _ (fun h => by rw [h]) ?_
    show (decodeInt (jsonInt page) 0).map _ = _
    rw [decodeInt_jsonInt page 0 hpage]
    rfl
  · exact decodeMembers_omitString _ _ _ _ _ (fun h => by rw [h]) rfl
  · exact decodeMembers_omitString _ _ _ _ _ (fun h => by rw [h]) rfl

theorem sitelink_decode_encode (s : Sitelink) :
    decodeStruct Sitelink.setField s.toJSON Sitelink.zero = .ok s := by
  obtain ⟨t, l⟩ := s
  rfl

theorem relatedSearch_decode_encode (s : RelatedSearch) :
    decodeStruct RelatedSearch.setField s.toJSON RelatedSearch.zero = .ok s := by
  obtain ⟨q⟩ := s
  rfl

theorem peopleAlsoAsk_decode_encode (p : PeopleAlsoAsk) :
    decodeStruct PeopleAlsoAsk.setField p.toJSON PeopleAlsoAsk.zero = .ok p := by
  obtain ⟨a, b, c, d⟩ := p
  rfl

theorem organic_decode_encode (o : OrganicResult) (hv : o.inRange) :
    decodeStruct OrganicResult.setField o.toJSON OrganicResult.zero = .ok o := by
  obtain ⟨t, l, sn, pos, date, sl, attrs⟩ := o
  obtain ⟨hpos, hattrs⟩ := hv
  simp only [] at hpos hattrs
  simp only [OrganicResult.toJSON, decodeStruct, OrganicResult.zero]
  refine decodeMembers_append_ok _ _ _ _ ⟨t, l, sn, pos, date, sl, []⟩ _
    (decodeMembers_append_ok _ _ _ _ ⟨t, l, sn, pos, date, [], []⟩ _
    (decodeMembers_append_ok _ _ _ _ ⟨t, l, sn, pos, [], [], []⟩ _
      ?_ ?_) ?_) ?_
  · show decodeMembers OrganicResult.setField
      ([member "title" (.str t)] ++ ([member "link" (.str l)] ++ ([member "snippet" (.str sn)]
        ++ [member "position" (jsonInt pos)]))) _ = _
    refine decodeMembers_append_ok _ _ _ _ ⟨t, [], [], 0, [], [], []⟩ _
      (decodeMembers_one _ _ _ _ _ (by rfl))
      (decodeMembers_append_ok _ _ _ _ ⟨t, l, [], 0, [], [], []⟩ _
        (decodeMembers_one _ _ _ _ _ (by rfl))
        (decodeMembers_append_ok _ _ _ _ ⟨t, l, sn, 0, [], [], []⟩ _
          (decodeMembers_one _ _ _ _ _ (by rfl)) ?_))
    refine decodeMembers_one _ _ _ _ _ ?_
    show (decodeInt (jsonInt pos) 0).map _ = _
    rw [decodeInt_jsonInt pos 0 hpos]
    rfl
  · exact decodeMembers_omitString _ _ _ _ _ (fun h => by rw [h]) rfl
  · refine decodeMembers_omitList _ _ _ _ _ (fun h => ?_) ?_
    · have : sl = [] := by simpa using h
      rw [this]
    · show (decodeList (decodeStruct Sitelink.setField) Sitelink.zero
        (.arr (sl.map Sitelink.toJSON)) []).map _ = _
      simp only [decodeList]
      rw [decodeElems_map _ _ _ sl (fun x _ => sitelink_decode_encode x)]
      rfl
  · refine decodeMembers_omitMap _ _ _ _ _ (fun h => ?_) ?_
    · have : attrs = [] := by simpa using h
      rw [this]
    · show (decodeMap decodeString [] (.obj (attrs.map (fun p => (p.1, JSON.str p.2)))) []).map _
        = _
      simp only [decodeMap]
      rw [decodeEntries_sorted decodeString [] JSON.str attrs [] (fun p _ => rfl)
        (by simpa using hattrs)]
      rfl

theorem knowledgeGraph_decode_encode (g : KnowledgeGraph) (hattrs : g.inRange) :
    decodeStruct KnowledgeGraph.setField g.toJSON KnowledgeGraph.zero = .ok g := by
  obtain ⟨t, ty, web, img, desc, dsrc, dlink, attrs⟩ := g
  simp only [KnowledgeGraph.inRange] at hattrs
  simp only [KnowledgeGraph.toJSON, decodeStruct, KnowledgeGraph.zero]
  refine decodeMembers_append_ok _ _ _ _ ⟨t, ty, web, img, desc, dsrc, dlink, []⟩ _
    (decodeMembers_append_ok _ _ _ _ ⟨t, ty, web, img, desc, dsrc, [], []⟩ _
    (decodeMembers_append_ok _ _ _ _ ⟨t, ty, web, img, desc, [], [], []⟩ _
    (decodeMembers_append_ok _ _ _ _ ⟨t, ty, web, img, [], [], [], []⟩ _
    (decodeMembers_append_ok _ _ _ _ ⟨t, ty, web, [], [], [], [], []⟩ _
    (decodeMembers_append_ok _ _ _ _ ⟨t, ty, [], [], [], [], [], []⟩ _
      ?_ ?_) ?_) ?_) ?_) ?_) ?_
  · show decodeMembers KnowledgeGraph.setField ([member "title" (.str t)]
      ++ [member "type" (.str ty)]) _ = _
    exact decodeMembers_append_ok _ _ _ _ ⟨t, [], [], [], [], [], [], []⟩ _
      (decodeMembers_one _ _ _ _ _ (by rfl)) (decodeMembers_one _ _ _ _ _ (by rfl))
  · exact decodeMembers_omitString _ _ _ _ _ (fun h => by rw [h]) rfl
  · exact decodeMembers_omitString _ _ _ _ _ (fun h => by rw [h]) rfl
  · exact decodeMembers_omitString _ _ _ _ _ (fun h => by rw [h]) rfl
  · exact decodeMembers_omitString _ _ _ _ _ (fun h => by rw [h]) rfl
  · exact decodeMembers_omitString _ _ _ _ _ (fun h => by rw [h]) rfl
  · refine decodeMembers_omitMap _ _ _ _ _ (fun h => by rw [h]) ?_
    show (decodeMap decodeInterface JSON.null (.obj attrs) []).map _ = _
    simp only [decodeMap]
    have := decodeEntries_sorted decodeInterface JSON.null id attrs [] (fun p _ => rfl)
      (by simpa using hattrs)
    simp only [id, Prod.mk.eta, List.map_id', List.nil_append] at this
    rw [this]
    rfl

theorem searchResponse_decode_encode (r : SearchResponse) (hv : r.inRange) :
    decodeStruct SearchResponse.setField r.toJSON SearchResponse.zero = .ok r := by
  obtain ⟨⟨sp, cr⟩, org, kg, paa, rs⟩ := r
  obtain ⟨hsp, hcr, horg, hkg⟩ := hv
  simp only [] at hsp hcr horg hkg
  simp only [SearchResponse.toJSON, decodeStruct, SearchResponse.zero]
  refine decodeMembers_append_ok _ _ _ _ ⟨⟨sp, cr⟩, org, kg, paa, []⟩ _
    (decodeMembers_append_ok _ _ _ _ ⟨⟨sp, cr⟩, org, kg, [], []⟩ _
    (decodeMembers_append_ok _ _ _ _ ⟨⟨sp, cr⟩, org, none, [], []⟩ _
      ?_ ?_) ?_) ?_
  · refine decodeMembers_cons_ok _ _ _ _ _ ⟨⟨sp, 0⟩, none, none, [], []⟩ _ ?_
      (decodeMembers_cons_ok _ _ _ _ _ ⟨⟨sp, cr⟩, none, none, [], []⟩ _ ?_
        (decodeMembers_one _ _ _ _ _ ?_))
    · show (decodeStruct Parameters.setField sp.toJSON Parameters.zero).map _ = _
      rw [parameters_decode_encode sp hsp]
      rfl
    · show (decodeInt (jsonInt cr) 0).map _ = _
      rw [decodeInt_jsonInt cr 0 hcr]
      rfl
    · cases org with
      | none => rfl
      | some os =>
        show (decodeSlice (decodeStruct OrganicResult.setField) OrganicResult.zero
          (.arr (os.map OrganicResult.toJSON)) none).map _ = _
        simp only [decodeSlice]
        rw [decodeElems_map _ _ _ os (fun o ho => organic_decode_encode o (horg os rfl o ho))]
        rfl
  · cases kg with
    | none => rfl
    | some g =>
      refine decodeMembers_one _ _ _ _ _ ?_
      show (decodePtr (decodeStruct KnowledgeGraph.setField) KnowledgeGraph.zero g.toJSON
        none).map _ = _
      have hg := knowledgeGraph_decode_encode g (hkg g rfl)
      have hp : decodePtr (decodeStruct KnowledgeGraph.setField) KnowledgeGraph.zero g.toJSON
          none = .ok (some g) := by
        simp only [KnowledgeGraph.toJSON] at hg ⊢
        simp only [decodePtr, Option.getD_none, hg]
        rfl
      rw [hp]
      rfl
  · refine decodeMembers_omitList _ _ _ _ _ (fun h => ?_) ?_
    · have : paa = [] := by simpa using h
      rw [this]
    · show (decodeList (decodeStruct PeopleAlsoAsk.setField) PeopleAlsoAsk.zero
        (.arr (paa.map PeopleAlsoAsk.toJSON)) []).map _ = _
      simp only [decodeList]
      rw [decodeElems_map _ _ _ paa (fun x _ => peopleAlsoAsk_decode_encode x)]
      rfl
  · refine decodeMembers_omitList _ _ _ _ _ (fun h => ?_) ?_
    · have : rs = [] := by simpa using h
      rw [this]
    · show (decodeList (decodeStruct RelatedSearch.setField) RelatedSearch.zero
        (.arr (rs.map RelatedSearch.toJSON)) []).map _ = _
      simp only [decodeList]
      rw [decodeElems_map _ _ _ rs (fun x _ => relatedSearch_decode_encode x)]
      rfl

theorem wfElems_map {α : Type} (d : Nat) (enc : α → JSON) (xs : List α)
    (h : ∀ x ∈ xs, wfValue d (enc x)) : wfElems d (xs.map enc) := by
  induction xs with
  | nil => trivial
  | cons x xs ih =>
    exact ⟨h x (List.mem_cons_self _ _), ih (fun y hy => h y (List.mem_cons_of_mem _ hy))⟩

theorem wfMembers_cons (d : Nat) (k : String) (v : JSON) (ms : List (GoString × JSON))
    (hk : validUTF8 (bytes k).length (bytes k) = true) (hv : wfValue d v)
    (hms : wfMembers d ms) : wfMembers d (member k v :: ms) :=
  ⟨hk, hv, hms⟩

theorem wfMembers_omitList (d : Nat) (k : String) (xs : List JSON)
    (hk : validUTF8 (bytes k).length (bytes k) = true) (hd : d < maxNestingDepth)
    (h : wfElems (d + 1) xs) : wfMembers d (omitEmptyList k xs) := by
  unfold omitEmptyList
  split
  · trivial
  · exact ⟨hk, ⟨hd, h⟩, trivial⟩

theorem wfMembers_omitMap (d : Nat) (k : String) (ms : List (GoString × JSON))
    (hk : validUTF8 (bytes k).length (bytes k) = true) (hd : d < maxNestingDepth)
    (h : wfMembers (d + 1) ms) : wfMembers d (omitEmptyMap k ms) := by
  unfold omitEmptyMap
  split
  · trivial
  · exact ⟨hk, ⟨hd, h⟩, trivial⟩

theorem wfMembers_strings (d : Nat) (m : List (GoString × GoString))
    (h : ∀ p ∈ m, p.1.valid ∧ p.2.valid) :
    wfMembers d (m.map (fun p => (p.1, JSON.str p.2))) := by
  induction m with
  | nil => trivial
  | cons p m ih =>
    have hp := h p (List.mem_cons_self _ _)
    exact ⟨hp.1, hp.2, ih (fun q hq => h q (List.mem_cons_of_mem _ hq))⟩

theorem wfValue_parameters (p : Parameters) (hu : p.validUTF8) : wfValue 1 p.toJSON := by
  obtain ⟨hq, hgl, hhl, hty, hloc⟩ := hu
  simp only [Parameters.toJSON, wfValue]
  refine ⟨by decide, ?_⟩
  repeat' apply wfMembers_append
  · exact wfMembers_one _ _ _ (by decide) hq
  · exact wfMembers_omitString _ _ _ (by decide) hgl
  · exact wfMembers_omitString _ _ _ (by decide) hhl
  · exact wfMembers_omitInt _ _ _ (by decide)
  · exact wfMembers_omitBool _ _ _ (by decide)
  · exact wfMembers_omitInt _ _ _ (by decide)
  · exact wfMembers_omitString _ _ _ (by decide) hty
  · exact wfMembers_omitString _ _ _ (by decide) hloc

theorem wfValue_sitelink (s : Sitelink) (hu : s.validUTF8) : wfValue 4 s.toJSON := by
  simp only [Sitelink.toJSON, wfValue]
  exact ⟨by decide, wfMembers_cons _ _ _ _ (by decide) hu.1
    (wfMembers_one _ _ _ (by decide) hu.2)⟩

theorem wfValue_organic (o : OrganicResult) (hu : o.validUTF8) : wfValue 2 o.toJSON := by
  obtain ⟨ht, hl, hsn, hdate, hsl, hattrs⟩ := hu
  simp only [OrganicResult.toJSON, wfValue]
  refine ⟨by decide, ?_⟩
  repeat' apply wfMembers_append
  · exact wfMembers_cons _ _ _ _ (by decide) ht
      (wfMembers_cons _ _ _ _ (by decide) hl
        (wfMembers_cons _ _ _ _ (by decide) hsn
          (wfMembers_one _ _ _ (by decide) (wfValue_jsonInt _ _))))
  · exact wfMembers_omitString _ _ _ (by decide) hdate
  · exact wfMembers_omitList _ _ _ (by decide) (by decide)
      (wfElems_map _ _ _ (fun s hs => wfValue_sitelink s (hsl s hs)))
  · exact wfMembers_omitMap _ _ _ (by decide) (by decide) (wfMembers_strings _ _ hattrs)

theorem wfValue_knowledgeGraph (g : KnowledgeGraph) (hu : g.readable) :
    wfValue 1 g.toJSON := by
  obtain ⟨ht, hty, hweb, himg, hdesc, hsrc, hlink, hattrs⟩ := hu
  simp only [KnowledgeGraph.toJSON, wfValue]
  refine ⟨by decide, ?_⟩
  repeat' apply wfMembers_append
  · exact wfMembers_cons _ _ _ _ (by decide) ht (wfMembers_one _ _ _ (by decide) hty)
  · exact wfMembers_omitString _ _ _ (by decide) hweb
  · exact wfMembers_omitString _ _ _ (by decide) himg
  · exact wfMembers_omitString _ _ _ (by decide) hdesc
  · exact wfMembers_omitString _ _ _ (by decide) hsrc
  · exact wfMembers_omitString _ _ _ (by decide) hlink
  · exact wfMembers_omitMap _ _ _ (by decide) (by decide) hattrs

theorem wfValue_peopleAlsoAsk (p : PeopleAlsoAsk) (hu : p.validUTF8) :
    wfValue 2 p.toJSON := by
  simp only [PeopleAlsoAsk.toJSON, wfValue]
  exact ⟨by decide, wfMembers_cons _ _ _ _ (by decide) hu.1
    (wfMembers_cons _ _ _ _ (by decide) hu.2.1
      (wfMembers_cons _ _ _ _ (by decide) hu.2.2.1
        (wfMembers_one _ _ _ (by decide) hu.2.2.2)))⟩

theorem wfValue_relatedSearch (s : RelatedSearch) (hu : s.validUTF8) :
    wfValue 2 s.toJSON := by
  simp only [RelatedSearch.toJSON, wfValue]
  exact ⟨by decide, wfMembers_one _ _ _ (by decide) hu⟩

theorem wfValue_searchResponse (r : SearchResponse) (hu : r.readable) :
    wfValue 0 r.toJSON := by
  obtain ⟨⟨sp, cr⟩, org, kg, paa, rs⟩ := r
  obtain ⟨hsp, horg, hkg, hpaa, hrs⟩ := hu
  simp only [] at hsp horg hkg hpaa hrs
  simp only [SearchResponse.toJSON, wfValue]
  refine ⟨by decide, ?_⟩
  repeat' apply wfMembers_append
  · refine wfMembers_cons _ _ _ _ (by decide) (wfValue_parameters sp hsp)
      (wfMembers_cons _ _ _ _ (by decide) (wfValue_jsonInt _ _)
        (wfMembers_one _ _ _ (by decide) ?_))
    cases org with
    | none => trivial
    | some os =>
      exact ⟨by decide, wfElems_map _ _ _ (fun o ho => wfValue_organic o (horg os rfl o ho))⟩
  · cases kg with
    | none => trivial
    | some g =>
      exact wfMembers_one _ _ _ (by decide) (wfValue_knowledgeGraph g (hkg g rfl))
  · exact wfMembers_omitList _ _ _ (by decide) (by decide)
      (wfElems_map _ _ _ (fun p hp => wfValue_peopleAlsoAsk p (hpaa p hp)))
  · exact wfMembers_omitList _ _ _ (by decide) (by decide)
      (wfElems_map _ _ _ (fun s hs => wfValue_relatedSearch s (hrs s hs)))

/-- The decoder of `Search` gives back a response from its encoding, whatever
follows the encoding in the body. -/
theorem searchResponse_round_trip (r : SearchResponse) (hv : r.inRange) (hu : r.readable)
    (tail : List Char) :
    jsonDecode SearchResponse.setField SearchResponse.zero (render r.toJSON ++ tail) = .ok r := by
  have hread := readValue_render r.toJSON (wfValue_searchResponse r hu) tail (by
    rintro ⟨lit, hl⟩
    simp [SearchResponse.toJSON] at hl)
  simp only [jsonDecode, hread]
  exact searchResponse_decode_encode r hv

/-- C4 as stated fails at a `SearchResponse` whose one organic result has the
title `"\xff"`: the encoder writes the byte `0xff`, which is not valid UTF-8,
as the escape of U+FFFD, and `Search`, given status 200 and that encoding as
the body, returns no error and a response whose `Organic[0].Title` is the three
bytes `ef bf bd`, not the title that was encoded. -/
theorem invalid_utf8_title_not_preserved :
    invalidResponse.inRange
    ∧ (invalidResponse.Organic.getD []).map (fun o => o.Title) = [[0xff]]
    ∧ render invalidResponse.toJSON
        = ("\x7b\"searchParameters\":\x7b\"q\":\"\"\x7d,\"credits\":1,\"organic\":"
            ++ "[\x7b\"title\":\"\\ufffd\",\"link\":\"\",\"snippet\":\"\","
            ++ "\"position\":0\x7d]\x7d").data
    ∧ ((testClient "test-api-key" "http://127.0.0.1:8080").Search
        ⟨fun _ => true, fun _ _ => .response 200 (render invalidResponse.toJSON)⟩
        (some 0) (some testRequest)).err = none
    ∧ (((testClient "test-api-key" "http://127.0.0.1:8080").Search
        ⟨fun _ => true, fun _ _ => .response 200 (render invalidResponse.toJSON)⟩
        (some 0) (some testRequest)).resp.map
          (fun resp => (resp.Organic.getD []).map (fun o => o.Title)))
        = some [[0xef, 0xbf, 0xbd]] := by
  refine ⟨?_, rfl, by decide, rfl, rfl⟩
  refine ⟨⟨by simp [isInt64, invalidResponse, SearchResponse.zero, Parameters.zero],
    by simp [isInt64, invalidResponse, SearchResponse.zero, Parameters.zero]⟩,
    by simp [isInt64, invalidResponse], ?_, ?_⟩
  · intro os hos o ho
    simp only [invalidResponse, Option.some.injEq] at hos
    subst hos
    simp only [List.mem_singleton] at ho
    subst ho
    exact ⟨by simp [isInt64, OrganicResult.zero], List.Pairwise.nil⟩
  · intro g hg
    cases hg

/-- C4 (amended): when the request of `Search` reaches the transport and the
response has a status below 400 and a body that starts with the JSON encoding
of a `SearchResponse` `r` whose `int` fields are in the range of the Go type,
whose strings all hold valid UTF-8 and whose knowledge-graph attributes stay
within the nesting limit of the reader, `Search` returns no error and the
response `r`: the same credits and the same organic results in the same order,
so the same number of them and the same titles. -/
theorem search_returns_response (w : World) (c : Client) (ctx : Context)
    (req : Option Request) (rq : HTTPRequest) (s : Int) (r : SearchResponse)
    (tail : List Char)
    (hsent : (c.Search w ctx req).sent = [rq])
    (hresp : w.Do c.httpClient rq = .response s (render r.toJSON ++ tail))
    (hs : s < 400)
    (hv : r.inRange) (hu : r.readable) :
    (c.Search w ctx req).err = none
    ∧ ∃ resp, (c.Search w ctx req).resp = some resp
        ∧ resp.Credits = r.Credits ∧ resp.Organic = r.Organic
        ∧ (resp.Organic.getD []).length = (r.Organic.getD []).length
        ∧ (resp.Organic.getD []).map (fun o => o.Title)
            = (r.Organic.getD []).map (fun o => o.Title) := by
  have hcall := call_of_response w c ctx .search req rq s (render r.toJSON ++ tail) hsent hresp
  have hdec : Vertical.decode .search (render r.toJSON ++ tail) = .ok r :=
    searchResponse_round_trip r hv hu tail
  rw [classify_ok rq _ s _ hs, hdec] at hcall
  have hcall' : c.Search w ctx req = ⟨[rq], some r, none⟩ := hcall
  rw [hcall']
  exact ⟨rfl, r, rfl, rfl, rfl, rfl, rfl⟩

/-- C4 (amended) in the case of the package's test: status 200, one credit and
one organic result titled `Test Result`, encoded with a final newline. -/
theorem search_returns_response_witness :
    testResponse.inRange ∧ testResponse.readable
    ∧ ((testClient "test-api-key" "http://127.0.0.1:8080").Search
        ⟨fun _ => true, fun _ _ => .response 200 (render testResponse.toJSON ++ ['\n'])⟩
        (some 0) (some testRequest)).err = none
    ∧ ∃ resp, ((testClient "test-api-key" "http://127.0.0.1:8080").Search
          ⟨fun _ => true, fun _ _ => .response 200 (render testResponse.toJSON ++ ['\n'])⟩
          (some 0) (some testRequest)).resp = some resp
        ∧ (resp.Organic.getD []).length = 1
        ∧ (resp.Organic.getD []).map (fun o => o.Title) = [bytes "Test Result"] := by
  have hv : testResponse.inRange := by
    refine ⟨⟨by simp [isInt64, testResponse, SearchResponse.zero, Parameters.zero],
      by simp [isInt64, testResponse, SearchResponse.zero, Parameters.zero]⟩,
      by simp [isInt64, testResponse], ?_, ?_⟩
    · intro os hos o ho
      simp only [testResponse, Option.some.injEq] at hos
      subst hos
      simp only [List.mem_singleton] at ho
      subst ho
      exact ⟨by simp [isInt64, OrganicResult.zero], List.Pairwise.nil⟩
    · intro g hg
      cases hg
  have hu : testResponse.readable := by
    refine ⟨⟨rfl, rfl, rfl, rfl, rfl⟩, ?_, ?_, ?_, ?_⟩
    · intro os hos o ho
      simp only [testResponse, Option.some.injEq] at hos
      subst hos
      simp only [List.mem_singleton] at ho
      subst ho
      exact ⟨rfl, rfl, rfl, rfl, fun s hs => by simp [OrganicResult.zero] at hs,
        fun p hp => by simp [OrganicResult.zero] at hp⟩
    · intro g hg
      cases hg
    · intro p hp
      simp [testResponse, SearchResponse.zero] at hp
    · intro s hs
      simp [testResponse, SearchResponse.zero] at hs
  have h := search_returns_response
    ⟨fun _ => true, fun _ _ => .response 200 (render testResponse.toJSON ++ ['\n'])⟩
    (testClient "test-api-key" "http://127.0.0.1:8080") (some 0) (some testRequest)
    ((testClient "test-api-key" "http://127.0.0.1:8080").outbound 0 "/search"
      (some (requestBody (some testRequest))))
    200 testResponse ['\n']
    (call_sent_eq
      ⟨fun _ => true, fun _ _ => .response 200 (render testResponse.toJSON ++ ['\n'])⟩
      (testClient "test-api-key" "http://127.0.0.1:8080") 0 .search (some testRequest) rfl)
    rfl (by decide) hv hu
  obtain ⟨he, resp, hr, _, horg, hlen, htitles⟩ := h
  exact ⟨hv, hu, he, resp, hr, by rw [hlen]; rfl, by rw [htitles]; rfl⟩
end Serper
